import Mathlib

/-!
Verification development for the TypeScript native-module schema builder
(packages/react-native-codegen/src/parsers/typescript/modules/index.js).

The JavaScript source is shallowly embedded below.  Syntax-tree nodes coming
out of the babel parser are modelled by the inductive types TSType, TSMember,
TSParam and friends; the intermediate-representation values produced by the
translator are modelled by TypeIR.  The JavaScript functions
translateTypeAnnotation, translateArrayTypeAnnotation,
translateFunctionTypeAnnotation, buildPropertySchema and buildModuleSchema are
embedded as fueled total functions (the JS recursion is unbounded because type
aliases are substituted from the file's type-declaration map; fuel exhaustion
models the stack overflow the JS process would hit, and is recorded in a ghost
flag so theorems can restrict attention to runs the real program completes).

Mutable state in the source (the per-property alias map object and the error
list owned by the parser-error capturer) is write-only during translation, so
it is embedded in writer style: every function returns the list of alias-map
insertions and the list of captured errors it performs, in order, and the
callers that own the objects in the source apply those lists.

Helper modules of the repository that are not part of the translated file
(parsers-commons, parsers-primitives, the typescript utils) are modelled from
the specification; each such definition carries a doc comment saying so.
-/

namespace CodegenModules

/-! ## String helpers with JavaScript semantics -/

/-- Is `pat` a prefix of `s` (on character lists)? Structural so it evaluates
by kernel reduction. -/
def listStartsWith : List Char → List Char → Bool
  | [], _ => true
  | _ :: _, [] => false
  | a :: as, b :: bs => a = b && listStartsWith as bs

/-- Replace the first occurrence of `pat` by `rep` in the character list,
as JavaScript String.prototype.replace with a string pattern does. -/
def jsReplaceChars (pat rep : List Char) : List Char → List Char
  | [] => []
  | c :: rest =>
    if listStartsWith pat (c :: rest) then rep ++ List.drop pat.length (c :: rest)
    else c :: jsReplaceChars pat rep rest

/-- JavaScript s.replace(pat, rep) (first occurrence only). -/
def jsReplace (s pat rep : String) : String :=
  String.mk (jsReplaceChars pat.data rep.data s.data)

/-- JavaScript s.endsWith(suf). -/
def jsEndsWith (s suf : String) : Bool :=
  listStartsWith suf.data.reverse s.data.reverse

/-! ## Syntax-tree model (babel TypeScript AST, restricted to the shapes the
translator inspects) -/

mutual

/-- A TypeScript type-annotation node.  `nullableMarker` stands for the
nullability wrappers (union with null/undefined) that the annotation resolver
unwraps; `otherT` stands for every node kind the translator does not handle
specially, carrying its babel type-name string. -/
inductive TSType : Type where
  | TSArrayType (elementType : TSType)
  | TSTypeOperator (operator : String) (inner : TSType)
  | TSTypeReference (name : String) (typeParams : Option (List TSType))
  | TSTypeLiteral (members : List TSMember)
  | TSBooleanKeyword
  | TSNumberKeyword
  | TSVoidKeyword
  | TSStringKeyword
  | TSFunctionType (parameters : List TSParam) (returnTy : Option TSType)
  | TSUnionType (unionMembers : List (Option String))
  | TSUnknownKeyword
  | nullableMarker (inner : TSType)
  | otherT (kind : String)

/-- A member of an inline object-literal type.  For a TSPropertySignature the
babel wrapper node property.typeAnnotation.typeAnnotation is collapsed into
the direct type. -/
inductive TSMember : Type where
  | TSPropertySignature (name : String) (optional : Bool) (typeAnnot : TSType)
  | otherMember (kind : String)

/-- A declared function parameter; typeAnnot is none when the parameter has
no explicit type annotation (typeScriptParam.typeAnnotation == null). -/
inductive TSParam : Type where
  | mk (name : String) (optional : Bool) (typeAnnot : Option TSType)

end

/-- A member of a union-shaped node, as the translator sees it: some s when
the member carries a .literal whose babel type name is s (e.g. NumericLiteral,
StringLiteral, BooleanLiteral), none for a member with no literal. -/
abbrev UnionMember := Option String

/-- One member of an enum declaration: the babel type name of its initializer
literal, if any. -/
structure EnumMemberD : Type where
  initializer : Option String

/-- One interface extends-clause entry (node.extends of the babel AST). -/
structure ExtendsClause : Type where
  clauseKind : String
  expressionName : String

/-- One member of the module interface body, after collapsing babel wrappers:
memberKind is the babel node type string (TSMethodSignature,
TSPropertySignature, or something else); value is the method's own function
shape for a method signature, and the declared type for a property
signature. -/
structure SpecMember : Type where
  memberKind : String
  name : String
  optional : Bool
  value : TSType

/-- A top-level type declaration recorded by getTypes. -/
inductive TypeDecl : Type where
  | typeAlias (rhs : TSType)
  | enumDecl (members : List EnumMemberD)
  | interfaceDecl (name : String) (extendsList : List ExtendsClause) (body : List SpecMember)
  | otherDecl (kind : String)

/-- An argument of a call expression. -/
structure CallArg : Type where
  argKind : String
  value : String

/-- The typeParameters node attached to a call expression. -/
structure TypeParamsNode : Type where
  nodeKind : String
  params : List TSType

/-- A call expression found anywhere in the file.  isRegistryCall is modelled
from the spec: whether isModuleRegistryCall recognizes the call as going
through a recognized registry accessor. -/
structure CallExpr : Type where
  isRegistryCall : Bool
  calleeMethod : String
  args : List CallArg
  typeParams : Option TypeParamsNode

/-- One parsed source file: its top-level type declarations in source order
(name, declaration), and the call expressions the visit pass would collect,
in tree order. -/
structure Program : Type where
  decls : List (String × TypeDecl)
  calls : List CallExpr

/-! ## JavaScript object semantics for string-keyed maps -/

/-- JavaScript object property assignment m[k] = v: an existing key keeps its
position and gets the new value, a new key is appended. -/
def objInsertG {β : Type} (m : List (String × β)) (k : String) (v : β) : List (String × β) :=
  if m.any (fun p => p.1 = k) then m.map (fun p => if p.1 = k then (k, v) else p)
  else m ++ [(k, v)]

/-- Build a JavaScript object from assignments performed in list order. -/
def objFromList {β : Type} (l : List (String × β)) : List (String × β) :=
  l.foldl (fun acc kv => objInsertG acc kv.1 kv.2) []

/-- JavaScript object spread of b onto a: every entry of b is assigned on top
of a, so entries of b win on shared keys. -/
def objSpread {β : Type} (a b : List (String × β)) : List (String × β) :=
  b.foldl (fun acc kv => objInsertG acc kv.1 kv.2) a

/-- Property lookup in a JavaScript object represented as above (keys are
unique, so the first match is the binding). -/
def lookupFirst {β : Type} : List (String × β) → String → Option β
  | [], _ => none
  | (k, v) :: rest, n => if k = n then some v else lookupFirst rest n

/-- The file's type-declaration map, as a JavaScript object. -/
abbrev TypeDeclMap := List (String × TypeDecl)

/-! ## Intermediate representation (NativeModuleTypeAnnotation of
CodegenSchema) -/

/-- The IR type-annotation values the translator produces.  The NullableT
wrapper is the NullableTypeAnnotation object produced by wrapNullable; member
kinds of EnumT and UnionT are the strings the source computes. -/
inductive TypeIR : Type where
  | BooleanT
  | NumberT
  | Int32T
  | DoubleT
  | FloatT
  | StringT
  | StringishT
  | GenericObjectT
  | ObjectT (properties : List (String × Bool × TypeIR))
  | ArrayT (elementType : Option TypeIR)
  | FunctionT (params : List (String × Bool × TypeIR)) (returnTy : TypeIR)
  | PromiseT
  | VoidT
  | RootTagT
  | EnumT (memberType : String)
  | UnionT (memberType : String)
  | MixedT
  | TypeAliasT (name : String)
  | NullableT (inner : TypeIR)

/-- Modelled from the spec: wrapNullable of parsers-commons.  Wraps the value
in a NullableTypeAnnotation object when the flag is set. -/
def wrapNullable (nullable : Bool) (t : TypeIR) : TypeIR :=
  if nullable then TypeIR.NullableT t else t

/-- Modelled from the spec: unwrapNullable of parsers-commons.  Returns the
inner value and whether a NullableTypeAnnotation wrapper was present. -/
def unwrapNullable : TypeIR → TypeIR × Bool
  | TypeIR.NullableT t => (t, true)
  | t => (t, false)

def isFunctionIR : TypeIR → Bool
  | TypeIR.FunctionT _ _ => true
  | _ => false

/-! ## Errors and the capturer -/

/-- The parser-error taxonomy of errors.js, restricted to the payload fields
the claims inspect.  jsError stands for a non-ParserError JavaScript exception
(TypeError on a malformed node, or the stack overflow modelled by fuel
exhaustion); the error capturer does not capture those. -/
inductive ParserError : Type where
  | ModuleInterfaceNotFound
  | MoreThanOneModuleInterface
  | MisnamedModuleInterface
  | UnusedModuleInterface
  | MoreThanOneModuleRegistryCalls
  | IncorrectModuleRegistryCallArity (arity : Nat)
  | IncorrectModuleRegistryCallArgumentKind (kind : String)
  | UntypedModuleRegistryCall
  | IncorrectModuleRegistryCallTypeParameter
  | UnnamedFunctionParam
  | UnsupportedArrayElementKind (arrayKind : String) (elementKind : String)
  | UnsupportedGeneric
  | UnsupportedTypeAnnot (kind : String)
  | UnsupportedEnumDeclaration (memberType : String)
  | UnsupportedUnionKind (memberTypes : List String)
  | UnsupportedModuleProperty (name : String) (kind : String)
  | UnsupportedObjectPropertyKind (kind : String)
  | UnsupportedObjectPropertyValueKind (name : String) (kind : String)
  | UnsupportedFunctionParamKind (paramName : String) (kind : String)
  | UnsupportedFunctionReturnKind (kind : String)
  | MissingTypeParameterGeneric
  | MoreThanOneTypeParameterGeneric
  | jsError

/-- Is the exception an instance of ParserError (so the capturer catches it)? -/
def isParserErrorKind : ParserError → Bool
  | ParserError.jsError => false
  | _ => true

/-- The write-only effects of one translation step: alias-map assignments in
order, captured errors in order, and a ghost flag that is false when fuel ran
out (a stack overflow) somewhere inside, even if a catch swallowed it. -/
structure Delta : Type where
  inserts : List (String × TypeIR)
  errors : List ParserError
  fuelOk : Bool

def Delta.empty : Delta := ⟨[], [], true⟩

def Delta.app (a b : Delta) : Delta :=
  ⟨a.inserts ++ b.inserts, a.errors ++ b.errors, a.fuelOk && b.fuelOk⟩

/-- A delta recording only whether the annotation resolver completed. -/
def mkResDelta (resOk : Bool) : Delta := ⟨[], [], resOk⟩

/-- Conjoin the resolver-completed flag into a computation's delta. -/
def combineOk (resOk : Bool) (d : Delta) : Delta :=
  ⟨d.inserts, d.errors, resOk && d.fuelOk⟩

/-- Modelled from the spec: the parser-error capturer (guard function of
createParserErrorCapturer) when capture is true, and the nullGuard of the
translated file when capture is false.  A captured ParserError is appended to
the error list and the result becomes absent; other exceptions propagate. -/
def runCapture {α : Type} (capture : Bool) :
    Except ParserError α × Delta → Except ParserError (Option α) × Delta
  | (Except.ok v, d) => (Except.ok (some v), d)
  | (Except.error e, d) =>
    if capture && isParserErrorKind e then
      (Except.ok none, ⟨d.inserts, d.errors ++ [e], d.fuelOk⟩)
    else (Except.error e, d)

/-! ## Annotation resolver (typescript parsers utils, modelled from the
spec) -/

/-- Status of alias resolution, telling the object-literal branch under which
name to register the resolved object. -/
inductive AliasStatus : Type where
  | successful (aliasName : String)
  | failed

/-- Output of the annotation resolver: collapsed nullability flag, innermost
annotation, alias status, and a ghost flag saying resolution reached a fixed
point within the given fuel. -/
structure ResolveOut : Type where
  nullable : Bool
  typeAnnot : TSType
  status : AliasStatus
  complete : Bool

/-- Would the resolver take another step on this node: it unwraps a
nullability marker, or substitutes a named reference whose declaration in the
file is a type alias. -/
def isResolvableStep (node : TSType) (types : TypeDeclMap) : Bool :=
  match node with
  | TSType.nullableMarker _ => true
  | TSType.TSTypeReference name _ =>
    (match lookupFirst types name with
     | some (TypeDecl.typeAlias _) => true
     | _ => false)
  | _ => false

/-- Modelled from the spec: resolveTypeAnnotation of the typescript parser
utils.  Unwraps nullability markers into a single flag (collapsing, never
nesting), follows alias chains through the type-declaration map substituting
the aliased declaration's right-hand type and recording the alias name, and
stops at the innermost concrete annotation.  Enum and interface declarations
are not substituted; repeated substitution overwrites the recorded name, so
the recorded name is the last alias followed. -/
def resolveTypeAnnotAux : Nat → TSType → TypeDeclMap → Bool → AliasStatus → ResolveOut
  | 0, node, types, nullable, st => ⟨nullable, node, st, !isResolvableStep node types⟩
  | Nat.succ f, node, types, nullable, st =>
    match node with
    | TSType.nullableMarker inner => resolveTypeAnnotAux f inner types true st
    | TSType.TSTypeReference name tps =>
      (match lookupFirst types name with
       | some (TypeDecl.typeAlias rhs) =>
         resolveTypeAnnotAux f rhs types nullable (AliasStatus.successful name)
       | _ => ⟨nullable, TSType.TSTypeReference name tps, st, true⟩)
    | _ => ⟨nullable, node, st, true⟩

def resolveTypeAnnot (f : Nat) (node : TSType) (types : TypeDeclMap) : ResolveOut :=
  resolveTypeAnnotAux f node types false AliasStatus.failed

/-! ## Small helpers used by the translator -/

/-- Modelled from the spec: assertGenericTypeAnnotationHasExactlyOneTypeParameter
of parsers-commons, as used by emitPromise and the Array generic branch. -/
def assertOneTypeParam : Option (List TSType) → Option ParserError
  | none => some ParserError.MissingTypeParameterGeneric
  | some l => if l.length = 1 then none else some ParserError.MoreThanOneTypeParameterGeneric

/-- typeParameters.params[0], defined after assertOneTypeParam succeeded. -/
def headTypeParam : Option (List TSType) → TSType
  | some (t :: _) => t
  | _ => TSType.otherT "undefined"

/-- The literal-name remapping the source applies twice:
.replace(NumericLiteral, NumberTypeAnnotation).replace(StringLiteral,
StringTypeAnnotation). -/
def remapLiteralName (lit : String) : String :=
  jsReplace (jsReplace lit "NumericLiteral" "NumberTypeAnnotation")
    "StringLiteral" "StringTypeAnnotation"

/-- The kind computed for one union member: remap the literal name when the
member has a literal, otherwise ObjectTypeAnnotation. -/
def unionMemberKind : UnionMember → String
  | some lit => remapLiteralName lit
  | none => "ObjectTypeAnnotation"

/-- JavaScript filter((value, index, self) => self.indexOf(value) === index):
deduplicate keeping first occurrences. -/
def jsDedup (l : List String) : List String :=
  l.foldl (fun acc x => if acc.contains x then acc else acc ++ [x]) []

/-- Modelled from the spec: typeAliasResolution of parsers-primitives.  When
resolution went through an alias, the resolved object annotation is assigned
into the module's alias map under that name and the use site receives a
reference by name; otherwise the object is used inline.  Returns the produced
annotation and the alias-map assignment performed. -/
def typeAliasResolution (status : AliasStatus) (obj : TypeIR) (nullable : Bool) :
    TypeIR × List (String × TypeIR) :=
  match status with
  | AliasStatus.successful aliasName =>
    (wrapNullable nullable (TypeIR.TypeAliasT aliasName), [(aliasName, obj)])
  | AliasStatus.failed => (wrapNullable nullable obj, [])

/-- The babel type-name string of a node, used in error payloads. -/
def tsKindOf : TSType → String
  | TSType.TSArrayType _ => "TSArrayType"
  | TSType.TSTypeOperator _ _ => "TSTypeOperator"
  | TSType.TSTypeReference _ _ => "TSTypeReference"
  | TSType.TSTypeLiteral _ => "TSTypeLiteral"
  | TSType.TSBooleanKeyword => "TSBooleanKeyword"
  | TSType.TSNumberKeyword => "TSNumberKeyword"
  | TSType.TSVoidKeyword => "TSVoidKeyword"
  | TSType.TSStringKeyword => "TSStringKeyword"
  | TSType.TSFunctionType _ _ => "TSFunctionType"
  | TSType.TSUnionType _ => "TSUnionType"
  | TSType.TSUnknownKeyword => "TSUnknownKeyword"
  | TSType.nullableMarker _ => "nullableMarker"
  | TSType.otherT kind => kind

/-- Prepend an optional element (the filter(Boolean) step of the source keeps
only present results). -/
def consOpt {α : Type} : Option α → List α → List α
  | some a, l => a :: l
  | none, l => l

/-! ## The translator (translateTypeAnnotation, translateArrayTypeAnnotation,
translateFunctionTypeAnnotation of the source file)

The capture flag is the tryParse parameter of the source: true when the real
parser-error capturer was passed down, false when the file's nullGuard was
(as it always is for array element translation). -/

mutual

/-- translateTypeAnnotation of the source file.  The node is first passed
through the annotation resolver; the switch on the resolved node's type
follows the source case by case.  The TSUnionType case falls through to the
TSUnknownKeyword case and then to the default when cxxOnly is false, which the
embedding writes as the explicit else branches producing the default
UnsupportedTypeAnnotationParserError. -/
def translateTypeAnnot : Nat → TSType → TypeDeclMap → Bool → Bool →
    Except ParserError TypeIR × Delta
  | 0, _, _, _, _ => (Except.error ParserError.jsError, ⟨[], [], false⟩)
  | Nat.succ f, tsAnnot, types, capture, cxxOnly =>
    let r := resolveTypeAnnot (Nat.succ f) tsAnnot types
    let nullable := r.nullable
    match r.typeAnnot with
    | TSType.TSArrayType elementType =>
      let a := translateArrayTypeAnnot f types cxxOnly "Array" elementType nullable
      (a.1, combineOk r.complete a.2)
    | TSType.TSTypeOperator operator inner =>
      if operator = "readonly" then
        match inner with
        | TSType.TSArrayType el =>
          let a := translateArrayTypeAnnot f types cxxOnly "ReadonlyArray" el nullable
          (a.1, combineOk r.complete a.2)
        | _ => (Except.error ParserError.UnsupportedGeneric, mkResDelta r.complete)
      else (Except.error ParserError.UnsupportedGeneric, mkResDelta r.complete)
    | TSType.TSTypeReference name tps =>
      if name = "RootTag" then
        (Except.ok (wrapNullable nullable TypeIR.RootTagT), mkResDelta r.complete)
      else if name = "Promise" then
        match assertOneTypeParam tps with
        | some e => (Except.error e, mkResDelta r.complete)
        | none => (Except.ok (wrapNullable nullable TypeIR.PromiseT), mkResDelta r.complete)
      else if name = "Array" || name = "ReadonlyArray" then
        match assertOneTypeParam tps with
        | some e => (Except.error e, mkResDelta r.complete)
        | none =>
          let a := translateArrayTypeAnnot f types cxxOnly "TSTypeReference"
            (headTypeParam tps) nullable
          (a.1, combineOk r.complete a.2)
      else if name = "Stringish" then
        (Except.ok (wrapNullable nullable TypeIR.StringishT), mkResDelta r.complete)
      else if name = "Int32" then
        (Except.ok (wrapNullable nullable TypeIR.Int32T), mkResDelta r.complete)
      else if name = "Double" then
        (Except.ok (wrapNullable nullable TypeIR.DoubleT), mkResDelta r.complete)
      else if name = "Float" then
        (Except.ok (wrapNullable nullable TypeIR.FloatT), mkResDelta r.complete)
      else if name = "UnsafeObject" || name = "Object" then
        (Except.ok (wrapNullable nullable TypeIR.GenericObjectT), mkResDelta r.complete)
      else
        match lookupFirst types name with
        | some (TypeDecl.enumDecl ms) =>
          if cxxOnly then
            match ms with
            | [] => (Except.error ParserError.jsError, mkResDelta r.complete)
            | m :: _ =>
              let memberType :=
                match m.initializer with
                | some lit => remapLiteralName lit
                | none => "StringTypeAnnotation"
              if memberType = "NumberTypeAnnotation" || memberType = "StringTypeAnnotation" then
                (Except.ok (wrapNullable nullable (TypeIR.EnumT memberType)),
                 mkResDelta r.complete)
              else
                (Except.error (ParserError.UnsupportedEnumDeclaration memberType),
                 mkResDelta r.complete)
          else (Except.error ParserError.UnsupportedGeneric, mkResDelta r.complete)
        | _ => (Except.error ParserError.UnsupportedGeneric, mkResDelta r.complete)
    | TSType.TSTypeLiteral members =>
      let folded := objPropsFold f members types capture cxxOnly
      (match folded with
       | (Except.error e, d) => (Except.error e, combineOk r.complete d)
       | (Except.ok props, d) =>
         let tar := typeAliasResolution r.status (TypeIR.ObjectT props) nullable
         (Except.ok tar.1, combineOk r.complete (d.app ⟨tar.2, [], true⟩)))
    | TSType.TSBooleanKeyword =>
      (Except.ok (wrapNullable nullable TypeIR.BooleanT), mkResDelta r.complete)
    | TSType.TSNumberKeyword =>
      (Except.ok (wrapNullable nullable TypeIR.NumberT), mkResDelta r.complete)
    | TSType.TSVoidKeyword =>
      (Except.ok (wrapNullable nullable TypeIR.VoidT), mkResDelta r.complete)
    | TSType.TSStringKeyword =>
      (Except.ok (wrapNullable nullable TypeIR.StringT), mkResDelta r.complete)
    | TSType.TSFunctionType parameters returnTy =>
      let fn := translateFunctionTypeAnnot f parameters returnTy types capture cxxOnly
      (match fn with
       | (Except.error e, d) => (Except.error e, combineOk r.complete d)
       | (Except.ok v, d) =>
         (Except.ok (wrapNullable nullable v), combineOk r.complete d))
    | TSType.TSUnionType unionMembers =>
      if cxxOnly then
        let unionTypes := jsDedup (unionMembers.map unionMemberKind)
        if unionTypes.length > 1 then
          (Except.error (ParserError.UnsupportedUnionKind unionTypes), mkResDelta r.complete)
        else
          (Except.ok (wrapNullable nullable (TypeIR.UnionT (unionTypes.headD "undefined"))),
           mkResDelta r.complete)
      else
        (Except.error (ParserError.UnsupportedTypeAnnot "TSUnionType"), mkResDelta r.complete)
    | TSType.TSUnknownKeyword =>
      if cxxOnly then
        (Except.ok (wrapNullable nullable TypeIR.MixedT), mkResDelta r.complete)
      else
        (Except.error (ParserError.UnsupportedTypeAnnot "TSUnknownKeyword"),
         mkResDelta r.complete)
    | TSType.nullableMarker _ =>
      -- unreachable when resolution completed; treated as the incomplete case
      (Except.error ParserError.jsError, ⟨[], [], false⟩)
    | TSType.otherT kind =>
      (Except.error (ParserError.UnsupportedTypeAnnot kind), mkResDelta r.complete)
termination_by f _ _ _ _ => (f, 0, 0)

/-- translateArrayTypeAnnotation of the source file.  The element type is
translated with nullGuard (capture off); the whole body sits in a try whose
catch swallows every exception and returns the Array annotation without an
element type — including the UnsupportedArrayElementTypeAnnotationParserError
the body itself throws for void, Promise and function element types, so those
faults never reach any error list. -/
def translateArrayTypeAnnot : Nat → TypeDeclMap → Bool → String → TSType → Bool →
    Except ParserError TypeIR × Delta
  | f, types, cxxOnly, _tsArrayType, tsElementType, nullable =>
    match translateTypeAnnot f tsElementType types false cxxOnly with
    | (Except.error _, d) =>
      (Except.ok (wrapNullable nullable (TypeIR.ArrayT none)), d)
    | (Except.ok t, d) =>
      let u := unwrapNullable t
      match u.1 with
      | TypeIR.VoidT =>
        (Except.ok (wrapNullable nullable (TypeIR.ArrayT none)), d)
      | TypeIR.PromiseT =>
        (Except.ok (wrapNullable nullable (TypeIR.ArrayT none)), d)
      | TypeIR.FunctionT _ _ =>
        (Except.ok (wrapNullable nullable (TypeIR.ArrayT none)), d)
      | _ =>
        (Except.ok (wrapNullable nullable (TypeIR.ArrayT (some (wrapNullable u.2 u.1)))), d)
termination_by f _ _ _ _ _ => (f, 1, 0)

/-- The body of the per-member tryParse thunk in the TSTypeLiteral branch of
translateTypeAnnotation: reject non-property members, translate the member
type, reject function, void and Promise valued members, and build the named
shape with its own nullability. -/
def objPropStep : Nat → TSMember → TypeDeclMap → Bool → Bool →
    Except ParserError (String × Bool × TypeIR) × Delta
  | _, TSMember.otherMember kind, _, _, _ =>
    (Except.error (ParserError.UnsupportedObjectPropertyKind kind), Delta.empty)
  | f, TSMember.TSPropertySignature name optional typeAnnot, types, capture, cxxOnly =>
    match translateTypeAnnot f typeAnnot types capture cxxOnly with
    | (Except.error e, d) => (Except.error e, d)
    | (Except.ok t, d) =>
      let u := unwrapNullable t
      match u.1 with
      | TypeIR.FunctionT _ _ =>
        (Except.error (ParserError.UnsupportedObjectPropertyValueKind name
          "FunctionTypeAnnotation"), d)
      | TypeIR.VoidT =>
        (Except.error (ParserError.UnsupportedObjectPropertyValueKind name "void"), d)
      | TypeIR.PromiseT =>
        (Except.error (ParserError.UnsupportedObjectPropertyValueKind name "Promise"), d)
      | _ => (Except.ok (name, optional, wrapNullable u.2 u.1), d)
termination_by f _ _ _ _ => (f, 1, 0)

/-- The members.map(property => tryParse(...)).filter(Boolean) pipeline of the
TSTypeLiteral branch: each member runs under the capturer, absent results are
skipped; a non-captured exception aborts the whole object. -/
def objPropsFold : Nat → List TSMember → TypeDeclMap → Bool → Bool →
    Except ParserError (List (String × Bool × TypeIR)) × Delta
  | _, [], _, _, _ => (Except.ok [], Delta.empty)
  | f, m :: rest, types, capture, cxxOnly =>
    match runCapture capture (objPropStep f m types capture cxxOnly) with
    | (Except.error e, d) => (Except.error e, d)
    | (Except.ok maybeProp, d) =>
      match objPropsFold f rest types capture cxxOnly with
      | (Except.error e, d2) => (Except.error e, d.app d2)
      | (Except.ok props, d2) => (Except.ok (consOpt maybeProp props), d.app d2)
termination_by f l _ _ _ => (f, 2, l.length)

/-- The body of the per-parameter tryParse thunk of
translateFunctionTypeAnnotation: a missing annotation raises
UnnamedFunctionParamParserError, a void or Promise typed parameter raises
UnsupportedFunctionParamTypeAnnotationParserError. -/
def paramStep : Nat → TSParam → TypeDeclMap → Bool → Bool →
    Except ParserError (String × Bool × TypeIR) × Delta
  | f, TSParam.mk name optional typeAnnot, types, capture, cxxOnly =>
    match typeAnnot with
    | none => (Except.error ParserError.UnnamedFunctionParam, Delta.empty)
    | some ta =>
      match translateTypeAnnot f ta types capture cxxOnly with
      | (Except.error e, d) => (Except.error e, d)
      | (Except.ok t, d) =>
        let u := unwrapNullable t
        match u.1 with
        | TypeIR.VoidT =>
          (Except.error (ParserError.UnsupportedFunctionParamKind name "void"), d)
        | TypeIR.PromiseT =>
          (Except.error (ParserError.UnsupportedFunctionParamKind name "Promise"), d)
        | _ => (Except.ok (name, optional, wrapNullable u.2 u.1), d)
termination_by f _ _ _ _ => (f, 1, 0)

/-- The parameter loop of translateFunctionTypeAnnotation: parameters are
processed in source order, each under the capturer; captured failures are
dropped, successes are pushed in order. -/
def paramsFold : Nat → List TSParam → TypeDeclMap → Bool → Bool →
    Except ParserError (List (String × Bool × TypeIR)) × Delta
  | _, [], _, _, _ => (Except.ok [], Delta.empty)
  | f, p :: rest, types, capture, cxxOnly =>
    match runCapture capture (paramStep f p types capture cxxOnly) with
    | (Except.error e, d) => (Except.error e, d)
    | (Except.ok maybeParam, d) =>
      match paramsFold f rest types capture cxxOnly with
      | (Except.error e, d2) => (Except.error e, d.app d2)
      | (Except.ok ps, d2) => (Except.ok (consOpt maybeParam ps), d.app d2)
termination_by f l _ _ _ => (f, 2, l.length)

/-- translateFunctionTypeAnnotation of the source file: translate the
parameters in order, then the return type; a missing return annotation is the
JavaScript crash on typeAnnotation.typeAnnotation; a function-typed return is
rejected unless cxxOnly. -/
def translateFunctionTypeAnnot : Nat → List TSParam → Option TSType → TypeDeclMap →
    Bool → Bool → Except ParserError TypeIR × Delta
  | f, parameters, returnTy, types, capture, cxxOnly =>
    match paramsFold f parameters types capture cxxOnly with
    | (Except.error e, d) => (Except.error e, d)
    | (Except.ok params, d) =>
      match returnTy with
      | none => (Except.error ParserError.jsError, d)
      | some retNode =>
        match translateTypeAnnot f retNode types capture cxxOnly with
        | (Except.error e, d2) => (Except.error e, d.app d2)
        | (Except.ok rt, d2) =>
          let u := unwrapNullable rt
          if !cxxOnly && isFunctionIR u.1 then
            (Except.error (ParserError.UnsupportedFunctionReturnKind "FunctionTypeAnnotation"),
             d.app d2)
          else
            (Except.ok (TypeIR.FunctionT params (wrapNullable u.2 u.1)), d.app d2)
termination_by f _ _ _ _ _ => (f, 3, 0)

end

/-! ## The module-schema builder (buildPropertySchema, isModuleInterface,
buildModuleSchema of the source file) -/

/-- One property shape of the module spec: name, declared optionality, and the
function annotation wrapped in the member's own nullability. -/
structure PropertyShape : Type where
  name : String
  optional : Bool
  typeAnnot : TypeIR

/-- The NativeModuleSchema value buildModuleSchema returns (the constant
type: 'NativeModule' tag is omitted).  aliases is a JavaScript object. -/
structure NativeModuleSchema : Type where
  aliases : List (String × TypeIR)
  properties : List PropertyShape
  moduleNames : List String
  excludedPlatforms : Option (List String)

/-- buildPropertySchema of the source file: pick the method's own node or a
property's declared type, resolve it (the alias status is discarded), require
a function shape, and translate the signature. -/
def buildPropertySchema (f : Nat) (property : SpecMember) (types : TypeDeclMap)
    (cxxOnly : Bool) : Except ParserError PropertyShape × Delta :=
  let r := resolveTypeAnnot f property.value types
  match r.typeAnnot with
  | TSType.TSFunctionType parameters returnTy =>
    (match translateFunctionTypeAnnot f parameters returnTy types true cxxOnly with
     | (Except.error e, d) => (Except.error e, combineOk r.complete d)
     | (Except.ok v, d) =>
       (Except.ok ⟨property.name, property.optional, wrapNullable r.nullable v⟩,
        combineOk r.complete d))
  | other =>
    (Except.error (ParserError.UnsupportedModuleProperty property.name (tsKindOf other)),
     mkResDelta r.complete)

/-- isModuleInterface of the source file: a TSInterfaceDeclaration with
exactly one extends clause, a TSExpressionWithTypeArguments whose expression
is named TurboModule. -/
def isModuleInterface : TypeDecl → Bool
  | TypeDecl.interfaceDecl _ extendsList _ =>
    (match extendsList with
     | [e] => e.clauseKind = "TSExpressionWithTypeArguments" && e.expressionName = "TurboModule"
     | _ => false)
  | _ => false

/-- Modelled from the spec: getTypes of the typescript parser utils builds the
type-declaration map from the top-level declarations in order; the last
declaration with a given name wins, as JavaScript object assignment gives. -/
def getTypes (p : Program) : TypeDeclMap :=
  objFromList p.decls

/-- Object.values of a JavaScript object in our representation. -/
def typesValues (m : TypeDeclMap) : List TypeDecl :=
  m.map (fun kv => kv.2)

/-- The body of the tryParse thunk that parses the module-registration call:
filter the file's call expressions through the registry-call recognizer, then
check count, arity, argument kind and type parameter exactly in source
order. -/
def parseModuleNameCall (calls : List CallExpr) : Except ParserError String :=
  let callExpressions := calls.filter (fun c => c.isRegistryCall)
  match callExpressions with
  | [] => Except.error ParserError.UnusedModuleInterface
  | [callExpression] =>
    if h : callExpression.args.length = 1 then
      match callExpression.args, h with
      | [arg], _ =>
        if arg.argKind = "StringLiteral" then
          match callExpression.typeParams with
          | none => Except.error ParserError.UntypedModuleRegistryCall
          | some tp =>
            if tp.nodeKind = "TSTypeParameterInstantiation" then
              match tp.params with
              | [TSType.TSTypeReference n _] =>
                if n = "Spec" then Except.ok arg.value
                else Except.error ParserError.IncorrectModuleRegistryCallTypeParameter
              | _ => Except.error ParserError.IncorrectModuleRegistryCallTypeParameter
            else Except.error ParserError.IncorrectModuleRegistryCallTypeParameter
        else Except.error (ParserError.IncorrectModuleRegistryCallArgumentKind arg.argKind)
    else
      Except.error (ParserError.IncorrectModuleRegistryCallArity callExpression.args.length)
  | _ => Except.error ParserError.MoreThanOneModuleRegistryCalls

/-- One step of the platform-suffix loop of buildModuleSchema: the
accumulator is (cxxOnly, excludedPlatforms). -/
def derivePlatformsStep (acc : Bool × List String) (name : String) : Bool × List String :=
  if jsEndsWith name "Android" then (acc.1, acc.2 ++ ["iOS"])
  else if jsEndsWith name "IOS" then (acc.1, acc.2 ++ ["android"])
  else if jsEndsWith name "Cxx" then (true, acc.2 ++ ["iOS", "android"])
  else acc

/-- The namesToValidate.forEach loop of buildModuleSchema, deriving the
cxxOnly flag and the accumulated excluded platforms. -/
def derivePlatforms (names : List String) : Bool × List String :=
  names.foldl derivePlatformsStep (false, [])

/-- One accumulated pair of the property fold: the property's local alias map
(a JavaScript object built from the assignments the property's translation
performed) and its property shape. -/
structure PropPair : Type where
  aliasMap : List (String × TypeIR)
  propertyShape : PropertyShape

/-- One step of the property map phase: a fresh local alias map, then
tryParse around buildPropertySchema.  Returns the optional pair, the captured
errors, and the ghost fuel flag. -/
def propStep (f : Nat) (property : SpecMember) (types : TypeDeclMap) (cxxOnly : Bool) :
    Except ParserError (Option PropPair) × List ParserError × Bool :=
  match runCapture true (buildPropertySchema f property types cxxOnly) with
  | (Except.ok (some shape), d) =>
    (Except.ok (some ⟨objFromList d.inserts, shape⟩), d.errors, d.fuelOk)
  | (Except.ok none, d) => (Except.ok none, d.errors, d.fuelOk)
  | (Except.error e, d) => (Except.error e, d.errors, d.fuelOk)

/-- The .map(...).filter(Boolean) pipeline over the filtered interface
members.  An uncaptured exception from a step aborts the whole map, as a
throw inside Array.prototype.map does. -/
def propsMap (f : Nat) : List SpecMember → TypeDeclMap → Bool →
    Except ParserError (List PropPair) × List ParserError × Bool
  | [], _, _ => (Except.ok [], [], true)
  | m :: rest, types, cxxOnly =>
    match propStep f m types cxxOnly with
    | (Except.error e, errs, ok) => (Except.error e, errs, ok)
    | (Except.ok maybePair, errs, ok) =>
      match propsMap f rest types cxxOnly with
      | (Except.error e, errs2, ok2) => (Except.error e, errs ++ errs2, ok && ok2)
      | (Except.ok pairs, errs2, ok2) =>
        (Except.ok (consOpt maybePair pairs), errs ++ errs2, ok && ok2)

/-- The final reduce of buildModuleSchema: spread each pair's alias map onto
the accumulated aliases (later pairs win on shared keys, by JavaScript spread
semantics), append the property shape, keep moduleNames and excludedPlatforms
of the initial accumulator. -/
def reduceSchema (init : NativeModuleSchema) (pairs : List PropPair) : NativeModuleSchema :=
  pairs.foldl
    (fun acc pr =>
      ⟨objSpread acc.aliases pr.aliasMap, acc.properties ++ [pr.propertyShape],
       acc.moduleNames, acc.excludedPlatforms⟩)
    init

/-- buildModuleSchema of the source file.  The interface-discovery faults are
thrown outside any capturer, so they abort the whole build; the
registration-call block runs inside tryParse, so its faults are captured and
the build continues with an empty moduleNames list. -/
def buildModuleSchema (f : Nat) (hasteModuleName : String) (p : Program) :
    Except ParserError NativeModuleSchema × List ParserError × Bool :=
  let types := getTypes p
  let moduleSpecs := (typesValues types).filter isModuleInterface
  match moduleSpecs with
  | [] => (Except.error ParserError.ModuleInterfaceNotFound, [], true)
  | [TypeDecl.interfaceDecl iname _ body] =>
    if iname = "Spec" then
      let (moduleName, errs0) :=
        match parseModuleNameCall p.calls with
        | Except.ok n => (some n, [])
        | Except.error e => (Option.none, [e])
      let moduleNames := match moduleName with
        | none => []
        | some n => [n]
      let namesToValidate := moduleNames ++ [hasteModuleName]
      let der := derivePlatforms namesToValidate
      let members := body.filter
        (fun m => m.memberKind = "TSMethodSignature" || m.memberKind = "TSPropertySignature")
      match propsMap f members types der.1 with
      | (Except.error e, errs, ok) => (Except.error e, errs0 ++ errs, ok)
      | (Except.ok pairs, errs, ok) =>
        let init : NativeModuleSchema :=
          ⟨[], [], moduleNames, if der.2.length ≠ 0 then some der.2 else none⟩
        (Except.ok (reduceSchema init pairs), errs0 ++ errs, ok)
    else (Except.error ParserError.MisnamedModuleInterface, [], true)
  | [_] =>
    -- unreachable: isModuleInterface holds only of interface declarations
    (Except.error ParserError.ModuleInterfaceNotFound, [], true)
  | _ => (Except.error ParserError.MoreThanOneModuleInterface, [], true)

/-! ## Observers naming the builder's intermediate results, used to state the
claims (each is definitionally the expression buildModuleSchema computes) -/

/-- The interfaces surviving the module-interface filter. -/
def moduleSpecsOf (p : Program) : List TypeDecl :=
  (typesValues (getTypes p)).filter isModuleInterface

/-- The moduleNames list buildModuleSchema derives. -/
def moduleNamesOf (p : Program) : List String :=
  match parseModuleNameCall p.calls with
  | Except.ok n => [n]
  | Except.error _ => []

/-- The cxxOnly flag buildModuleSchema derives. -/
def cxxOnlyOf (hasteModuleName : String) (p : Program) : Bool :=
  (derivePlatforms (moduleNamesOf p ++ [hasteModuleName])).1

/-- The filtered member list buildModuleSchema folds over. -/
def membersOf (p : Program) : List SpecMember :=
  match moduleSpecsOf p with
  | [TypeDecl.interfaceDecl _ _ body] =>
    body.filter
      (fun m => m.memberKind = "TSMethodSignature" || m.memberKind = "TSPropertySignature")
  | _ => []

/-! ## Observers and specification-side functions used in claim statements -/

/-- Turn a translation result into the optional value the capturer would
yield. -/
def exceptToOption {α : Type} : Except ParserError α → Option α
  | Except.ok v => some v
  | Except.error _ => none

/-- The error the capturer appends for a result (nothing for a success; the
fold hypotheses rule out uncaptured kinds). -/
def capturedErrOf {α : Type} : Except ParserError α → List ParserError
  | Except.ok _ => []
  | Except.error e => [e]

/-- Does the result carry an UnsupportedUnionTypeAnnotationParserError? -/
def isUnsupportedUnionErr : Except ParserError TypeIR → Bool
  | Except.error (ParserError.UnsupportedUnionKind _) => true
  | _ => false

/-- Does the error list mention an
UnsupportedArrayElementTypeAnnotationParserError? -/
def hasArrayElementFault (l : List ParserError) : Bool :=
  l.any (fun e =>
    match e with
    | ParserError.UnsupportedArrayElementKind _ _ => true
    | _ => false)

/-- Specification-side wording of the platform-suffix rule of the spec: the
exclusions contributed by one name, checked independently. -/
def suffixExclusions (name : String) : List String :=
  if jsEndsWith name "Android" then ["iOS"]
  else if jsEndsWith name "IOS" then ["android"]
  else if jsEndsWith name "Cxx" then ["iOS", "android"]
  else []

/-- Strip nullability markers without following aliases (the tail of a
completed resolution after its last substitution). -/
def stripMarkers : TSType → TSType
  | TSType.nullableMarker inner => stripMarkers inner
  | t => t

/-! ## Concrete programs and nodes used by counterexamples and witnesses -/

/-- The extends clause every qualifying module interface carries. -/
def turboExt : ExtendsClause := ⟨"TSExpressionWithTypeArguments", "TurboModule"⟩

/-- A registration call TurboModuleRegistry.getEnforcing with the
given argument value and a Spec type parameter. -/
def goodCall (v : String) : CallExpr :=
  ⟨true, "getEnforcing", [⟨"StringLiteral", v⟩],
   some ⟨"TSTypeParameterInstantiation", [TSType.TSTypeReference "Spec" none]⟩⟩

/-- A file with a valid Spec interface exposing one void-returning method and
no registration call at all. -/
def pUnused : Program :=
  ⟨[("Spec", TypeDecl.interfaceDecl "Spec" [turboExt]
      [⟨"TSMethodSignature", "foo", false,
        TSType.TSFunctionType [] (some TSType.TSVoidKeyword)⟩])],
   []⟩

/-- A spec file with two registration calls. -/
def pTwoCalls : Program :=
  ⟨[("Spec", TypeDecl.interfaceDecl "Spec" [turboExt]
      [⟨"TSMethodSignature", "foo", false,
        TSType.TSFunctionType [] (some TSType.TSVoidKeyword)⟩])],
   [goodCall "ModA", goodCall "ModB"]⟩

/-- A spec file whose single registration call has no argument. -/
def pBadArity : Program :=
  ⟨[("Spec", TypeDecl.interfaceDecl "Spec" [turboExt]
      [⟨"TSMethodSignature", "foo", false,
        TSType.TSFunctionType [] (some TSType.TSVoidKeyword)⟩])],
   [⟨true, "getEnforcing", [],
     some ⟨"TSTypeParameterInstantiation", [TSType.TSTypeReference "Spec" none]⟩⟩]⟩

/-- A spec file whose registration call passes a non-string argument. -/
def pBadArg : Program :=
  ⟨[("Spec", TypeDecl.interfaceDecl "Spec" [turboExt]
      [⟨"TSMethodSignature", "foo", false,
        TSType.TSFunctionType [] (some TSType.TSVoidKeyword)⟩])],
   [⟨true, "getEnforcing", [⟨"Identifier", "name"⟩],
     some ⟨"TSTypeParameterInstantiation", [TSType.TSTypeReference "Spec" none]⟩⟩]⟩

/-- A spec file whose registration call's type parameter is not Spec. -/
def pBadTypeParam : Program :=
  ⟨[("Spec", TypeDecl.interfaceDecl "Spec" [turboExt]
      [⟨"TSMethodSignature", "foo", false,
        TSType.TSFunctionType [] (some TSType.TSVoidKeyword)⟩])],
   [⟨true, "getEnforcing", [⟨"StringLiteral", "ModA"⟩],
     some ⟨"TSTypeParameterInstantiation", [TSType.TSTypeReference "NotSpec" none]⟩⟩]⟩

/-- A file with no interface extending TurboModule. -/
def pNoInterface : Program :=
  ⟨[("Spec", TypeDecl.interfaceDecl "Spec" [] [])], []⟩

/-- A file with two interfaces extending TurboModule. -/
def pTwoInterfaces : Program :=
  ⟨[("Spec", TypeDecl.interfaceDecl "Spec" [turboExt] []),
    ("Other", TypeDecl.interfaceDecl "Other" [turboExt] [])],
   [goodCall "Foo"]⟩

/-- A file whose single qualifying interface is not named Spec. -/
def pMisnamed : Program :=
  ⟨[("NotSpec", TypeDecl.interfaceDecl "NotSpec" [turboExt] [])], [goodCall "Foo"]⟩

/-- A file registering FooCxx, for the platform-suffix witness. -/
def pCxx : Program :=
  ⟨[("Spec", TypeDecl.interfaceDecl "Spec" [turboExt]
      [⟨"TSMethodSignature", "foo", false,
        TSType.TSFunctionType [] (some TSType.TSVoidKeyword)⟩])],
   [goodCall "FooCxx"]⟩

/-- The object literal the alias Foo of pAlias names. -/
def fooLiteral : TSType :=
  TSType.TSTypeLiteral [TSMember.TSPropertySignature "a" false TSType.TSBooleanKeyword]

/-- A file whose two methods both take the aliased object type Foo, so both
properties register the alias name Foo in their local alias maps. -/
def pAlias : Program :=
  ⟨[("Foo", TypeDecl.typeAlias fooLiteral),
    ("Spec", TypeDecl.interfaceDecl "Spec" [turboExt]
      [⟨"TSMethodSignature", "m1", false,
        TSType.TSFunctionType [TSParam.mk "x" false (some (TSType.TSTypeReference "Foo" none))]
          (some TSType.TSVoidKeyword)⟩,
       ⟨"TSMethodSignature", "m2", false,
        TSType.TSFunctionType [TSParam.mk "y" false (some (TSType.TSTypeReference "Foo" none))]
          (some TSType.TSVoidKeyword)⟩])],
   [goodCall "AliasMod"]⟩

/-- A type-declaration map with one enum whose first member has no
initializer, one whose first member is a numeric literal, and one whose first
member is a boolean literal. -/
def enumTypes : TypeDeclMap :=
  [("Plain", TypeDecl.enumDecl [⟨none⟩, ⟨some "StringLiteral"⟩]),
   ("Nums", TypeDecl.enumDecl [⟨some "NumericLiteral"⟩]),
   ("Bools", TypeDecl.enumDecl [⟨some "BooleanLiteral"⟩])]

/-! ## Theorems -/

/-- C4 counterexample: a union of two numeric literals translated with
native-only mode off is rejected with the generic
UnsupportedTypeAnnotationParserError reached by fallthrough, not with an
UnsupportedUnionTypeAnnotationParserError as the claim states. -/
theorem c4_union_nonnative_kind_cex :
    (translateTypeAnnot 5
        (TSType.TSUnionType [some "NumericLiteral", some "NumericLiteral"]) [] true false).1 =
      Except.error (ParserError.UnsupportedTypeAnnot "TSUnionType") ∧
    isUnsupportedUnionErr
      (translateTypeAnnot 5
        (TSType.TSUnionType [some "NumericLiteral", some "NumericLiteral"]) [] true false).1 =
      false := by
  constructor
  · simp [translateTypeAnnot, resolveTypeAnnot, resolveTypeAnnotAux, isResolvableStep,
      mkResDelta]
  · simp [translateTypeAnnot, resolveTypeAnnot, resolveTypeAnnotAux, isResolvableStep,
      mkResDelta, isUnsupportedUnionErr]

/-- C4 (amended): with native-only mode off, every union-shaped node is
rejected regardless of its member shapes, but with the generic
UnsupportedTypeAnnotationParserError produced by the switch fallthrough, not
with the union-specific error kind. -/
theorem c4_union_nonnative_generic_reject (f : Nat) (ms : List UnionMember)
    (types : TypeDeclMap) (cap : Bool) :
    translateTypeAnnot (f + 1) (TSType.TSUnionType ms) types cap false =
      (Except.error (ParserError.UnsupportedTypeAnnot "TSUnionType"), ⟨[], [], true⟩) := by
  simp [translateTypeAnnot, resolveTypeAnnot, resolveTypeAnnotAux, isResolvableStep,
    mkResDelta]

/-- C5 counterexample: in native-only mode, a union whose single member is a
boolean literal yields a Union annotation whose member kind is the raw
BooleanLiteral name — the member is neither normalized to the Object kind (as
the claim states for members other than numeric and string literals) nor
rejected. -/
theorem c5_union_literal_kind_cex :
    translateTypeAnnot 5 (TSType.TSUnionType [some "BooleanLiteral"]) [] true true =
      (Except.ok (TypeIR.UnionT "BooleanLiteral"), ⟨[], [], true⟩) ∧
    "BooleanLiteral" ≠ "ObjectTypeAnnotation" := by
  constructor
  · simp [translateTypeAnnot, resolveTypeAnnot, resolveTypeAnnotAux, isResolvableStep,
      jsDedup, unionMemberKind, remapLiteralName, jsReplace, wrapNullable, mkResDelta]
    decide
  · decide

/-- C5 (amended): in native-only mode each union member with a literal has its
literal name remapped (NumericLiteral to the Number kind, StringLiteral to the
String kind, any other literal name kept verbatim), a member without a literal
becomes the Object kind; the kinds are deduplicated keeping first occurrences;
more than one distinct kind raises the unsupported-union error carrying the
kinds, otherwise the single remaining kind becomes the Union annotation's
member kind. -/
theorem c5_union_native_normalization (f : Nat) (ms : List UnionMember)
    (types : TypeDeclMap) (cap : Bool) :
    translateTypeAnnot (f + 1) (TSType.TSUnionType ms) types cap true =
      (let kinds := jsDedup (ms.map unionMemberKind)
       if kinds.length > 1 then
         (Except.error (ParserError.UnsupportedUnionKind kinds), ⟨[], [], true⟩)
       else (Except.ok (TypeIR.UnionT (kinds.headD "undefined")), ⟨[], [], true⟩)) ∧
    unionMemberKind (some "NumericLiteral") = "NumberTypeAnnotation" ∧
    unionMemberKind (some "StringLiteral") = "StringTypeAnnotation" ∧
    unionMemberKind none = "ObjectTypeAnnotation" := by
  refine ⟨?_, by decide, by decide, by decide⟩
  simp only [translateTypeAnnot, resolveTypeAnnot, resolveTypeAnnotAux, mkResDelta]
  split
  · simp_all [wrapNullable]
  · simp_all [wrapNullable]

/-- C10: in native-only mode, a named reference resolving to an enum
declaration whose first member has no initializer translates to an Enum
annotation of String member kind with no fault; a first member whose
initializer remaps to the Number or String kind gives an Enum annotation of
that kind; the unsupported-enum error is raised exactly when an initializer
is present and remaps to neither. -/
theorem c10_enum_translation (f : Nat) (name : String) (tps : Option (List TSType))
    (types : TypeDeclMap) (ms : List EnumMemberD) (cap : Bool)
    (hlook : lookupFirst types name = some (TypeDecl.enumDecl ms))
    (hname : name ∉ ["RootTag", "Promise", "Array", "ReadonlyArray", "Stringish", "Int32",
      "Double", "Float", "UnsafeObject", "Object"]) :
    (∀ rest, ms = ⟨none⟩ :: rest →
      translateTypeAnnot (f + 1) (TSType.TSTypeReference name tps) types cap true =
        (Except.ok (TypeIR.EnumT "StringTypeAnnotation"), ⟨[], [], true⟩)) ∧
    (∀ lit rest, ms = ⟨some lit⟩ :: rest →
      (remapLiteralName lit = "NumberTypeAnnotation" ∨
          remapLiteralName lit = "StringTypeAnnotation" →
        translateTypeAnnot (f + 1) (TSType.TSTypeReference name tps) types cap true =
          (Except.ok (TypeIR.EnumT (remapLiteralName lit)), ⟨[], [], true⟩)) ∧
      (remapLiteralName lit ≠ "NumberTypeAnnotation" →
        remapLiteralName lit ≠ "StringTypeAnnotation" →
        translateTypeAnnot (f + 1) (TSType.TSTypeReference name tps) types cap true =
          (Except.error (ParserError.UnsupportedEnumDeclaration (remapLiteralName lit)),
           ⟨[], [], true⟩))) := by
  simp only [List.mem_cons, List.not_mem_nil, or_false] at hname
  push_neg at hname
  obtain ⟨h1, h2, h3, h4, h5, h6, h7, h8, h9, h10⟩ := hname
  refine ⟨?_, ?_⟩
  · intro rest hms
    subst hms
    simp [translateTypeAnnot, resolveTypeAnnot, resolveTypeAnnotAux, isResolvableStep,
      hlook, h1, h2, h3, h4, h5, h6, h7, h8, h9, h10, wrapNullable, mkResDelta]
  · intro lit rest hms
    subst hms
    constructor
    · intro hok
      rcases hok with hok | hok <;>
        simp [translateTypeAnnot, resolveTypeAnnot, resolveTypeAnnotAux, isResolvableStep,
          hlook, h1, h2, h3, h4, h5, h6, h7, h8, h9, h10, wrapNullable, mkResDelta, hok]
    · intro hn hs
      simp [translateTypeAnnot, resolveTypeAnnot, resolveTypeAnnotAux, isResolvableStep,
        hlook, h1, h2, h3, h4, h5, h6, h7, h8, h9, h10, wrapNullable, mkResDelta, hn, hs]

/-- C10 witness: the Plain enum (first member without initializer) translates
to Enum(String) with no fault, and the Bools enum (BooleanLiteral initializer)
raises the unsupported-enum error. -/
theorem c10_enum_translation_witness :
    translateTypeAnnot 5 (TSType.TSTypeReference "Plain" none) enumTypes true true =
      (Except.ok (TypeIR.EnumT "StringTypeAnnotation"), ⟨[], [], true⟩) ∧
    translateTypeAnnot 5 (TSType.TSTypeReference "Bools" none) enumTypes true true =
      (Except.error (ParserError.UnsupportedEnumDeclaration "BooleanLiteral"), ⟨[], [], true⟩) := by
  constructor
  · exact ((c10_enum_translation 4 "Plain" none enumTypes
      [⟨none⟩, ⟨some "StringLiteral"⟩] true (by simp [enumTypes, lookupFirst]) (by decide)).1
      [⟨some "StringLiteral"⟩] rfl)
  · have h := ((c10_enum_translation 4 "Bools" none enumTypes
      [⟨some "BooleanLiteral"⟩] true (by simp [enumTypes, lookupFirst]) (by decide)).2
      "BooleanLiteral" [] rfl).2 (by decide) (by decide)
    have hr : remapLiteralName "BooleanLiteral" = "BooleanLiteral" := by decide
    rw [hr] at h
    exact h

/-- Helper: an error the capturer lets through is the non-ParserError kind. -/
theorem runCapture_true_error {α : Type} (x : Except ParserError α × Delta)
    (e : ParserError) (d : Delta) (h : runCapture true x = (Except.error e, d)) :
    e = ParserError.jsError := by
  rcases x with ⟨r, dx⟩
  cases r with
  | ok v => simp [runCapture] at h
  | error ex =>
    by_cases hk : isParserErrorKind ex = true
    · simp [runCapture, hk] at h
    · rw [Bool.not_eq_true] at hk
      simp only [runCapture, hk, Bool.true_and, Bool.false_eq_true, if_false,
        Prod.mk.injEq, Except.error.injEq] at h
      cases ex <;> simp_all [isParserErrorKind]

/-- Helper: a successful parameter fold yields exactly the successful
parameter steps in order, and its error list is the concatenation of each
step's errors with the step's own captured fault. -/
theorem paramsFold_ok_spec (f : Nat) (types : TypeDeclMap) (cxx : Bool) :
    ∀ (ps : List TSParam) (l : List (String × Bool × TypeIR)) (d : Delta),
    paramsFold f ps types true cxx = (Except.ok l, d) →
    l = ps.filterMap (fun p => exceptToOption (paramStep f p types true cxx).1) ∧
    d.errors = ps.flatMap (fun p =>
      (paramStep f p types true cxx).2.errors ++
        capturedErrOf (paramStep f p types true cxx).1) := by
  intro ps
  induction ps with
  | nil =>
    intro l d h
    simp only [paramsFold, Prod.mk.injEq, Except.ok.injEq] at h
    simp [h.1.symm, h.2.symm, Delta.empty]
  | cons p rest ih =>
    intro l d h
    simp only [paramsFold] at h
    rcases hstep : paramStep f p types true cxx with ⟨r, d1⟩
    rw [hstep] at h
    cases r with
    | ok v =>
      simp only [runCapture] at h
      rcases hrest : paramsFold f rest types true cxx with ⟨r2, d2⟩
      rw [hrest] at h
      cases r2 with
      | ok l2 =>
        simp only [Prod.mk.injEq, Except.ok.injEq] at h
        obtain ⟨hl, hd⟩ := h
        obtain ⟨ih1, ih2⟩ := ih l2 d2 hrest
        constructor
        · rw [← hl]
          simp [consOpt, List.filterMap_cons, hstep, exceptToOption, ih1]
        · rw [← hd]
          simp [Delta.app, hstep, capturedErrOf, ih2]
      | error ex2 => simp at h
    | error ex =>
      by_cases hk : isParserErrorKind ex = true
      · simp only [runCapture, hk, Bool.true_and, if_true] at h
        rcases hrest : paramsFold f rest types true cxx with ⟨r2, d2⟩
        rw [hrest] at h
        cases r2 with
        | ok l2 =>
          simp only [Prod.mk.injEq, Except.ok.injEq] at h
          obtain ⟨hl, hd⟩ := h
          obtain ⟨ih1, ih2⟩ := ih l2 d2 hrest
          constructor
          · rw [← hl]
            simp [consOpt, List.filterMap_cons, hstep, exceptToOption, ih1]
          · rw [← hd]
            simp [Delta.app, hstep, capturedErrOf, ih2]
        | error ex2 => simp at h
      · rw [Bool.not_eq_true] at hk
        simp only [runCapture, hk, Bool.true_and, Bool.false_eq_true, if_false] at h
        simp at h

/-- C6: the parameter loop iterates declared parameters in source order under
the capturer; a successful fold's parameter list is exactly the successful
per-parameter steps in original order, its error list records each captured
per-parameter fault in order, a parameter without a type annotation fails its
step with UnnamedFunctionParamParserError, and a parameter whose translated
type is void or Promise fails its step with
UnsupportedFunctionParamTypeAnnotationParserError. -/
theorem c6_function_params_fold (f : Nat) (ps : List TSParam) (types : TypeDeclMap)
    (cxx : Bool) (l : List (String × Bool × TypeIR)) (d : Delta)
    (hfold : paramsFold f ps types true cxx = (Except.ok l, d)) :
    l = ps.filterMap (fun p => exceptToOption (paramStep f p types true cxx).1) ∧
    d.errors = ps.flatMap (fun p =>
      (paramStep f p types true cxx).2.errors ++
        capturedErrOf (paramStep f p types true cxx).1) ∧
    (∀ name opt,
      (paramStep f (TSParam.mk name opt none) types true cxx).1 =
        Except.error ParserError.UnnamedFunctionParam) ∧
    (∀ name opt ta t dt, translateTypeAnnot f ta types true cxx = (Except.ok t, dt) →
      ((unwrapNullable t).1 = TypeIR.VoidT →
        (paramStep f (TSParam.mk name opt (some ta)) types true cxx).1 =
          Except.error (ParserError.UnsupportedFunctionParamKind name "void")) ∧
      ((unwrapNullable t).1 = TypeIR.PromiseT →
        (paramStep f (TSParam.mk name opt (some ta)) types true cxx).1 =
          Except.error (ParserError.UnsupportedFunctionParamKind name "Promise"))) := by
  obtain ⟨h1, h2⟩ := paramsFold_ok_spec f types cxx ps l d hfold
  refine ⟨h1, h2, ?_, ?_⟩
  · intro name opt
    simp [paramStep]
  · intro name opt ta t dt ht
    constructor
    · intro hv
      simp [paramStep, ht, hv]
    · intro hv
      simp [paramStep, ht, hv]

/-- C6 witness: of three parameters, the first missing its annotation, the
second boolean, the third void, only the boolean parameter survives and the
two faults are captured in order. -/
theorem c6_function_params_fold_witness :
    (paramsFold 5
        [TSParam.mk "a" false none,
         TSParam.mk "b" false (some TSType.TSBooleanKeyword),
         TSParam.mk "c" false (some TSType.TSVoidKeyword)]
        [] true false).1 =
      Except.ok [("b", false, TypeIR.BooleanT)] ∧
    (paramsFold 5
        [TSParam.mk "a" false none,
         TSParam.mk "b" false (some TSType.TSBooleanKeyword),
         TSParam.mk "c" false (some TSType.TSVoidKeyword)]
        [] true false).2.errors =
      [ParserError.UnnamedFunctionParam,
       ParserError.UnsupportedFunctionParamKind "c" "void"] := by
  have hill : paramsFold 5
      [TSParam.mk "a" false none,
       TSParam.mk "b" false (some TSType.TSBooleanKeyword),
       TSParam.mk "c" false (some TSType.TSVoidKeyword)] [] true false =
      (Except.ok [("b", false, TypeIR.BooleanT)],
        ⟨[], [ParserError.UnnamedFunctionParam,
          ParserError.UnsupportedFunctionParamKind "c" "void"], true⟩) := by
    simp [paramsFold, paramStep, runCapture, isParserErrorKind, translateTypeAnnot,
      resolveTypeAnnot, resolveTypeAnnotAux, isResolvableStep, unwrapNullable, wrapNullable,
      Delta.app, Delta.empty, mkResDelta, consOpt]
  have h := c6_function_params_fold 5
    [TSParam.mk "a" false none,
     TSParam.mk "b" false (some TSType.TSBooleanKeyword),
     TSParam.mk "c" false (some TSType.TSVoidKeyword)] [] false
    [("b", false, TypeIR.BooleanT)]
    ⟨[], [ParserError.UnnamedFunctionParam,
      ParserError.UnsupportedFunctionParamKind "c" "void"], true⟩ hill
  rw [hill]
  exact ⟨rfl, rfl⟩

/-- C7: when the translated return type unwraps to a function annotation, the
signature translator succeeds exactly in native-only mode and raises
UnsupportedFunctionReturnTypeAnnotationParserError otherwise. -/
theorem c7_function_return_native_only (f : Nat) (ps : List TSParam) (retNode : TSType)
    (types : TypeDeclMap) (cap cxx : Bool) (params : List (String × Bool × TypeIR))
    (d dr : Delta) (t : TypeIR)
    (hps : paramsFold f ps types cap cxx = (Except.ok params, d))
    (hret : translateTypeAnnot f retNode types cap cxx = (Except.ok t, dr))
    (hfn : isFunctionIR (unwrapNullable t).1 = true) :
    translateFunctionTypeAnnot f ps (some retNode) types cap cxx =
      (if cxx then
        (Except.ok (TypeIR.FunctionT params
          (wrapNullable (unwrapNullable t).2 (unwrapNullable t).1)), d.app dr)
       else
        (Except.error (ParserError.UnsupportedFunctionReturnKind "FunctionTypeAnnotation"),
         d.app dr)) := by
  cases cxx <;> simp [translateFunctionTypeAnnot, hps, hret, hfn]

/-- C7 witness: a function returning a function type is accepted in
native-only mode and rejected with the function-return fault otherwise, at a
concrete signature with no parameters returning a nullary void function. -/
theorem c7_function_return_native_only_witness :
    translateFunctionTypeAnnot 5 [] (some (TSType.TSFunctionType [] (some TSType.TSVoidKeyword)))
        [] true true =
      (Except.ok (TypeIR.FunctionT [] (TypeIR.FunctionT [] TypeIR.VoidT)),
       Delta.app ⟨[], [], true⟩ ⟨[], [], true⟩) ∧
    translateFunctionTypeAnnot 5 [] (some (TSType.TSFunctionType [] (some TSType.TSVoidKeyword)))
        [] true false =
      (Except.error (ParserError.UnsupportedFunctionReturnKind "FunctionTypeAnnotation"),
       Delta.app ⟨[], [], true⟩ ⟨[], [], true⟩) := by
  have hps1 : paramsFold 5 [] [] true true = (Except.ok [], ⟨[], [], true⟩) := by
    simp [paramsFold, Delta.empty]
  have hps2 : paramsFold 5 [] [] true false = (Except.ok [], ⟨[], [], true⟩) := by
    simp [paramsFold, Delta.empty]
  have hret1 : translateTypeAnnot 5 (TSType.TSFunctionType [] (some TSType.TSVoidKeyword))
      [] true true = (Except.ok (TypeIR.FunctionT [] TypeIR.VoidT), ⟨[], [], true⟩) := by
    simp [translateTypeAnnot, resolveTypeAnnot, resolveTypeAnnotAux, isResolvableStep,
      translateFunctionTypeAnnot, paramsFold, unwrapNullable, wrapNullable, Delta.app,
      Delta.empty, mkResDelta, combineOk, isFunctionIR]
  have hret2 : translateTypeAnnot 5 (TSType.TSFunctionType [] (some TSType.TSVoidKeyword))
      [] true false = (Except.ok (TypeIR.FunctionT [] TypeIR.VoidT), ⟨[], [], true⟩) := by
    simp [translateTypeAnnot, resolveTypeAnnot, resolveTypeAnnotAux, isResolvableStep,
      translateFunctionTypeAnnot, paramsFold, unwrapNullable, wrapNullable, Delta.app,
      Delta.empty, mkResDelta, combineOk, isFunctionIR]
  constructor
  · have h := c7_function_return_native_only 5 [] (TSType.TSFunctionType []
      (some TSType.TSVoidKeyword)) [] true true [] ⟨[], [], true⟩ ⟨[], [], true⟩
      (TypeIR.FunctionT [] TypeIR.VoidT) hps1 hret1 (by simp [unwrapNullable, isFunctionIR])
    simpa [unwrapNullable, wrapNullable] using h
  · have h := c7_function_return_native_only 5 [] (TSType.TSFunctionType []
      (some TSType.TSVoidKeyword)) [] true false [] ⟨[], [], true⟩ ⟨[], [], true⟩
      (TypeIR.FunctionT [] TypeIR.VoidT) hps2 hret2 (by simp [unwrapNullable, isFunctionIR])
    simpa [unwrapNullable, wrapNullable] using h

/-- Helper: an abort escaping the property map is the non-ParserError kind
(everything else was captured per property). -/
theorem propsMap_error_jsError (f : Nat) (types : TypeDeclMap) (cxx : Bool) :
    ∀ (members : List SpecMember) (e : ParserError) (errs : List ParserError) (ok : Bool),
    propsMap f members types cxx = (Except.error e, errs, ok) →
    e = ParserError.jsError := by
  intro members
  induction members with
  | nil =>
    intro e errs ok h
    simp [propsMap] at h
  | cons m rest ih =>
    intro e errs ok h
    simp only [propsMap] at h
    rcases hstep : propStep f m types cxx with ⟨r, errs1, ok1⟩
    rw [hstep] at h
    cases r with
    | error ex =>
      simp only [Prod.mk.injEq, Except.error.injEq] at h
      obtain ⟨he, _⟩ := h
      subst he
      simp only [propStep] at hstep
      rcases hcap : runCapture true (buildPropertySchema f m types cxx) with ⟨rc, dc⟩
      rw [hcap] at hstep
      cases rc with
      | ok v =>
        cases v <;> simp at hstep
      | error ec =>
        simp only [Prod.mk.injEq, Except.error.injEq] at hstep
        obtain ⟨hec, _⟩ := hstep
        subst hec
        exact runCapture_true_error _ _ _ hcap
    | ok maybePair =>
      rcases hrest : propsMap f rest types cxx with ⟨r2, errs2, ok2⟩
      rw [hrest] at h
      cases r2 with
      | error ex2 =>
        simp only [Prod.mk.injEq, Except.error.injEq] at h
        obtain ⟨he, _⟩ := h
        subst he
        exact ih _ _ _ hrest
      | ok pairs => simp at h

/-- Helper: the reduce keeps moduleNames and excludedPlatforms of its initial
accumulator. -/
theorem reduceSchema_constants (init : NativeModuleSchema) :
    ∀ pairs : List PropPair,
    (reduceSchema init pairs).moduleNames = init.moduleNames ∧
    (reduceSchema init pairs).excludedPlatforms = init.excludedPlatforms := by
  intro pairs
  induction pairs generalizing init with
  | nil => simp [reduceSchema]
  | cons pr rest ih =>
    simp only [reduceSchema, List.foldl_cons]
    exact ih _

/-- C8: buildModuleSchema keeps only declarations passing isModuleInterface
(a TSInterfaceDeclaration with the single base TurboModule); with zero
survivors it aborts with ModuleInterfaceNotFoundParserError, with more than
one with MoreThanOneModuleInterfaceParserError, and with a single survivor
named anything but Spec with MisnamedModuleInterfaceParserError — in each
case the result is the error, no schema. -/
theorem c8_interface_discovery_faults (f : Nat) (hm : String) (p : Program) :
    moduleSpecsOf p = (typesValues (getTypes p)).filter isModuleInterface ∧
    (moduleSpecsOf p = [] →
      buildModuleSchema f hm p = (Except.error ParserError.ModuleInterfaceNotFound, [], true)) ∧
    (2 ≤ (moduleSpecsOf p).length →
      buildModuleSchema f hm p =
        (Except.error ParserError.MoreThanOneModuleInterface, [], true)) ∧
    (∀ iname ext body, moduleSpecsOf p = [TypeDecl.interfaceDecl iname ext body] →
      iname ≠ "Spec" →
      buildModuleSchema f hm p =
        (Except.error ParserError.MisnamedModuleInterface, [], true)) := by
  refine ⟨rfl, ?_, ?_, ?_⟩
  · intro h
    have h' : (typesValues (getTypes p)).filter isModuleInterface = [] := h
    simp only [buildModuleSchema, h']
  · intro h
    rcases hms : (typesValues (getTypes p)).filter isModuleInterface with _ | ⟨d1, _ | ⟨d2, rest⟩⟩
    · rw [moduleSpecsOf, hms] at h
      simp at h
    · rw [moduleSpecsOf, hms] at h
      simp at h
    · simp only [buildModuleSchema, hms]
  · intro iname ext body h hne
    have h' : (typesValues (getTypes p)).filter isModuleInterface =
      [TypeDecl.interfaceDecl iname ext body] := h
    simp only [buildModuleSchema, h', if_neg hne]

/-- C8 witness: a file with no qualifying interface, a file with two, and a
file whose single qualifying interface is named NotSpec produce the three
fatal faults. -/
theorem c8_interface_discovery_faults_witness :
    buildModuleSchema 5 "M" pNoInterface =
      (Except.error ParserError.ModuleInterfaceNotFound, [], true) ∧
    buildModuleSchema 5 "M" pTwoInterfaces =
      (Except.error ParserError.MoreThanOneModuleInterface, [], true) ∧
    buildModuleSchema 5 "M" pMisnamed =
      (Except.error ParserError.MisnamedModuleInterface, [], true) := by
  refine ⟨?_, ?_, ?_⟩
  · exact (c8_interface_discovery_faults 5 "M" pNoInterface).2.1
      (by simp [moduleSpecsOf, getTypes, typesValues, objFromList, objInsertG,
        isModuleInterface, pNoInterface, turboExt])
  · exact (c8_interface_discovery_faults 5 "M" pTwoInterfaces).2.2.1
      (by simp [moduleSpecsOf, getTypes, typesValues, objFromList, objInsertG,
        isModuleInterface, pTwoInterfaces, turboExt])
  · exact (c8_interface_discovery_faults 5 "M" pMisnamed).2.2.2 "NotSpec" [turboExt] []
      (by simp [moduleSpecsOf, getTypes, typesValues, objFromList, objInsertG,
        isModuleInterface, pMisnamed, turboExt])
      (by decide)

/-- C2 counterexample: a file with a valid Spec interface and zero
registration calls still produces a ModuleSchema — with an empty moduleNames
list — while the UnusedModuleInterfaceParserError is merely recorded in the
captured-error list, refuting the claim that these faults abort the file with
no schema emitted. -/
theorem c2_registry_fault_not_fatal_cex :
    buildModuleSchema 10 "MyModule" pUnused =
      (Except.ok ⟨[], [⟨"foo", false, TypeIR.FunctionT [] TypeIR.VoidT⟩], [], none⟩,
       [ParserError.UnusedModuleInterface], true) := by
  simp [buildModuleSchema, getTypes, typesValues, objFromList, objInsertG, isModuleInterface,
    parseModuleNameCall, derivePlatforms, derivePlatformsStep, jsEndsWith, listStartsWith,
    propsMap, propStep, runCapture, buildPropertySchema, resolveTypeAnnot, resolveTypeAnnotAux,
    isResolvableStep, lookupFirst, translateFunctionTypeAnnot, paramsFold, paramStep,
    translateTypeAnnot, objPropsFold, objPropStep, translateArrayTypeAnnot, unwrapNullable,
    wrapNullable, isFunctionIR, isParserErrorKind, Delta.app, Delta.empty, mkResDelta,
    combineOk, reduceSchema, objSpread, consOpt, turboExt, pUnused, tsKindOf]

/-- C2 (amended): the registration-call faults are raised inside the error
capturer, so they are captured, not fatal: the fault is appended to the error
list, moduleNames is left empty, and schema construction continues — a
ModuleSchema is still produced unless a non-ParserError exception (a crash)
escapes the property fold. -/
theorem c2_registry_faults_captured (f : Nat) (hm : String) (p : Program)
    (ext : List ExtendsClause) (body : List SpecMember) (e : ParserError)
    (hspec : moduleSpecsOf p = [TypeDecl.interfaceDecl "Spec" ext body])
    (hpn : parseModuleNameCall p.calls = Except.error e) :
    e ∈ (buildModuleSchema f hm p).2.1 ∧
    (∀ s, (buildModuleSchema f hm p).1 = Except.ok s → s.moduleNames = []) ∧
    (∀ e2, (buildModuleSchema f hm p).1 = Except.error e2 → e2 = ParserError.jsError) := by
  have h' : (typesValues (getTypes p)).filter isModuleInterface =
    [TypeDecl.interfaceDecl "Spec" ext body] := hspec
  rcases hpm : propsMap f
      (body.filter (fun m =>
        m.memberKind = "TSMethodSignature" || m.memberKind = "TSPropertySignature"))
      (getTypes p)
      (derivePlatforms ([] ++ [hm])).1 with ⟨r, errs, ok⟩
  cases r with
  | error e0 =>
    have hb : buildModuleSchema f hm p =
        (Except.error e0, [e] ++ errs, ok) := by
      simp only [buildModuleSchema, h', hpn, hpm, if_true]
    rw [hb]
    refine ⟨by simp, ?_, ?_⟩
    · intro s hs
      simp at hs
    · intro e2 he2
      simp only [Except.error.injEq] at he2
      subst he2
      exact propsMap_error_jsError f (getTypes p) _ _ _ _ _ hpm
  | ok pairs =>
    have hb : buildModuleSchema f hm p =
        (Except.ok (reduceSchema
          ⟨[], [], [],
            if (derivePlatforms ([] ++ [hm])).2.length ≠ 0
            then some (derivePlatforms ([] ++ [hm])).2 else none⟩ pairs),
         [e] ++ errs, ok) := by
      simp only [buildModuleSchema, h', hpn, hpm, if_true]
    rw [hb]
    refine ⟨by simp, ?_, ?_⟩
    · intro s hs
      simp only [Except.ok.injEq] at hs
      subst hs
      exact (reduceSchema_constants _ pairs).1
    · intro e2 he2
      simp at he2

/-- C2 witness: applying the captured-fault theorem at concrete files
exercising each registration-fault kind of the claim (no call, two calls,
wrong arity, non-string argument, wrong type parameter) shows each fault in
the captured list. -/
theorem c2_registry_faults_captured_witness :
    ParserError.UnusedModuleInterface ∈ (buildModuleSchema 10 "MyModule" pUnused).2.1 ∧
    ParserError.MoreThanOneModuleRegistryCalls ∈
      (buildModuleSchema 10 "MyModule" pTwoCalls).2.1 ∧
    ParserError.IncorrectModuleRegistryCallArity 0 ∈
      (buildModuleSchema 10 "MyModule" pBadArity).2.1 ∧
    ParserError.IncorrectModuleRegistryCallArgumentKind "Identifier" ∈
      (buildModuleSchema 10 "MyModule" pBadArg).2.1 ∧
    ParserError.IncorrectModuleRegistryCallTypeParameter ∈
      (buildModuleSchema 10 "MyModule" pBadTypeParam).2.1 := by
  refine ⟨?_, ?_, ?_, ?_, ?_⟩
  · exact (c2_registry_faults_captured 10 "MyModule" pUnused [turboExt]
      [⟨"TSMethodSignature", "foo", false,
        TSType.TSFunctionType [] (some TSType.TSVoidKeyword)⟩]
      ParserError.UnusedModuleInterface
      (by simp [moduleSpecsOf, getTypes, typesValues, objFromList, objInsertG,
        isModuleInterface, pUnused, turboExt])
      (by simp [parseModuleNameCall, pUnused])).1
  · exact (c2_registry_faults_captured 10 "MyModule" pTwoCalls [turboExt]
      [⟨"TSMethodSignature", "foo", false,
        TSType.TSFunctionType [] (some TSType.TSVoidKeyword)⟩]
      ParserError.MoreThanOneModuleRegistryCalls
      (by simp [moduleSpecsOf, getTypes, typesValues, objFromList, objInsertG,
        isModuleInterface, pTwoCalls, turboExt])
      (by simp [parseModuleNameCall, pTwoCalls, goodCall])).1
  · exact (c2_registry_faults_captured 10 "MyModule" pBadArity [turboExt]
      [⟨"TSMethodSignature", "foo", false,
        TSType.TSFunctionType [] (some TSType.TSVoidKeyword)⟩]
      (ParserError.IncorrectModuleRegistryCallArity 0)
      (by simp [moduleSpecsOf, getTypes, typesValues, objFromList, objInsertG,
        isModuleInterface, pBadArity, turboExt])
      (by simp [parseModuleNameCall, pBadArity])).1
  · exact (c2_registry_faults_captured 10 "MyModule" pBadArg [turboExt]
      [⟨"TSMethodSignature", "foo", false,
        TSType.TSFunctionType [] (some TSType.TSVoidKeyword)⟩]
      (ParserError.IncorrectModuleRegistryCallArgumentKind "Identifier")
      (by simp [moduleSpecsOf, getTypes, typesValues, objFromList, objInsertG,
        isModuleInterface, pBadArg, turboExt])
      (by simp [parseModuleNameCall, pBadArg])).1
  · exact (c2_registry_faults_captured 10 "MyModule" pBadTypeParam [turboExt]
      [⟨"TSMethodSignature", "foo", false,
        TSType.TSFunctionType [] (some TSType.TSVoidKeyword)⟩]
      ParserError.IncorrectModuleRegistryCallTypeParameter
      (by simp [moduleSpecsOf, getTypes, typesValues, objFromList, objInsertG,
        isModuleInterface, pBadTypeParam, turboExt])
      (by simp [parseModuleNameCall, pBadTypeParam])).1

/-- Helper: the platform loop, from any accumulator, ors in whether some name
passes the Cxx branch and appends each name's exclusion contribution in
order. -/
theorem derivePlatforms_fold_spec :
    ∀ (names : List String) (acc : Bool × List String),
    names.foldl derivePlatformsStep acc =
      (acc.1 || names.any (fun n =>
        !jsEndsWith n "Android" && !jsEndsWith n "IOS" && jsEndsWith n "Cxx"),
       acc.2 ++ names.flatMap suffixExclusions) := by
  intro names
  induction names with
  | nil => intro acc; simp
  | cons n rest ih =>
    intro acc
    simp only [List.foldl_cons, List.any_cons, List.flatMap_cons]
    rw [ih]
    by_cases hA : jsEndsWith n "Android" = true
    · simp [derivePlatformsStep, suffixExclusions, hA]
    · rw [Bool.not_eq_true] at hA
      by_cases hI : jsEndsWith n "IOS" = true
      · simp [derivePlatformsStep, suffixExclusions, hA, hI]
      · rw [Bool.not_eq_true] at hI
        by_cases hC : jsEndsWith n "Cxx" = true
        · simp [derivePlatformsStep, suffixExclusions, hA, hI, hC]
        · rw [Bool.not_eq_true] at hC
          simp [derivePlatformsStep, suffixExclusions, hA, hI, hC]

/-- C9: the platform derivation checks each of the registered module name and
the haste module name independently and accumulates: the exclusion lists
contributed per name are concatenated (Android-suffixed names contribute iOS,
IOS-suffixed names contribute android, Cxx-suffixed names contribute both and
switch native-only mode on), and a successfully built schema carries exactly
that accumulation, absent when no exclusion was derived. -/
theorem c9_platform_suffix_derivation (f : Nat) (hm : String) (p : Program)
    (s : NativeModuleSchema) (errs : List ParserError) (ok : Bool)
    (hb : buildModuleSchema f hm p = (Except.ok s, errs, ok)) :
    (∀ names, derivePlatforms names =
      (names.any (fun n =>
        !jsEndsWith n "Android" && !jsEndsWith n "IOS" && jsEndsWith n "Cxx"),
       names.flatMap suffixExclusions)) ∧
    s.excludedPlatforms =
      (if (moduleNamesOf p ++ [hm]).flatMap suffixExclusions = [] then none
       else some ((moduleNamesOf p ++ [hm]).flatMap suffixExclusions)) ∧
    suffixExclusions "FooAndroid" = ["iOS"] ∧
    suffixExclusions "FooIOS" = ["android"] ∧
    suffixExclusions "FooCxx" = ["iOS", "android"] := by
  have hspec : ∀ names : List String, derivePlatforms names =
      (names.any (fun n =>
        !jsEndsWith n "Android" && !jsEndsWith n "IOS" && jsEndsWith n "Cxx"),
       names.flatMap suffixExclusions) := by
    intro names
    have := derivePlatforms_fold_spec names (false, [])
    simpa [derivePlatforms] using this
  refine ⟨hspec, ?_, by decide, by decide, by decide⟩
  rcases hms : (typesValues (getTypes p)).filter isModuleInterface with _ | ⟨d1, rest1⟩
  · rw [buildModuleSchema.eq_def] at hb
    simp only [getTypes] at hb hms
    rw [hms] at hb
    simp at hb
  · cases rest1 with
    | cons d2 rest2 =>
      rw [buildModuleSchema.eq_def] at hb
      simp only [getTypes] at hb hms
      rw [hms] at hb
      simp at hb
    | nil =>
      cases d1 with
      | interfaceDecl iname ext body =>
        by_cases hname : iname = "Spec"
        · subst hname
          rw [buildModuleSchema.eq_def] at hb
          simp only [getTypes] at hb hms
          rw [hms] at hb
          simp only [if_pos rfl, if_true] at hb
          rcases hpn : parseModuleNameCall p.calls with e | n
          all_goals rw [hpn] at hb
          all_goals dsimp only at hb
          · -- registration fault captured: moduleNames = []
            rcases hpm : propsMap f
                (body.filter (fun m =>
                  m.memberKind = "TSMethodSignature" ||
                    m.memberKind = "TSPropertySignature"))
                (objFromList p.decls)
                (derivePlatforms ([] ++ [hm])).1 with ⟨r, perrs, pok⟩
            rw [hpm] at hb
            cases r with
            | error ex => simp at hb
            | ok pairs =>
              simp only [Prod.mk.injEq, Except.ok.injEq] at hb
              obtain ⟨hs, _⟩ := hb
              subst hs
              rw [(reduceSchema_constants _ pairs).2]
              simp only [moduleNamesOf, hpn]
              rw [hspec ([] ++ [hm])]
              dsimp only
              generalize (([] : List String) ++ [hm]).flatMap suffixExclusions = L
              cases L <;> simp
          · -- registration call parsed: moduleNames = [n]
            rcases hpm : propsMap f
                (body.filter (fun m =>
                  m.memberKind = "TSMethodSignature" ||
                    m.memberKind = "TSPropertySignature"))
                (objFromList p.decls)
                (derivePlatforms ([n] ++ [hm])).1 with ⟨r, perrs, pok⟩
            rw [hpm] at hb
            cases r with
            | error ex => simp at hb
            | ok pairs =>
              simp only [Prod.mk.injEq, Except.ok.injEq] at hb
              obtain ⟨hs, _⟩ := hb
              subst hs
              rw [(reduceSchema_constants _ pairs).2]
              simp only [moduleNamesOf, hpn]
              rw [hspec ([n] ++ [hm])]
              dsimp only
              generalize ([n] ++ [hm]).flatMap suffixExclusions = L
              cases L <;> simp
        · rw [buildModuleSchema.eq_def] at hb
          simp only [getTypes] at hb hms
          rw [hms] at hb
          simp only [if_neg hname] at hb
          simp at hb
      | typeAlias rhs =>
        rw [buildModuleSchema.eq_def] at hb
        simp only [getTypes] at hb hms
        rw [hms] at hb
        simp at hb
      | enumDecl ms =>
        rw [buildModuleSchema.eq_def] at hb
        simp only [getTypes] at hb hms
        rw [hms] at hb
        simp at hb
      | otherDecl k =>
        rw [buildModuleSchema.eq_def] at hb
        simp only [getTypes] at hb hms
        rw [hms] at hb
        simp at hb

/-- C9 witness: the registered name FooCxx and haste name HasteIOS together
turn native-only mode on and accumulate three exclusions, as the derivation
theorem instantiated at a successfully built concrete file shows. -/
theorem c9_platform_suffix_derivation_witness :
    derivePlatforms ["FooCxx", "HasteIOS"] = (true, ["iOS", "android", "android"]) := by
  have hb : buildModuleSchema 10 "HasteIOS" pCxx =
      (Except.ok ⟨[], [⟨"foo", false, TypeIR.FunctionT [] TypeIR.VoidT⟩], ["FooCxx"],
        some ["iOS", "android", "android"]⟩, [], true) := by
    simp [buildModuleSchema, getTypes, typesValues, objFromList, objInsertG, isModuleInterface,
      parseModuleNameCall, derivePlatforms, derivePlatformsStep, jsEndsWith, listStartsWith,
      propsMap, propStep, runCapture, buildPropertySchema, resolveTypeAnnot,
      resolveTypeAnnotAux, isResolvableStep, lookupFirst, translateFunctionTypeAnnot,
      paramsFold, paramStep, translateTypeAnnot, objPropsFold, objPropStep,
      translateArrayTypeAnnot, unwrapNullable, wrapNullable, isFunctionIR, isParserErrorKind,
      Delta.app, Delta.empty, mkResDelta, combineOk, reduceSchema, objSpread, consOpt,
      turboExt, pCxx, goodCall, tsKindOf]
  have h := (c9_platform_suffix_derivation 10 "HasteIOS" pCxx
    ⟨[], [⟨"foo", false, TypeIR.FunctionT [] TypeIR.VoidT⟩], ["FooCxx"],
      some ["iOS", "android", "android"]⟩ [] true hb).1 ["FooCxx", "HasteIOS"]
  rw [h]
  decide

/-- Helper: under nullGuard (capture off) no error is ever appended to the
captured-error list, anywhere in the translation — array translation always
passes nullGuard down, so its delta never carries errors either. -/
theorem nullGuard_no_captures : ∀ f : Nat,
    (∀ node types cxx, (translateTypeAnnot f node types false cxx).2.errors = []) ∧
    (∀ types cxx k el nb, (translateArrayTypeAnnot f types cxx k el nb).2.errors = []) ∧
    (∀ m types cxx, (objPropStep f m types false cxx).2.errors = []) ∧
    (∀ ms types cxx, (objPropsFold f ms types false cxx).2.errors = []) ∧
    (∀ pm types cxx, (paramStep f pm types false cxx).2.errors = []) ∧
    (∀ ps types cxx, (paramsFold f ps types false cxx).2.errors = []) ∧
    (∀ ps rt types cxx, (translateFunctionTypeAnnot f ps rt types false cxx).2.errors = []) := by
  intro f
  induction f using Nat.strong_induction_on with
  | _ f ih =>
    have hT : ∀ node types cxx, (translateTypeAnnot f node types false cxx).2.errors = [] := by
      match f with
      | 0 => intro node types cxx; simp [translateTypeAnnot]
      | Nat.succ g =>
        obtain ⟨ihT, ihA, ihSO, ihFO, ihSP, ihFP, ihFn⟩ := ih g (Nat.lt_succ_self g)
        intro node types cxx
        simp only [translateTypeAnnot]
        rcases hr : resolveTypeAnnot (Nat.succ g) node types with ⟨nb, ta, st, comp⟩
        cases ta with
        | TSArrayType el => simp [combineOk, ihA]
        | TSTypeOperator op inner =>
          by_cases hop : op = "readonly"
          · cases inner <;> simp [hop, combineOk, mkResDelta, ihA]
          · simp [hop, mkResDelta]
        | TSTypeReference name tps =>
          by_cases h1 : name = "RootTag"
          · simp [h1, mkResDelta]
          · by_cases h2 : name = "Promise"
            · rcases hat : assertOneTypeParam tps with _ | e <;>
                simp [h1, h2, hat, mkResDelta]
            · by_cases h3 : name = "Array" ∨ name = "ReadonlyArray"
              · have h3' : (name = "Array" || name = "ReadonlyArray") = true := by
                  rcases h3 with h | h <;> simp [h]
                rcases hat : assertOneTypeParam tps with _ | e <;>
                  simp [h1, h2, h3', hat, mkResDelta, combineOk, ihA]
              · push_neg at h3
                have h3' : (name = "Array" || name = "ReadonlyArray") = false := by
                  simp [h3.1, h3.2]
                by_cases h4 : name = "Stringish"
                · simp [h1, h2, h3', h4, mkResDelta]
                · by_cases h5 : name = "Int32"
                  · simp [h1, h2, h3', h4, h5, mkResDelta]
                  · by_cases h6 : name = "Double"
                    · simp [h1, h2, h3', h4, h5, h6, mkResDelta]
                    · by_cases h7 : name = "Float"
                      · simp [h1, h2, h3', h4, h5, h6, h7, mkResDelta]
                      · by_cases h8 : name = "UnsafeObject" ∨ name = "Object"
                        · have h8' : (name = "UnsafeObject" || name = "Object") = true := by
                            rcases h8 with h | h <;> simp [h]
                          simp [h1, h2, h3', h4, h5, h6, h7, h8', mkResDelta]
                        · push_neg at h8
                          have h8' : (name = "UnsafeObject" || name = "Object") = false := by
                            simp [h8.1, h8.2]
                          rcases hlook : lookupFirst types name with _ | d
                          · simp [h1, h2, h3', h4, h5, h6, h7, h8', hlook, mkResDelta]
                          · cases d with
                            | enumDecl ms =>
                              cases cxx with
                              | false =>
                                simp [h1, h2, h3', h4, h5, h6, h7, h8', hlook, mkResDelta]
                              | true =>
                                cases ms with
                                | nil =>
                                  simp [h1, h2, h3', h4, h5, h6, h7, h8', hlook, mkResDelta]
                                | cons m rest =>
                                  rcases m with ⟨_ | lit⟩ <;>
                                    simp [h1, h2, h3', h4, h5, h6, h7, h8', hlook,
                                      mkResDelta] <;>
                                    split <;> simp [mkResDelta]
                            | typeAlias rhs =>
                              simp [h1, h2, h3', h4, h5, h6, h7, h8', hlook, mkResDelta]
                            | interfaceDecl a b c =>
                              simp [h1, h2, h3', h4, h5, h6, h7, h8', hlook, mkResDelta]
                            | otherDecl k =>
                              simp [h1, h2, h3', h4, h5, h6, h7, h8', hlook, mkResDelta]
        | TSTypeLiteral members =>
          rcases hfold : objPropsFold g members types false cxx with ⟨rf, df⟩
          have hdf : df.errors = [] := by
            have := ihFO members types cxx
            rw [hfold] at this
            exact this
          cases rf <;> simp [hfold, combineOk, Delta.app, hdf]
        | TSBooleanKeyword => simp [mkResDelta]
        | TSNumberKeyword => simp [mkResDelta]
        | TSVoidKeyword => simp [mkResDelta]
        | TSStringKeyword => simp [mkResDelta]
        | TSFunctionType ps rt =>
          rcases hfn : translateFunctionTypeAnnot g ps rt types false cxx with ⟨rf, df⟩
          have hdf : df.errors = [] := by
            have := ihFn ps rt types cxx
            rw [hfn] at this
            exact this
          cases rf <;> simp [hfn, combineOk, hdf]
        | TSUnionType ms =>
          cases cxx <;> simp [mkResDelta] <;> split <;> simp [mkResDelta]
        | TSUnknownKeyword => cases cxx <;> simp [mkResDelta]
        | nullableMarker inner => simp
        | otherT k => simp [mkResDelta]
    have hA : ∀ types cxx k el nb,
        (translateArrayTypeAnnot f types cxx k el nb).2.errors = [] := by
      intro types cxx k el nb
      simp only [translateArrayTypeAnnot]
      rcases hel : translateTypeAnnot f el types false cxx with ⟨re, de⟩
      have hde : de.errors = [] := by
        have := hT el types cxx
        rw [hel] at this
        exact this
      cases re with
      | error e => simp [hde]
      | ok t =>
        rcases hu : unwrapNullable t with ⟨u, b⟩
        cases u <;> simp [hu, hde]
    have hSO : ∀ m types cxx, (objPropStep f m types false cxx).2.errors = [] := by
      intro m types cxx
      cases m with
      | otherMember kind => simp [objPropStep, Delta.empty]
      | TSPropertySignature name opt ta =>
        simp only [objPropStep]
        rcases ht : translateTypeAnnot f ta types false cxx with ⟨rt, dt⟩
        have hdt : dt.errors = [] := by
          have := hT ta types cxx
          rw [ht] at this
          exact this
        cases rt with
        | error e => simp [hdt]
        | ok t =>
          rcases hu : unwrapNullable t with ⟨u, b⟩
          cases u <;> simp [hu, hdt]
    have hFO : ∀ ms types cxx, (objPropsFold f ms types false cxx).2.errors = [] := by
      intro ms types cxx
      induction ms with
      | nil => simp [objPropsFold, Delta.empty]
      | cons m rest ihms =>
        simp only [objPropsFold]
        rcases hstep : objPropStep f m types false cxx with ⟨rs, ds⟩
        have hds : ds.errors = [] := by
          have := hSO m types cxx
          rw [hstep] at this
          exact this
        rcases hrest : objPropsFold f rest types false cxx with ⟨rr, dr⟩
        have hdr : dr.errors = [] := by
          have := ihms
          rw [hrest] at this
          exact this
        cases rs with
        | error e => simp [runCapture, hds]
        | ok v => cases rr <;> simp [runCapture, hrest, Delta.app, hds, hdr]
    have hSP : ∀ pm types cxx, (paramStep f pm types false cxx).2.errors = [] := by
      intro pm types cxx
      rcases pm with ⟨name, opt, _ | ta⟩
      · simp [paramStep, Delta.empty]
      · simp only [paramStep]
        rcases ht : translateTypeAnnot f ta types false cxx with ⟨rt, dt⟩
        have hdt : dt.errors = [] := by
          have := hT ta types cxx
          rw [ht] at this
          exact this
        cases rt with
        | error e => simp [hdt]
        | ok t =>
          rcases hu : unwrapNullable t with ⟨u, b⟩
          cases u <;> simp [hu, hdt]
    have hFP : ∀ ps types cxx, (paramsFold f ps types false cxx).2.errors = [] := by
      intro ps types cxx
      induction ps with
      | nil => simp [paramsFold, Delta.empty]
      | cons pm rest ihps =>
        simp only [paramsFold]
        rcases hstep : paramStep f pm types false cxx with ⟨rs, ds⟩
        have hds : ds.errors = [] := by
          have := hSP pm types cxx
          rw [hstep] at this
          exact this
        rcases hrest : paramsFold f rest types false cxx with ⟨rr, dr⟩
        have hdr : dr.errors = [] := by
          have := ihps
          rw [hrest] at this
          exact this
        cases rs with
        | error e => simp [runCapture, hds]
        | ok v => cases rr <;> simp [runCapture, hrest, Delta.app, hds, hdr]
    have hFn : ∀ ps rt types cxx,
        (translateFunctionTypeAnnot f ps rt types false cxx).2.errors = [] := by
      intro ps rt types cxx
      simp only [translateFunctionTypeAnnot]
      rcases hfold : paramsFold f ps types false cxx with ⟨rf, df⟩
      have hdf : df.errors = [] := by
        have := hFP ps types cxx
        rw [hfold] at this
        exact this
      cases rf with
      | error e => simp [hdf]
      | ok params =>
        cases rt with
        | none => simp [hdf]
        | some retNode =>
          rcases hret : translateTypeAnnot f retNode types false cxx with ⟨rr, dr⟩
          have hdr : dr.errors = [] := by
            have := hT retNode types cxx
            rw [hret] at this
            exact this
          cases rr with
          | error e => simp [hret, Delta.app, hdf, hdr]
          | ok t =>
            simp only [hret]
            split <;> simp [Delta.app, hdf, hdr]
    exact ⟨hT, hA, hSO, hFO, hSP, hFP, hFn⟩

/-- C3 counterexample: a void element type translates successfully to the
Void annotation, and the surrounding array still translates to an Array
annotation with its element absent — but the error list of the run is empty:
no UnsupportedArrayElementTypeAnnotation fault is recorded anywhere, because
the throw sits inside the same try whose catch swallows it. -/
theorem c3_array_element_fault_not_recorded_cex :
    translateTypeAnnot 4 TSType.TSVoidKeyword [] false false =
      (Except.ok TypeIR.VoidT, ⟨[], [], true⟩) ∧
    translateTypeAnnot 5 (TSType.TSArrayType TSType.TSVoidKeyword) [] true false =
      (Except.ok (TypeIR.ArrayT none), ⟨[], [], true⟩) ∧
    hasArrayElementFault
      (translateTypeAnnot 5 (TSType.TSArrayType TSType.TSVoidKeyword) [] true false).2.errors =
      false := by
  refine ⟨?_, ?_, ?_⟩ <;>
    simp [translateTypeAnnot, translateArrayTypeAnnot, resolveTypeAnnot, resolveTypeAnnotAux,
      isResolvableStep, unwrapNullable, wrapNullable, mkResDelta, combineOk,
      hasArrayElementFault]

/-- C3 (amended): when the element type translates successfully to a void,
Promise or function annotation, the array translation still yields the Array
annotation with its element absent — the property survives — but no fault is
recorded: the UnsupportedArrayElementTypeAnnotationParserError is thrown and
immediately swallowed by the surrounding catch, and an element translated
under nullGuard can never append to the captured-error list. -/
theorem c3_unsupported_array_element_swallowed (f : Nat) (el : TSType)
    (types : TypeDeclMap) (cxx : Bool) (t : TypeIR) (d : Delta)
    (hel : translateTypeAnnot f el types false cxx = (Except.ok t, d))
    (hkind : (unwrapNullable t).1 = TypeIR.VoidT ∨ (unwrapNullable t).1 = TypeIR.PromiseT ∨
      isFunctionIR (unwrapNullable t).1 = true) :
    ∀ k nb, translateArrayTypeAnnot f types cxx k el nb =
      (Except.ok (wrapNullable nb (TypeIR.ArrayT none)), d) ∧ d.errors = [] := by
  intro k nb
  have hderr : d.errors = [] := by
    have := (nullGuard_no_captures f).1 el types cxx
    rw [hel] at this
    exact this
  refine ⟨?_, hderr⟩
  simp only [translateArrayTypeAnnot, hel]
  rcases hu : unwrapNullable t with ⟨u, b⟩
  rw [hu] at hkind
  rcases hkind with hk | hk | hk
  · subst hk
    simp
  · subst hk
    simp
  · cases u <;> simp_all [isFunctionIR]

/-- C3 witness: the amended theorem applied at a void element type (which
translates to Void with fuel 4) gives the bare array annotation with an
empty error list. -/
theorem c3_unsupported_array_element_swallowed_witness :
    translateArrayTypeAnnot 4 [] false "Array" TSType.TSVoidKeyword false =
      (Except.ok (TypeIR.ArrayT none), ⟨[], [], true⟩) := by
  have hel : translateTypeAnnot 4 TSType.TSVoidKeyword [] false false =
      (Except.ok TypeIR.VoidT, ⟨[], [], true⟩) := by
    simp [translateTypeAnnot, resolveTypeAnnot, resolveTypeAnnotAux, isResolvableStep,
      wrapNullable, mkResDelta]
  have h := (c3_unsupported_array_element_swallowed 4 TSType.TSVoidKeyword [] false
    TypeIR.VoidT ⟨[], [], true⟩ hel (Or.inl (by simp [unwrapNullable]))) "Array" false
  simpa [wrapNullable] using h.1

/-! ## Lemmas about the JavaScript-object representation, used to relate
alias-map insertions to the final merged alias map -/

theorem lookupFirst_append {β : Type} :
    ∀ (l1 l2 : List (String × β)) (k : String),
    lookupFirst (l1 ++ l2) k =
      (match lookupFirst l1 k with
       | some v => some v
       | none => lookupFirst l2 k) := by
  intro l1
  induction l1 with
  | nil => intro l2 k; simp [lookupFirst]
  | cons kv rest ih =>
    intro l2 k
    rcases kv with ⟨k', v'⟩
    by_cases hk : k' = k
    · simp [lookupFirst, hk]
    · simp only [List.cons_append, lookupFirst, if_neg hk]
      exact ih l2 k

theorem lookupFirst_none_iff_any {β : Type} :
    ∀ (m : List (String × β)) (k : String),
    lookupFirst m k = none ↔ m.any (fun p => p.1 = k) = false := by
  intro m k
  induction m with
  | nil => simp [lookupFirst]
  | cons kv rest ih =>
    rcases kv with ⟨k0, v0⟩
    by_cases h0 : k0 = k
    · simp [lookupFirst, h0]
    · simp [lookupFirst, h0, ih]

theorem lookupFirst_map_replace_ne {β : Type} (k' : String) (v' : β) :
    ∀ (m : List (String × β)) (k : String), k' ≠ k →
    lookupFirst (m.map (fun p => if p.1 = k' then (k', v') else p)) k = lookupFirst m k := by
  intro m
  induction m with
  | nil => intro k _; simp
  | cons kv rest ih =>
    intro k hne
    rcases kv with ⟨k0, v0⟩
    simp only [List.map_cons]
    by_cases h0 : k0 = k'
    · subst h0
      have hhead : (if ((k0, v0) : String × β).1 = k0 then (k0, v') else (k0, v0)) =
          (k0, v') := by simp
      rw [hhead]
      simp only [lookupFirst, if_neg hne]
      exact ih k hne
    · have hhead : (if ((k0, v0) : String × β).1 = k' then (k', v') else (k0, v0)) =
          (k0, v0) := by simp [h0]
      rw [hhead]
      by_cases h0k : k0 = k
      · simp [lookupFirst, h0k]
      · simp only [lookupFirst, if_neg h0k]
        exact ih k hne

theorem lookupFirst_map_replace_eq {β : Type} (k' : String) (v' : β) :
    ∀ (m : List (String × β)), m.any (fun p => p.1 = k') = true →
    lookupFirst (m.map (fun p => if p.1 = k' then (k', v') else p)) k' = some v' := by
  intro m
  induction m with
  | nil => intro h; simp at h
  | cons kv rest ih =>
    intro hany
    rcases kv with ⟨k0, v0⟩
    simp only [List.map_cons]
    by_cases h0 : k0 = k'
    · subst h0
      have hhead : (if ((k0, v0) : String × β).1 = k0 then (k0, v') else (k0, v0)) =
          (k0, v') := by simp
      rw [hhead]
      simp [lookupFirst]
    · simp only [List.any_cons] at hany
      have hrest : rest.any (fun p => p.1 = k') = true := by
        rcases Bool.or_eq_true _ _ |>.mp hany with h | h
        · simp at h
          exact absurd h h0
        · exact h
      have hhead : (if ((k0, v0) : String × β).1 = k' then (k', v') else (k0, v0)) =
          (k0, v0) := by simp [h0]
      rw [hhead]
      simp only [lookupFirst, if_neg h0]
      exact ih hrest

theorem objInsertG_lookup {β : Type} (m : List (String × β)) (k' : String) (v' : β)
    (k : String) :
    lookupFirst (objInsertG m k' v') k =
      if k' = k then some v' else lookupFirst m k := by
  simp only [objInsertG]
  by_cases hmem : m.any (fun p => p.1 = k') = true
  · rw [if_pos hmem]
    by_cases hk : k' = k
    · subst hk
      rw [if_pos rfl]
      exact lookupFirst_map_replace_eq k' v' m hmem
    · rw [if_neg hk]
      exact lookupFirst_map_replace_ne k' v' m k hk
  · rw [if_neg hmem]
    rw [lookupFirst_append]
    by_cases hk : k' = k
    · subst hk
      have hnone : lookupFirst m k' = none := by
        rw [lookupFirst_none_iff_any]
        exact Bool.not_eq_true _ ▸ hmem
      rw [hnone]
      simp [lookupFirst]
    · rw [if_neg hk]
      rcases hl : lookupFirst m k with _ | v
      · simp [lookupFirst, hk]
      · simp

/-- Lookup through a fold of JavaScript-object assignments: the last
assignment of the key in the list wins, else the base object's binding. -/
theorem lookup_foldl_insert {β : Type} :
    ∀ (b : List (String × β)) (a : List (String × β)) (k : String),
    lookupFirst (b.foldl (fun acc kv => objInsertG acc kv.1 kv.2) a) k =
      (match lookupFirst b.reverse k with
       | some v => some v
       | none => lookupFirst a k) := by
  intro b
  induction b with
  | nil => intro a k; simp [lookupFirst]
  | cons kv rest ih =>
    intro a k
    rcases kv with ⟨k0, v0⟩
    simp only [List.foldl_cons, List.reverse_cons]
    rw [ih, lookupFirst_append]
    rcases hr : lookupFirst rest.reverse k with _ | v
    · simp only []
      rw [objInsertG_lookup]
      by_cases h0 : k0 = k
      · simp [lookupFirst, h0]
      · simp [lookupFirst, h0]
    · simp

theorem objFromList_lookup {β : Type} (l : List (String × β)) (k : String) :
    lookupFirst (objFromList l) k =
      (match lookupFirst l.reverse k with
       | some v => some v
       | none => none) := by
  rw [objFromList.eq_def, lookup_foldl_insert]
  rcases lookupFirst l.reverse k with _ | v <;> simp [lookupFirst]

theorem objSpread_lookup {β : Type} (a b : List (String × β)) (k : String) :
    lookupFirst (objSpread a b) k =
      (match lookupFirst b.reverse k with
       | some v => some v
       | none => lookupFirst a k) := by
  rw [objSpread.eq_def, lookup_foldl_insert]

theorem lookupFirst_mem {β : Type} :
    ∀ (l : List (String × β)) (k : String) (v : β),
    lookupFirst l k = some v → (k, v) ∈ l := by
  intro l
  induction l with
  | nil => intro k v h; simp [lookupFirst] at h
  | cons kv rest ih =>
    intro k v h
    rcases kv with ⟨k0, v0⟩
    by_cases h0 : k0 = k
    · subst h0
      simp only [lookupFirst, eq_self_iff_true, if_true, Option.some.injEq] at h
      subst h
      exact List.mem_cons_self _ _
    · simp only [lookupFirst, if_neg h0] at h
      exact List.mem_cons_of_mem _ (ih k v h)

/-- Membership in the source list of assignments, from a binding in the built
object. -/
theorem objFromList_lookup_mem {β : Type} (l : List (String × β)) (k : String) (v : β)
    (h : lookupFirst (objFromList l) k = some v) : (k, v) ∈ l := by
  rw [objFromList_lookup] at h
  rcases hr : lookupFirst l.reverse k with _ | w
  · rw [hr] at h; simp at h
  · rw [hr] at h
    simp only [Option.some.injEq] at h
    subst h
    exact List.mem_reverse.mp (lookupFirst_mem l.reverse k w hr)

/-! ## Lemmas about the annotation resolver -/

/-- Two completed resolutions of the same node agree, whatever fuel each was
given. -/
theorem resolveAux_det :
    ∀ (f1 : Nat) (node : TSType) (types : TypeDeclMap) (nb : Bool) (st : AliasStatus)
      (f2 : Nat),
    (resolveTypeAnnotAux f1 node types nb st).complete = true →
    (resolveTypeAnnotAux f2 node types nb st).complete = true →
    resolveTypeAnnotAux f2 node types nb st = resolveTypeAnnotAux f1 node types nb st := by
  intro f1
  induction f1 with
  | zero =>
    intro node types nb st f2 h1 h2
    simp only [resolveTypeAnnotAux, Bool.not_eq_true'] at h1
    cases f2 with
    | zero => rfl
    | succ g2 =>
      cases node with
      | nullableMarker inner => simp [isResolvableStep] at h1
      | TSTypeReference name tps =>
        simp only [resolveTypeAnnotAux]
        rcases hl : lookupFirst types name with _ | d
        · simp [resolveTypeAnnotAux, isResolvableStep, hl]
        · cases d with
          | typeAlias rhs => simp [isResolvableStep, hl] at h1
          | enumDecl ms => simp [resolveTypeAnnotAux, isResolvableStep, hl]
          | interfaceDecl a b c => simp [resolveTypeAnnotAux, isResolvableStep, hl]
          | otherDecl kind => simp [resolveTypeAnnotAux, isResolvableStep, hl]
      | TSArrayType el => simp [resolveTypeAnnotAux, isResolvableStep]
      | TSTypeOperator op inner => simp [resolveTypeAnnotAux, isResolvableStep]
      | TSTypeLiteral ms => simp [resolveTypeAnnotAux, isResolvableStep]
      | TSBooleanKeyword => simp [resolveTypeAnnotAux, isResolvableStep]
      | TSNumberKeyword => simp [resolveTypeAnnotAux, isResolvableStep]
      | TSVoidKeyword => simp [resolveTypeAnnotAux, isResolvableStep]
      | TSStringKeyword => simp [resolveTypeAnnotAux, isResolvableStep]
      | TSFunctionType ps rt => simp [resolveTypeAnnotAux, isResolvableStep]
      | TSUnionType ms => simp [resolveTypeAnnotAux, isResolvableStep]
      | TSUnknownKeyword => simp [resolveTypeAnnotAux, isResolvableStep]
      | otherT kind => simp [resolveTypeAnnotAux, isResolvableStep]
  | succ g1 ih =>
    intro node types nb st f2 h1 h2
    cases node with
    | nullableMarker inner =>
      cases f2 with
      | zero =>
        simp only [resolveTypeAnnotAux, isResolvableStep] at h2
        simp at h2
      | succ g2 =>
        simp only [resolveTypeAnnotAux] at h1 h2 ⊢
        exact ih inner types true st g2 h1 h2
    | TSTypeReference name tps =>
      rcases hl : lookupFirst types name with _ | d
      · cases f2 with
        | zero => simp [resolveTypeAnnotAux, isResolvableStep, hl]
        | succ g2 => simp [resolveTypeAnnotAux, hl]
      · cases d with
        | typeAlias rhs =>
          cases f2 with
          | zero =>
            simp only [resolveTypeAnnotAux, isResolvableStep, hl] at h2
            simp at h2
          | succ g2 =>
            simp only [resolveTypeAnnotAux, hl] at h1 h2 ⊢
            exact ih rhs types nb (AliasStatus.successful name) g2 h1 h2
        | enumDecl ms =>
          cases f2 with
          | zero => simp [resolveTypeAnnotAux, isResolvableStep, hl]
          | succ g2 => simp [resolveTypeAnnotAux, hl]
        | interfaceDecl a b c =>
          cases f2 with
          | zero => simp [resolveTypeAnnotAux, isResolvableStep, hl]
          | succ g2 => simp [resolveTypeAnnotAux, hl]
        | otherDecl kind =>
          cases f2 with
          | zero => simp [resolveTypeAnnotAux, isResolvableStep, hl]
          | succ g2 => simp [resolveTypeAnnotAux, hl]
    | TSArrayType el =>
      cases f2 with
      | zero => simp [resolveTypeAnnotAux, isResolvableStep]
      | succ g2 => simp [resolveTypeAnnotAux]
    | TSTypeOperator op inner =>
      cases f2 with
      | zero => simp [resolveTypeAnnotAux, isResolvableStep]
      | succ g2 => simp [resolveTypeAnnotAux]
    | TSTypeLiteral ms =>
      cases f2 with
      | zero => simp [resolveTypeAnnotAux, isResolvableStep]
      | succ g2 => simp [resolveTypeAnnotAux]
    | TSBooleanKeyword =>
      cases f2 with
      | zero => simp [resolveTypeAnnotAux, isResolvableStep]
      | succ g2 => simp [resolveTypeAnnotAux]
    | TSNumberKeyword =>
      cases f2 with
      | zero => simp [resolveTypeAnnotAux, isResolvableStep]
      | succ g2 => simp [resolveTypeAnnotAux]
    | TSVoidKeyword =>
      cases f2 with
      | zero => simp [resolveTypeAnnotAux, isResolvableStep]
      | succ g2 => simp [resolveTypeAnnotAux]
    | TSStringKeyword =>
      cases f2 with
      | zero => simp [resolveTypeAnnotAux, isResolvableStep]
      | succ g2 => simp [resolveTypeAnnotAux]
    | TSFunctionType ps rt =>
      cases f2 with
      | zero => simp [resolveTypeAnnotAux, isResolvableStep]
      | succ g2 => simp [resolveTypeAnnotAux]
    | TSUnionType ms =>
      cases f2 with
      | zero => simp [resolveTypeAnnotAux, isResolvableStep]
      | succ g2 => simp [resolveTypeAnnotAux]
    | TSUnknownKeyword =>
      cases f2 with
      | zero => simp [resolveTypeAnnotAux, isResolvableStep]
      | succ g2 => simp [resolveTypeAnnotAux]
    | otherT kind =>
      cases f2 with
      | zero => simp [resolveTypeAnnotAux, isResolvableStep]
      | succ g2 => simp [resolveTypeAnnotAux]

/-- A completed resolution either performed no alias substitution — the
result is the argument with its markers stripped and the status untouched —
or its recorded alias name is a type alias of the file whose right-hand side,
markers stripped, is the resolved annotation. -/
theorem resolveAux_shape :
    ∀ (f : Nat) (node : TSType) (types : TypeDeclMap) (nb : Bool) (st : AliasStatus),
    (resolveTypeAnnotAux f node types nb st).complete = true →
    ((resolveTypeAnnotAux f node types nb st).typeAnnot = stripMarkers node ∧
      (resolveTypeAnnotAux f node types nb st).status = st) ∨
    (∃ k rhs, (resolveTypeAnnotAux f node types nb st).status = AliasStatus.successful k ∧
      lookupFirst types k = some (TypeDecl.typeAlias rhs) ∧
      (resolveTypeAnnotAux f node types nb st).typeAnnot = stripMarkers rhs) := by
  intro f
  induction f with
  | zero =>
    intro node types nb st h
    simp only [resolveTypeAnnotAux, Bool.not_eq_true'] at h
    left
    cases node with
    | nullableMarker inner => simp [isResolvableStep] at h
    | TSArrayType el => exact ⟨rfl, rfl⟩
    | TSTypeOperator op inner => exact ⟨rfl, rfl⟩
    | TSTypeReference name tps => exact ⟨rfl, rfl⟩
    | TSTypeLiteral ms => exact ⟨rfl, rfl⟩
    | TSBooleanKeyword => exact ⟨rfl, rfl⟩
    | TSNumberKeyword => exact ⟨rfl, rfl⟩
    | TSVoidKeyword => exact ⟨rfl, rfl⟩
    | TSStringKeyword => exact ⟨rfl, rfl⟩
    | TSFunctionType ps rt => exact ⟨rfl, rfl⟩
    | TSUnionType ms => exact ⟨rfl, rfl⟩
    | TSUnknownKeyword => exact ⟨rfl, rfl⟩
    | otherT kind => exact ⟨rfl, rfl⟩
  | succ g ih =>
    intro node types nb st h
    cases node with
    | nullableMarker inner =>
      simp only [resolveTypeAnnotAux] at h ⊢
      rcases ih inner types true st h with ⟨ht, hs⟩ | ⟨k, rhs, hs, hl, ht⟩
      · left
        exact ⟨by rw [ht]; rfl, hs⟩
      · right
        exact ⟨k, rhs, hs, hl, ht⟩
    | TSTypeReference name tps =>
      rcases hl : lookupFirst types name with _ | d
      · simp [resolveTypeAnnotAux, hl, stripMarkers]
      · cases d with
        | typeAlias rhs =>
          simp only [resolveTypeAnnotAux, hl] at h ⊢
          rcases ih rhs types nb (AliasStatus.successful name) h with
            ⟨ht, hs⟩ | ⟨k, rhs2, hs, hl2, ht⟩
          · right
            exact ⟨name, rhs, hs, hl, ht⟩
          · right
            exact ⟨k, rhs2, hs, hl2, ht⟩
        | enumDecl ms => simp [resolveTypeAnnotAux, hl, stripMarkers]
        | interfaceDecl a b c => simp [resolveTypeAnnotAux, hl, stripMarkers]
        | otherDecl kind => simp [resolveTypeAnnotAux, hl, stripMarkers]
    | TSArrayType el => simp [resolveTypeAnnotAux, stripMarkers]
    | TSTypeOperator op inner => simp [resolveTypeAnnotAux, stripMarkers]
    | TSTypeLiteral ms => simp [resolveTypeAnnotAux, stripMarkers]
    | TSBooleanKeyword => simp [resolveTypeAnnotAux, stripMarkers]
    | TSNumberKeyword => simp [resolveTypeAnnotAux, stripMarkers]
    | TSVoidKeyword => simp [resolveTypeAnnotAux, stripMarkers]
    | TSStringKeyword => simp [resolveTypeAnnotAux, stripMarkers]
    | TSFunctionType ps rt => simp [resolveTypeAnnotAux, stripMarkers]
    | TSUnionType ms => simp [resolveTypeAnnotAux, stripMarkers]
    | TSUnknownKeyword => simp [resolveTypeAnnotAux, stripMarkers]
    | otherT kind => simp [resolveTypeAnnotAux, stripMarkers]

/-! ## Lemmas for the determinism of alias registration -/

theorem translate_zero_not_clean (node : TSType) (types : TypeDeclMap) (c cxx : Bool) :
    (translateTypeAnnot 0 node types c cxx).2.fuelOk = false := by
  simp [translateTypeAnnot]

theorem combineOk_fuelOk_comp (comp : Bool) (d : Delta)
    (h : (combineOk comp d).fuelOk = true) : comp = true :=
  (Bool.and_eq_true _ _ |>.mp h).1

theorem combineOk_fuelOk_sub (comp : Bool) (d : Delta)
    (h : (combineOk comp d).fuelOk = true) : d.fuelOk = true :=
  (Bool.and_eq_true _ _ |>.mp h).2

theorem mkResDelta_fuelOk (comp : Bool) (h : (mkResDelta comp).fuelOk = true) : comp = true := h

theorem translate_clean_complete (g : Nat) (node : TSType) (types : TypeDeclMap)
    (c cxx : Bool)
    (h : (translateTypeAnnot (Nat.succ g) node types c cxx).2.fuelOk = true) :
    (resolveTypeAnnot (Nat.succ g) node types).complete = true := by
  simp only [translateTypeAnnot] at h
  rcases hr : resolveTypeAnnot (Nat.succ g) node types with ⟨nb, ta, st, comp⟩
  rw [hr] at h
  dsimp only at h
  show comp = true
  cases ta <;> dsimp only at h
  case TSArrayType el => exact combineOk_fuelOk_comp _ _ h
  case TSTypeOperator op inner =>
    by_cases hop : op = "readonly"
    · rw [if_pos hop] at h
      cases inner <;>
        first
        | exact combineOk_fuelOk_comp _ _ h
        | exact mkResDelta_fuelOk _ h
    · rw [if_neg hop] at h
      exact mkResDelta_fuelOk _ h
  case TSTypeReference name tps =>
    by_cases h1 : name = "RootTag"
    · rw [if_pos h1] at h; exact mkResDelta_fuelOk _ h
    · rw [if_neg h1] at h
      by_cases h2 : name = "Promise"
      · rw [if_pos h2] at h
        rcases hat : assertOneTypeParam tps with _ | e <;> rw [hat] at h <;>
          dsimp only at h <;> exact mkResDelta_fuelOk _ h
      · rw [if_neg h2] at h
        by_cases h3 : (name = "Array" || name = "ReadonlyArray") = true
        · rw [if_pos h3] at h
          rcases hat : assertOneTypeParam tps with _ | e <;> rw [hat] at h <;>
            dsimp only at h
          · exact combineOk_fuelOk_comp _ _ h
          · exact mkResDelta_fuelOk _ h
        · rw [if_neg h3] at h
          by_cases h4 : name = "Stringish"
          · rw [if_pos h4] at h; exact mkResDelta_fuelOk _ h
          · rw [if_neg h4] at h
            by_cases h5 : name = "Int32"
            · rw [if_pos h5] at h; exact mkResDelta_fuelOk _ h
            · rw [if_neg h5] at h
              by_cases h6 : name = "Double"
              · rw [if_pos h6] at h; exact mkResDelta_fuelOk _ h
              · rw [if_neg h6] at h
                by_cases h7 : name = "Float"
                · rw [if_pos h7] at h; exact mkResDelta_fuelOk _ h
                · rw [if_neg h7] at h
                  by_cases h8 : (name = "UnsafeObject" || name = "Object") = true
                  · rw [if_pos h8] at h; exact mkResDelta_fuelOk _ h
                  · rw [if_neg h8] at h
                    rcases hlook : lookupFirst types name with _ | d <;> rw [hlook] at h
                    · exact mkResDelta_fuelOk _ h
                    · cases d <;> dsimp only at h
                      · exact mkResDelta_fuelOk _ h
                      · case _ ms =>
                          cases cxx
                          · simp only [Bool.false_eq_true, if_false, ite_false] at h
                            exact mkResDelta_fuelOk _ h
                          · simp only [eq_self_iff_true, if_true, ite_true] at h
                            cases ms
                            · dsimp only at h
                              exact mkResDelta_fuelOk _ h
                            · case _ m rest =>
                                rcases m with ⟨_ | lit⟩
                                · dsimp only at h
                                  split at h <;> exact mkResDelta_fuelOk _ h
                                · dsimp only at h
                                  split at h <;> exact mkResDelta_fuelOk _ h
                      · exact mkResDelta_fuelOk _ h
                      · exact mkResDelta_fuelOk _ h
  case TSTypeLiteral members =>
    split at h
    · exact combineOk_fuelOk_comp _ _ h
    · exact combineOk_fuelOk_comp _ _ h
  case TSBooleanKeyword => exact mkResDelta_fuelOk _ h
  case TSNumberKeyword => exact mkResDelta_fuelOk _ h
  case TSVoidKeyword => exact mkResDelta_fuelOk _ h
  case TSStringKeyword => exact mkResDelta_fuelOk _ h
  case TSFunctionType ps rt =>
    split at h
    · exact combineOk_fuelOk_comp _ _ h
    · exact combineOk_fuelOk_comp _ _ h
  case TSUnionType ms =>
    split at h
    · split at h
      · exact mkResDelta_fuelOk _ h
      · exact mkResDelta_fuelOk _ h
    · exact mkResDelta_fuelOk _ h
  case TSUnknownKeyword =>
    split at h
    · exact mkResDelta_fuelOk _ h
    · exact mkResDelta_fuelOk _ h
  case nullableMarker inner => simp at h
  case otherT kind => exact mkResDelta_fuelOk _ h


theorem runCapture_delta {α : Type} (c : Bool) (x : Except ParserError α × Delta) :
    ((runCapture c x).2.fuelOk = x.2.fuelOk) ∧ ((runCapture c x).2.inserts = x.2.inserts) := by
  rcases x with ⟨r, d⟩
  cases r with
  | ok v => simp [runCapture]
  | error e =>
    by_cases hk : (c && isParserErrorKind e) = true
    · simp [runCapture, hk]
    · rw [Bool.not_eq_true] at hk
      simp [runCapture, hk]

theorem delta_app_fuelOk (a b : Delta) (h : (a.app b).fuelOk = true) :
    a.fuelOk = true ∧ b.fuelOk = true := by
  simp only [Delta.app] at h
  exact Bool.and_eq_true _ _ |>.mp h

theorem delta_app_inserts (a b : Delta) :
    (a.app b).inserts = a.inserts ++ b.inserts := rfl

theorem arrayDelta (f : Nat) (types : TypeDeclMap) (cxx : Bool) (k : String)
    (el : TSType) (nb : Bool) :
    (translateArrayTypeAnnot f types cxx k el nb).2 =
      (translateTypeAnnot f el types false cxx).2 := by
  simp only [translateArrayTypeAnnot]
  rcases he : translateTypeAnnot f el types false cxx with ⟨r, d⟩
  rcases r with e | t
  · rfl
  · dsimp only
    cases hu : (unwrapNullable t).1 <;> rfl

theorem propStepDelta (f : Nat) (name : String) (opt : Bool) (tyA : TSType)
    (types : TypeDeclMap) (c cxx : Bool) :
    (objPropStep f (TSMember.TSPropertySignature name opt tyA) types c cxx).2 =
      (translateTypeAnnot f tyA types c cxx).2 := by
  simp only [objPropStep]
  rcases he : translateTypeAnnot f tyA types c cxx with ⟨r, d⟩
  rcases r with e | t
  · rfl
  · dsimp only
    cases hu : (unwrapNullable t).1 <;> rfl

theorem paramStepDelta (f : Nat) (name : String) (opt : Bool) (ta : TSType)
    (types : TypeDeclMap) (c cxx : Bool) :
    (paramStep f (TSParam.mk name opt (some ta)) types c cxx).2 =
      (translateTypeAnnot f ta types c cxx).2 := by
  simp only [paramStep]
  rcases he : translateTypeAnnot f ta types c cxx with ⟨r, d⟩
  rcases r with e | t
  · rfl
  · dsimp only
    cases hu : (unwrapNullable t).1 <;> rfl

/-- Transfer of a captured step across capture flags: if the first run's
capturer yields an ok (possibly absent) result, and the underlying steps are
related by determinism and ok-transfer, the second run's capturer yields the
same result with the same insertions. -/
theorem runCapture_transfer {α : Type} (c c2 : Bool)
    (p1 p2 : Except ParserError α × Delta)
    (hstepEq : c2 = c → p2 = p1)
    (hstepOk : ∀ v, p1.1 = Except.ok v → (c = true → c2 = true) →
      p2.1 = Except.ok v ∧ p2.2.inserts = p1.2.inserts)
    (hcc : c = true → c2 = true) (mp : Option α)
    (h : (runCapture c p1).1 = Except.ok mp) :
    (runCapture c2 p2).1 = Except.ok mp ∧
    (runCapture c2 p2).2.inserts = (runCapture c p1).2.inserts := by
  rcases p1 with ⟨r1, d1⟩
  cases r1 with
  | error e =>
    by_cases hk : (c && isParserErrorKind e) = true
    · have hc : c = true := (Bool.and_eq_true _ _ |>.mp hk).1
      have hke : isParserErrorKind e = true := (Bool.and_eq_true _ _ |>.mp hk).2
      have hc2 : c2 = true := hcc hc
      have hp : p2 = (Except.error e, d1) := hstepEq (by rw [hc, hc2])
      subst hp
      simp only [runCapture, hk, if_true] at h ⊢
      have hk2 : (c2 && isParserErrorKind e) = true := by rw [hc2, hke]; rfl
      simp only [hk2, if_true]
      exact ⟨h, by trivial⟩
    · rw [Bool.not_eq_true] at hk
      simp [runCapture, hk] at h
  | ok v =>
    obtain ⟨h2ok, h2ins⟩ := hstepOk v rfl hcc
    rcases p2 with ⟨r2, d2⟩
    dsimp only at h2ok h2ins
    cases r2 with
    | error e2 => exact absurd h2ok (by simp)
    | ok v2 =>
      simp only [Except.ok.injEq] at h2ok
      subst h2ok
      simp only [runCapture] at h ⊢
      exact ⟨h, h2ins⟩

theorem foldCons_fuelOk (f : Nat) (m : TSMember) (rest : List TSMember)
    (types : TypeDeclMap) (c cxx : Bool)
    (h : (objPropsFold f (m :: rest) types c cxx).2.fuelOk = true) :
    (objPropStep f m types c cxx).2.fuelOk = true ∧
    (∀ mp, (runCapture c (objPropStep f m types c cxx)).1 = Except.ok mp →
      (objPropsFold f rest types c cxx).2.fuelOk = true) := by
  simp only [objPropsFold] at h
  have hdelta := (runCapture_delta c (objPropStep f m types c cxx)).1
  rcases hs : runCapture c (objPropStep f m types c cxx) with ⟨r, d⟩
  rw [hs] at h hdelta
  dsimp only at hdelta
  cases r with
  | error e =>
    dsimp only at h
    refine ⟨by rw [← hdelta]; exact h, ?_⟩
    intro mp hmp
    exact absurd hmp (by simp)
  | ok mp0 =>
    rcases hr : objPropsFold f rest types c cxx with ⟨rr, dr⟩
    rw [hr] at h
    have happ : (d.app dr).fuelOk = true := by
      cases rr <;> dsimp only at h <;> exact h
    obtain ⟨hd, hdr⟩ := delta_app_fuelOk d dr happ
    exact ⟨by rw [← hdelta]; exact hd, fun mp _ => hdr⟩

theorem pfoldCons_fuelOk (f : Nat) (p : TSParam) (rest : List TSParam)
    (types : TypeDeclMap) (c cxx : Bool)
    (h : (paramsFold f (p :: rest) types c cxx).2.fuelOk = true) :
    (paramStep f p types c cxx).2.fuelOk = true ∧
    (∀ mp, (runCapture c (paramStep f p types c cxx)).1 = Except.ok mp →
      (paramsFold f rest types c cxx).2.fuelOk = true) := by
  simp only [paramsFold] at h
  have hdelta := (runCapture_delta c (paramStep f p types c cxx)).1
  rcases hs : runCapture c (paramStep f p types c cxx) with ⟨r, d⟩
  rw [hs] at h hdelta
  dsimp only at hdelta
  cases r with
  | error e =>
    dsimp only at h
    refine ⟨by rw [← hdelta]; exact h, ?_⟩
    intro mp hmp
    exact absurd hmp (by simp)
  | ok mp0 =>
    rcases hr : paramsFold f rest types c cxx with ⟨rr, dr⟩
    rw [hr] at h
    have happ : (d.app dr).fuelOk = true := by
      cases rr <;> dsimp only at h <;> exact h
    obtain ⟨hd, hdr⟩ := delta_app_fuelOk d dr happ
    exact ⟨by rw [← hdelta]; exact hd, fun mp _ => hdr⟩

theorem fnDelta_fuelOk (f : Nat) (ps : List TSParam) (rt : Option TSType)
    (types : TypeDeclMap) (c cxx : Bool)
    (h : (translateFunctionTypeAnnot f ps rt types c cxx).2.fuelOk = true) :
    (paramsFold f ps types c cxx).2.fuelOk = true ∧
    (∀ params retNode, (paramsFold f ps types c cxx).1 = Except.ok params →
      rt = some retNode → (translateTypeAnnot f retNode types c cxx).2.fuelOk = true) := by
  simp only [translateFunctionTypeAnnot] at h
  rcases hp : paramsFold f ps types c cxx with ⟨rp, dp⟩
  rw [hp] at h
  cases rp with
  | error e =>
    dsimp only at h
    refine ⟨h, ?_⟩
    intro params retNode hps _
    exact absurd hps (by simp)
  | ok params0 =>
    dsimp only at h
    cases rt with
    | none => exact ⟨h, fun params retNode _ hrt => by simp at hrt⟩
    | some retNode0 =>
      dsimp only at h
      rcases hrr : translateTypeAnnot f retNode0 types c cxx with ⟨rr, dr⟩
      rw [hrr] at h
      have happ : (dp.app dr).fuelOk = true := by
        cases rr with
        | error e => dsimp only at h; exact h
        | ok t =>
          dsimp only at h
          by_cases hg : (!cxx && isFunctionIR (unwrapNullable t).1) = true
          · rw [if_pos hg] at h; exact h
          · rw [if_neg hg] at h; exact h
      obtain ⟨hdp, hdr⟩ := delta_app_fuelOk dp dr happ
      refine ⟨hdp, ?_⟩
      intro params retNode _ hrt
      injection hrt with hrn
      subst hrn
      rw [hrr]
      exact hdr

set_option maxHeartbeats 1000000 in
/-- Joint determinism of the translator: two clean runs with the same capture
flag agree completely, and a clean successful run transfers to any clean run
whose capture flag is at least as permissive, with the same value and the
same alias-map insertions. -/
theorem translateDetAll : ∀ f1 : Nat,
    (∀ f2 node types cxx c c2,
      (translateTypeAnnot f1 node types c cxx).2.fuelOk = true →
      (translateTypeAnnot f2 node types c2 cxx).2.fuelOk = true →
      (c2 = c →
        translateTypeAnnot f2 node types c2 cxx = translateTypeAnnot f1 node types c cxx) ∧
      (∀ t, (translateTypeAnnot f1 node types c cxx).1 = Except.ok t → (c = true → c2 = true) →
        (translateTypeAnnot f2 node types c2 cxx).1 = Except.ok t ∧
        (translateTypeAnnot f2 node types c2 cxx).2.inserts =
          (translateTypeAnnot f1 node types c cxx).2.inserts)) ∧
    (∀ f2 types cxx k el nb,
      (translateArrayTypeAnnot f1 types cxx k el nb).2.fuelOk = true →
      (translateArrayTypeAnnot f2 types cxx k el nb).2.fuelOk = true →
      translateArrayTypeAnnot f2 types cxx k el nb =
        translateArrayTypeAnnot f1 types cxx k el nb) ∧
    (∀ f2 m types cxx c c2,
      (objPropStep f1 m types c cxx).2.fuelOk = true →
      (objPropStep f2 m types c2 cxx).2.fuelOk = true →
      (c2 = c → objPropStep f2 m types c2 cxx = objPropStep f1 m types c cxx) ∧
      (∀ v, (objPropStep f1 m types c cxx).1 = Except.ok v → (c = true → c2 = true) →
        (objPropStep f2 m types c2 cxx).1 = Except.ok v ∧
        (objPropStep f2 m types c2 cxx).2.inserts = (objPropStep f1 m types c cxx).2.inserts)) ∧
    (∀ f2 ms types cxx c c2,
      (objPropsFold f1 ms types c cxx).2.fuelOk = true →
      (objPropsFold f2 ms types c2 cxx).2.fuelOk = true →
      (c2 = c → objPropsFold f2 ms types c2 cxx = objPropsFold f1 ms types c cxx) ∧
      (∀ l, (objPropsFold f1 ms types c cxx).1 = Except.ok l → (c = true → c2 = true) →
        (objPropsFold f2 ms types c2 cxx).1 = Except.ok l ∧
        (objPropsFold f2 ms types c2 cxx).2.inserts =
          (objPropsFold f1 ms types c cxx).2.inserts)) ∧
    (∀ f2 pm types cxx c c2,
      (paramStep f1 pm types c cxx).2.fuelOk = true →
      (paramStep f2 pm types c2 cxx).2.fuelOk = true →
      (c2 = c → paramStep f2 pm types c2 cxx = paramStep f1 pm types c cxx) ∧
      (∀ v, (paramStep f1 pm types c cxx).1 = Except.ok v → (c = true → c2 = true) →
        (paramStep f2 pm types c2 cxx).1 = Except.ok v ∧
        (paramStep f2 pm types c2 cxx).2.inserts = (paramStep f1 pm types c cxx).2.inserts)) ∧
    (∀ f2 ps types cxx c c2,
      (paramsFold f1 ps types c cxx).2.fuelOk = true →
      (paramsFold f2 ps types c2 cxx).2.fuelOk = true →
      (c2 = c → paramsFold f2 ps types c2 cxx = paramsFold f1 ps types c cxx) ∧
      (∀ l, (paramsFold f1 ps types c cxx).1 = Except.ok l → (c = true → c2 = true) →
        (paramsFold f2 ps types c2 cxx).1 = Except.ok l ∧
        (paramsFold f2 ps types c2 cxx).2.inserts = (paramsFold f1 ps types c cxx).2.inserts)) ∧
    (∀ f2 ps rt types cxx c c2,
      (translateFunctionTypeAnnot f1 ps rt types c cxx).2.fuelOk = true →
      (translateFunctionTypeAnnot f2 ps rt types c2 cxx).2.fuelOk = true →
      (c2 = c → translateFunctionTypeAnnot f2 ps rt types c2 cxx =
        translateFunctionTypeAnnot f1 ps rt types c cxx) ∧
      (∀ t, (translateFunctionTypeAnnot f1 ps rt types c cxx).1 = Except.ok t →
        (c = true → c2 = true) →
        (translateFunctionTypeAnnot f2 ps rt types c2 cxx).1 = Except.ok t ∧
        (translateFunctionTypeAnnot f2 ps rt types c2 cxx).2.inserts =
          (translateFunctionTypeAnnot f1 ps rt types c cxx).2.inserts)) := by
  intro f1
  induction f1 using Nat.strong_induction_on with
  | _ f1 ih =>
    have hT : ∀ f2 node types cxx c c2,
        (translateTypeAnnot f1 node types c cxx).2.fuelOk = true →
        (translateTypeAnnot f2 node types c2 cxx).2.fuelOk = true →
        (c2 = c →
          translateTypeAnnot f2 node types c2 cxx = translateTypeAnnot f1 node types c cxx) ∧
        (∀ t, (translateTypeAnnot f1 node types c cxx).1 = Except.ok t →
          (c = true → c2 = true) →
          (translateTypeAnnot f2 node types c2 cxx).1 = Except.ok t ∧
          (translateTypeAnnot f2 node types c2 cxx).2.inserts =
            (translateTypeAnnot f1 node types c cxx).2.inserts) := by
      intro f2 node types cxx c c2 h1 h2
      cases f1 with
      | zero => exact absurd h1 (by simp [translateTypeAnnot])
      | succ g1 =>
        cases f2 with
        | zero => exact absurd h2 (by simp [translateTypeAnnot])
        | succ g2 =>
          obtain ⟨ihT, ihA, ihSO, ihFO, ihSP, ihFP, ihFn⟩ := ih g1 (Nat.lt_succ_self g1)
          have hc1 := translate_clean_complete g1 node types c cxx h1
          have hc2 := translate_clean_complete g2 node types c2 cxx h2
          have hres : resolveTypeAnnot (Nat.succ g2) node types =
              resolveTypeAnnot (Nat.succ g1) node types :=
            resolveAux_det (Nat.succ g1) node types false AliasStatus.failed
              (Nat.succ g2) hc1 hc2
          simp only [translateTypeAnnot] at h1 h2 ⊢
          rw [hres] at h2 ⊢
          rcases hr : resolveTypeAnnot (Nat.succ g1) node types with ⟨nb, ta, st, comp⟩
          rw [hr] at h1 h2
          dsimp only at h1 h2 ⊢
          cases ta with
          | TSArrayType el =>
            dsimp only at h1 h2 ⊢
            have ha1 : (translateArrayTypeAnnot g1 types cxx "Array" el nb).2.fuelOk = true :=
              combineOk_fuelOk_sub _ _ h1
            have ha2 : (translateArrayTypeAnnot g2 types cxx "Array" el nb).2.fuelOk = true :=
              combineOk_fuelOk_sub _ _ h2
            have harr := ihA g2 types cxx "Array" el nb ha1 ha2
            rw [harr]
            exact ⟨fun _ => by trivial, fun t ht _ => ⟨ht, by trivial⟩⟩
          | TSTypeOperator op inner =>
            dsimp only at h1 h2 ⊢
            by_cases hop : op = "readonly"
            · simp only [if_pos hop] at h1 h2 ⊢
              cases inner with
              | TSArrayType el =>
                dsimp only at h1 h2 ⊢
                have ha1 : (translateArrayTypeAnnot g1 types cxx
                    "ReadonlyArray" el nb).2.fuelOk = true := combineOk_fuelOk_sub _ _ h1
                have ha2 : (translateArrayTypeAnnot g2 types cxx
                    "ReadonlyArray" el nb).2.fuelOk = true := combineOk_fuelOk_sub _ _ h2
                have harr := ihA g2 types cxx "ReadonlyArray" el nb ha1 ha2
                rw [harr]
                exact ⟨fun _ => by trivial, fun t ht _ => ⟨ht, by trivial⟩⟩
              | TSTypeOperator op2 inner2 => exact ⟨fun _ => by trivial, fun t ht _ => ⟨ht, by trivial⟩⟩
              | TSTypeReference n2 t2 => exact ⟨fun _ => by trivial, fun t ht _ => ⟨ht, by trivial⟩⟩
              | TSTypeLiteral m2 => exact ⟨fun _ => by trivial, fun t ht _ => ⟨ht, by trivial⟩⟩
              | TSBooleanKeyword => exact ⟨fun _ => by trivial, fun t ht _ => ⟨ht, by trivial⟩⟩
              | TSNumberKeyword => exact ⟨fun _ => by trivial, fun t ht _ => ⟨ht, by trivial⟩⟩
              | TSVoidKeyword => exact ⟨fun _ => by trivial, fun t ht _ => ⟨ht, by trivial⟩⟩
              | TSStringKeyword => exact ⟨fun _ => by trivial, fun t ht _ => ⟨ht, by trivial⟩⟩
              | TSFunctionType p2 r2 => exact ⟨fun _ => by trivial, fun t ht _ => ⟨ht, by trivial⟩⟩
              | TSUnionType u2 => exact ⟨fun _ => by trivial, fun t ht _ => ⟨ht, by trivial⟩⟩
              | TSUnknownKeyword => exact ⟨fun _ => by trivial, fun t ht _ => ⟨ht, by trivial⟩⟩
              | nullableMarker i2 => exact ⟨fun _ => by trivial, fun t ht _ => ⟨ht, by trivial⟩⟩
              | otherT k2 => exact ⟨fun _ => by trivial, fun t ht _ => ⟨ht, by trivial⟩⟩
            · simp only [if_neg hop] at h1 h2 ⊢
              exact ⟨fun _ => by trivial, fun t ht _ => ⟨ht, by trivial⟩⟩
          | TSTypeReference name tps =>
            dsimp only at h1 h2 ⊢
            by_cases hn1 : name = "RootTag"
            · simp only [if_pos hn1] at h1 h2 ⊢
              exact ⟨fun _ => by trivial, fun t ht _ => ⟨ht, by trivial⟩⟩
            · simp only [if_neg hn1] at h1 h2 ⊢
              by_cases hn2 : name = "Promise"
              · simp only [if_pos hn2] at h1 h2 ⊢
                exact ⟨fun _ => by trivial, fun t ht _ => ⟨ht, by trivial⟩⟩
              · simp only [if_neg hn2] at h1 h2 ⊢
                by_cases hn3 : (name = "Array" || name = "ReadonlyArray") = true
                · simp only [if_pos hn3] at h1 h2 ⊢
                  rcases hat : assertOneTypeParam tps with _ | e
                  · rw [hat] at h1 h2
                    dsimp only at h1 h2 ⊢
                    have ha1 : (translateArrayTypeAnnot g1 types cxx "TSTypeReference"
                        (headTypeParam tps) nb).2.fuelOk = true := combineOk_fuelOk_sub _ _ h1
                    have ha2 : (translateArrayTypeAnnot g2 types cxx "TSTypeReference"
                        (headTypeParam tps) nb).2.fuelOk = true := combineOk_fuelOk_sub _ _ h2
                    have harr := ihA g2 types cxx "TSTypeReference" (headTypeParam tps) nb ha1 ha2
                    rw [harr]
                    exact ⟨fun _ => by trivial, fun t ht _ => ⟨ht, by trivial⟩⟩
                  · rw [hat] at h1 h2
                    dsimp only at h1 h2 ⊢
                    exact ⟨fun _ => by trivial, fun t ht _ => ⟨ht, by trivial⟩⟩
                · simp only [if_neg hn3] at h1 h2 ⊢
                  exact ⟨fun _ => by trivial, fun t ht _ => ⟨ht, by trivial⟩⟩
          | TSTypeLiteral members =>
            dsimp only at h1 h2 ⊢
            rcases hf1 : objPropsFold g1 members types c cxx with ⟨r1, d1⟩
            rcases hf2 : objPropsFold g2 members types c2 cxx with ⟨r2, d2⟩
            rw [hf1] at h1
            rw [hf2] at h2
            have hd1 : d1.fuelOk = true := by
              cases r1
              · dsimp only [combineOk] at h1
                exact (Bool.and_eq_true _ _ |>.mp h1).2
              · dsimp only [combineOk, Delta.app] at h1
                have := (Bool.and_eq_true _ _ |>.mp h1).2
                exact (Bool.and_eq_true _ _ |>.mp this).1
            have hd2 : d2.fuelOk = true := by
              cases r2
              · dsimp only [combineOk] at h2
                exact (Bool.and_eq_true _ _ |>.mp h2).2
              · dsimp only [combineOk, Delta.app] at h2
                have := (Bool.and_eq_true _ _ |>.mp h2).2
                exact (Bool.and_eq_true _ _ |>.mp this).1
            obtain ⟨hfoA, hfoB⟩ := ihFO g2 members types cxx c c2
              (by rw [hf1]; exact hd1) (by rw [hf2]; exact hd2)
            constructor
            · intro hcc
              have heq := hfoA hcc
              rw [hf1, hf2] at heq
              simp only [Prod.mk.injEq] at heq
              obtain ⟨hre, hde⟩ := heq
              subst hre
              subst hde
              rfl
            · intro t ht hcc
              cases r1 with
              | error e => simp at ht
              | ok props =>
                simp only [Except.ok.injEq] at ht
                obtain ⟨hB1, hB2⟩ := hfoB props (by rw [hf1]) hcc
                rw [hf2] at hB1 hB2
                rw [hf1] at hB2
                dsimp only at hB1 hB2
                cases r2 with
                | error e2 => simp at hB1
                | ok props2 =>
                  simp only [Except.ok.injEq] at hB1
                  subst hB1
                  constructor
                  · rw [← ht]
                  · simp only [combineOk, Delta.app]
                    rw [hB2]
          | TSBooleanKeyword => exact ⟨fun _ => by trivial, fun t ht _ => ⟨ht, by trivial⟩⟩
          | TSNumberKeyword => exact ⟨fun _ => by trivial, fun t ht _ => ⟨ht, by trivial⟩⟩
          | TSVoidKeyword => exact ⟨fun _ => by trivial, fun t ht _ => ⟨ht, by trivial⟩⟩
          | TSStringKeyword => exact ⟨fun _ => by trivial, fun t ht _ => ⟨ht, by trivial⟩⟩
          | TSFunctionType ps rt =>
            dsimp only at h1 h2 ⊢
            rcases hf1 : translateFunctionTypeAnnot g1 ps rt types c cxx with ⟨r1, d1⟩
            rcases hf2 : translateFunctionTypeAnnot g2 ps rt types c2 cxx with ⟨r2, d2⟩
            rw [hf1] at h1
            rw [hf2] at h2
            have hd1 : d1.fuelOk = true := by
              cases r1 <;> dsimp only [combineOk] at h1 <;>
                exact (Bool.and_eq_true _ _ |>.mp h1).2
            have hd2 : d2.fuelOk = true := by
              cases r2 <;> dsimp only [combineOk] at h2 <;>
                exact (Bool.and_eq_true _ _ |>.mp h2).2
            obtain ⟨hfnA, hfnB⟩ := ihFn g2 ps rt types cxx c c2
              (by rw [hf1]; exact hd1) (by rw [hf2]; exact hd2)
            constructor
            · intro hcc
              have heq := hfnA hcc
              rw [hf1, hf2] at heq
              simp only [Prod.mk.injEq] at heq
              obtain ⟨hre, hde⟩ := heq
              subst hre
              subst hde
              rfl
            · intro t ht hcc
              cases r1 with
              | error e => simp at ht
              | ok v =>
                simp only [Except.ok.injEq] at ht
                obtain ⟨hB1, hB2⟩ := hfnB v (by rw [hf1]) hcc
                rw [hf2] at hB1 hB2
                rw [hf1] at hB2
                dsimp only at hB1 hB2
                cases r2 with
                | error e2 => simp at hB1
                | ok v2 =>
                  simp only [Except.ok.injEq] at hB1
                  subst hB1
                  constructor
                  · rw [← ht]
                  · simp only [combineOk]
                    rw [hB2]
          | TSUnionType ms => exact ⟨fun _ => by trivial, fun t ht _ => ⟨ht, by trivial⟩⟩
          | TSUnknownKeyword => exact ⟨fun _ => by trivial, fun t ht _ => ⟨ht, by trivial⟩⟩
          | nullableMarker inner => simp at h1
          | otherT kind => exact ⟨fun _ => by trivial, fun t ht _ => ⟨ht, by trivial⟩⟩
    have hA : ∀ f2 types cxx k el nb,
        (translateArrayTypeAnnot f1 types cxx k el nb).2.fuelOk = true →
        (translateArrayTypeAnnot f2 types cxx k el nb).2.fuelOk = true →
        translateArrayTypeAnnot f2 types cxx k el nb =
          translateArrayTypeAnnot f1 types cxx k el nb := by
      intro f2 types cxx k el nb h1 h2
      rw [arrayDelta] at h1 h2
      have hstep := (hT f2 el types cxx false false h1 h2).1 rfl
      simp only [translateArrayTypeAnnot]
      rw [hstep]
    have hSO : ∀ f2 m types cxx c c2,
        (objPropStep f1 m types c cxx).2.fuelOk = true →
        (objPropStep f2 m types c2 cxx).2.fuelOk = true →
        (c2 = c → objPropStep f2 m types c2 cxx = objPropStep f1 m types c cxx) ∧
        (∀ v, (objPropStep f1 m types c cxx).1 = Except.ok v → (c = true → c2 = true) →
          (objPropStep f2 m types c2 cxx).1 = Except.ok v ∧
          (objPropStep f2 m types c2 cxx).2.inserts =
            (objPropStep f1 m types c cxx).2.inserts) := by
      intro f2 m types cxx c c2 h1 h2
      cases m with
      | otherMember kind =>
        constructor
        · intro _
          simp only [objPropStep]
        · intro v hv _
          simp only [objPropStep] at hv
          exact absurd hv (by simp)
      | TSPropertySignature name opt tyA =>
        rw [propStepDelta] at h1 h2
        obtain ⟨hTA, hTB⟩ := hT f2 tyA types cxx c c2 h1 h2
        constructor
        · intro hcc
          simp only [objPropStep]
          rw [hTA hcc]
        · intro v hv hcc
          simp only [objPropStep] at hv ⊢
          rcases he1 : translateTypeAnnot f1 tyA types c cxx with ⟨r1, d1⟩
          rw [he1] at hv
          rcases r1 with e1 | t
          · exact absurd hv (by simp)
          · obtain ⟨hB1, hB2⟩ := hTB t (by rw [he1]) hcc
            rcases he2 : translateTypeAnnot f2 tyA types c2 cxx with ⟨r2, d2⟩
            rw [he2] at hB1 hB2
            rw [he1] at hB2
            dsimp only at hB1 hB2 hv ⊢
            rcases r2 with e2 | t2
            · exact absurd hB1 (by simp)
            · simp only [Except.ok.injEq] at hB1
              subst hB1
              dsimp only
              cases hu : (unwrapNullable t2).1 <;> rw [hu] at hv <;>
                dsimp only at hv ⊢ <;> exact ⟨hv, hB2⟩
    have hSP : ∀ f2 pm types cxx c c2,
        (paramStep f1 pm types c cxx).2.fuelOk = true →
        (paramStep f2 pm types c2 cxx).2.fuelOk = true →
        (c2 = c → paramStep f2 pm types c2 cxx = paramStep f1 pm types c cxx) ∧
        (∀ v, (paramStep f1 pm types c cxx).1 = Except.ok v → (c = true → c2 = true) →
          (paramStep f2 pm types c2 cxx).1 = Except.ok v ∧
          (paramStep f2 pm types c2 cxx).2.inserts =
            (paramStep f1 pm types c cxx).2.inserts) := by
      intro f2 pm types cxx c c2 h1 h2
      rcases pm with ⟨name, opt, tyOpt⟩
      rcases tyOpt with _ | ta
      · constructor
        · intro _
          simp only [paramStep]
        · intro v hv _
          simp only [paramStep] at hv
          exact absurd hv (by simp)
      · rw [paramStepDelta] at h1 h2
        obtain ⟨hTA, hTB⟩ := hT f2 ta types cxx c c2 h1 h2
        constructor
        · intro hcc
          simp only [paramStep]
          rw [hTA hcc]
        · intro v hv hcc
          simp only [paramStep] at hv ⊢
          rcases he1 : translateTypeAnnot f1 ta types c cxx with ⟨r1, d1⟩
          rw [he1] at hv
          rcases r1 with e1 | t
          · exact absurd hv (by simp)
          · obtain ⟨hB1, hB2⟩ := hTB t (by rw [he1]) hcc
            rcases he2 : translateTypeAnnot f2 ta types c2 cxx with ⟨r2, d2⟩
            rw [he2] at hB1 hB2
            rw [he1] at hB2
            dsimp only at hB1 hB2 hv ⊢
            rcases r2 with e2 | t2
            · exact absurd hB1 (by simp)
            · simp only [Except.ok.injEq] at hB1
              subst hB1
              dsimp only
              cases hu : (unwrapNullable t2).1 <;> rw [hu] at hv <;>
                dsimp only at hv ⊢ <;> exact ⟨hv, hB2⟩
    have hFO : ∀ f2 ms types cxx c c2,
        (objPropsFold f1 ms types c cxx).2.fuelOk = true →
        (objPropsFold f2 ms types c2 cxx).2.fuelOk = true →
        (c2 = c → objPropsFold f2 ms types c2 cxx = objPropsFold f1 ms types c cxx) ∧
        (∀ l, (objPropsFold f1 ms types c cxx).1 = Except.ok l → (c = true → c2 = true) →
          (objPropsFold f2 ms types c2 cxx).1 = Except.ok l ∧
          (objPropsFold f2 ms types c2 cxx).2.inserts =
            (objPropsFold f1 ms types c cxx).2.inserts) := by
      intro f2 ms types cxx c c2
      induction ms with
      | nil =>
        intro h1 h2
        constructor
        · intro _
          simp only [objPropsFold]
        · intro l hl _
          simp only [objPropsFold] at hl ⊢
          exact ⟨hl, by trivial⟩
      | cons m rest ihrest =>
        intro h1 h2
        obtain ⟨hsf1, hrf1⟩ := foldCons_fuelOk f1 m rest types c cxx h1
        obtain ⟨hsf2, hrf2⟩ := foldCons_fuelOk f2 m rest types c2 cxx h2
        obtain ⟨hstepEq, hstepOk⟩ := hSO f2 m types cxx c c2 hsf1 hsf2
        constructor
        · intro hcc
          have hcc2 := hcc.symm
          subst hcc2
          simp only [objPropsFold]
          rw [hstepEq rfl]
          rcases hs : runCapture c (objPropStep f1 m types c cxx) with ⟨r, d⟩
          rcases r with e | mp
          · rfl
          · dsimp only
            rw [(ihrest (hrf1 mp (by rw [hs]))
              (hrf2 mp (by rw [hstepEq rfl, hs]))).1 rfl]
        · intro l hl hcc
          simp only [objPropsFold] at hl ⊢
          rcases hs1 : runCapture c (objPropStep f1 m types c cxx) with ⟨r1, d1⟩
          rw [hs1] at hl
          rcases r1 with e1 | mp1
          · exact absurd hl (by simp)
          · dsimp only at hl
            rcases hr1 : objPropsFold f1 rest types c cxx with ⟨rr1, dr1⟩
            rw [hr1] at hl
            rcases rr1 with er1 | props1
            · exact absurd hl (by simp)
            · dsimp only at hl
              simp only [Except.ok.injEq] at hl
              obtain ⟨hc1, hc2⟩ := runCapture_transfer c c2
                (objPropStep f1 m types c cxx) (objPropStep f2 m types c2 cxx)
                hstepEq hstepOk hcc mp1 (by rw [hs1])
              obtain ⟨hr2a, hr2b⟩ := (ihrest (hrf1 mp1 (by rw [hs1]))
                (hrf2 mp1 hc1)).2 props1 (by rw [hr1]) hcc
              rcases hs2 : runCapture c2 (objPropStep f2 m types c2 cxx) with ⟨r2, d2⟩
              rw [hs2] at hc1 hc2
              rw [hs1] at hc2
              dsimp only at hc1 hc2
              rcases r2 with e2 | mp2
              · exact absurd hc1 (by simp)
              · simp only [Except.ok.injEq] at hc1
                subst hc1
                dsimp only
                rcases hr2 : objPropsFold f2 rest types c2 cxx with ⟨rr2, dr2⟩
                rw [hr2] at hr2a hr2b
                rw [hr1] at hr2b
                dsimp only at hr2a hr2b
                rcases rr2 with er2 | props2
                · exact absurd hr2a (by simp)
                · simp only [Except.ok.injEq] at hr2a
                  subst hr2a
                  constructor
                  · dsimp only
                    rw [hl]
                  · dsimp only
                    rw [delta_app_inserts, delta_app_inserts, hc2, hr2b]
    have hFP : ∀ f2 ps types cxx c c2,
        (paramsFold f1 ps types c cxx).2.fuelOk = true →
        (paramsFold f2 ps types c2 cxx).2.fuelOk = true →
        (c2 = c → paramsFold f2 ps types c2 cxx = paramsFold f1 ps types c cxx) ∧
        (∀ l, (paramsFold f1 ps types c cxx).1 = Except.ok l → (c = true → c2 = true) →
          (paramsFold f2 ps types c2 cxx).1 = Except.ok l ∧
          (paramsFold f2 ps types c2 cxx).2.inserts =
            (paramsFold f1 ps types c cxx).2.inserts) := by
      intro f2 ps types cxx c c2
      induction ps with
      | nil =>
        intro h1 h2
        constructor
        · intro _
          simp only [paramsFold]
        · intro l hl _
          simp only [paramsFold] at hl ⊢
          exact ⟨hl, by trivial⟩
      | cons p rest ihrest =>
        intro h1 h2
        obtain ⟨hsf1, hrf1⟩ := pfoldCons_fuelOk f1 p rest types c cxx h1
        obtain ⟨hsf2, hrf2⟩ := pfoldCons_fuelOk f2 p rest types c2 cxx h2
        obtain ⟨hstepEq, hstepOk⟩ := hSP f2 p types cxx c c2 hsf1 hsf2
        constructor
        · intro hcc
          have hcc2 := hcc.symm
          subst hcc2
          simp only [paramsFold]
          rw [hstepEq rfl]
          rcases hs : runCapture c (paramStep f1 p types c cxx) with ⟨r, d⟩
          rcases r with e | mp
          · rfl
          · dsimp only
            rw [(ihrest (hrf1 mp (by rw [hs]))
              (hrf2 mp (by rw [hstepEq rfl, hs]))).1 rfl]
        · intro l hl hcc
          simp only [paramsFold] at hl ⊢
          rcases hs1 : runCapture c (paramStep f1 p types c cxx) with ⟨r1, d1⟩
          rw [hs1] at hl
          rcases r1 with e1 | mp1
          · exact absurd hl (by simp)
          · dsimp only at hl
            rcases hr1 : paramsFold f1 rest types c cxx with ⟨rr1, dr1⟩
            rw [hr1] at hl
            rcases rr1 with er1 | props1
            · exact absurd hl (by simp)
            · dsimp only at hl
              simp only [Except.ok.injEq] at hl
              obtain ⟨hc1, hc2⟩ := runCapture_transfer c c2
                (paramStep f1 p types c cxx) (paramStep f2 p types c2 cxx)
                hstepEq hstepOk hcc mp1 (by rw [hs1])
              obtain ⟨hr2a, hr2b⟩ := (ihrest (hrf1 mp1 (by rw [hs1]))
                (hrf2 mp1 hc1)).2 props1 (by rw [hr1]) hcc
              rcases hs2 : runCapture c2 (paramStep f2 p types c2 cxx) with ⟨r2, d2⟩
              rw [hs2] at hc1 hc2
              rw [hs1] at hc2
              dsimp only at hc1 hc2
              rcases r2 with e2 | mp2
              · exact absurd hc1 (by simp)
              · simp only [Except.ok.injEq] at hc1
                subst hc1
                dsimp only
                rcases hr2 : paramsFold f2 rest types c2 cxx with ⟨rr2, dr2⟩
                rw [hr2] at hr2a hr2b
                rw [hr1] at hr2b
                dsimp only at hr2a hr2b
                rcases rr2 with er2 | props2
                · exact absurd hr2a (by simp)
                · simp only [Except.ok.injEq] at hr2a
                  subst hr2a
                  constructor
                  · dsimp only
                    rw [hl]
                  · dsimp only
                    rw [delta_app_inserts, delta_app_inserts, hc2, hr2b]
    have hFn : ∀ f2 ps rt types cxx c c2,
        (translateFunctionTypeAnnot f1 ps rt types c cxx).2.fuelOk = true →
        (translateFunctionTypeAnnot f2 ps rt types c2 cxx).2.fuelOk = true →
        (c2 = c → translateFunctionTypeAnnot f2 ps rt types c2 cxx =
          translateFunctionTypeAnnot f1 ps rt types c cxx) ∧
        (∀ t, (translateFunctionTypeAnnot f1 ps rt types c cxx).1 = Except.ok t →
          (c = true → c2 = true) →
          (translateFunctionTypeAnnot f2 ps rt types c2 cxx).1 = Except.ok t ∧
          (translateFunctionTypeAnnot f2 ps rt types c2 cxx).2.inserts =
            (translateFunctionTypeAnnot f1 ps rt types c cxx).2.inserts) := by
      intro f2 ps rt types cxx c c2 h1 h2
      obtain ⟨hpf1, hrt1⟩ := fnDelta_fuelOk f1 ps rt types c cxx h1
      obtain ⟨hpf2, hrt2⟩ := fnDelta_fuelOk f2 ps rt types c2 cxx h2
      obtain ⟨hfpEq, hfpOk⟩ := hFP f2 ps types cxx c c2 hpf1 hpf2
      constructor
      · intro hcc
        have hcc2 := hcc.symm
        subst hcc2
        simp only [translateFunctionTypeAnnot]
        rw [hfpEq rfl]
        rcases hp : paramsFold f1 ps types c cxx with ⟨rp, dp⟩
        rcases rp with ep | params
        · rfl
        · dsimp only
          cases rt with
          | none => rfl
          | some retNode =>
            dsimp only
            rw [(hT f2 retNode types cxx c c
              (hrt1 params retNode (by rw [hp]) rfl)
              (hrt2 params retNode (by rw [hfpEq rfl, hp]) rfl)).1 rfl]
      · intro t ht hcc
        simp only [translateFunctionTypeAnnot] at ht ⊢
        rcases hp1 : paramsFold f1 ps types c cxx with ⟨rp1, dp1⟩
        rw [hp1] at ht
        rcases rp1 with ep1 | params1
        · exact absurd ht (by simp)
        · dsimp only at ht
          cases rt with
          | none => exact absurd ht (by simp)
          | some retNode =>
            dsimp only at ht ⊢
            rcases hr1 : translateTypeAnnot f1 retNode types c cxx with ⟨rr1, dr1⟩
            rw [hr1] at ht
            rcases rr1 with er1 | t1
            · exact absurd ht (by simp)
            · dsimp only at ht
              obtain ⟨hpo1, hpo2⟩ := hfpOk params1 (by rw [hp1]) hcc
              obtain ⟨hto1, hto2⟩ := (hT f2 retNode types cxx c c2
                (hrt1 params1 retNode (by rw [hp1]) rfl)
                (hrt2 params1 retNode hpo1 rfl)).2 t1 (by rw [hr1]) hcc
              rcases hp2 : paramsFold f2 ps types c2 cxx with ⟨rp2, dp2⟩
              rw [hp2] at hpo1 hpo2
              rw [hp1] at hpo2
              dsimp only at hpo1 hpo2
              rcases rp2 with ep2 | params2
              · exact absurd hpo1 (by simp)
              · simp only [Except.ok.injEq] at hpo1
                subst hpo1
                dsimp only
                rcases hr2 : translateTypeAnnot f2 retNode types c2 cxx with ⟨rr2, dr2⟩
                rw [hr2] at hto1 hto2
                rw [hr1] at hto2
                dsimp only at hto1 hto2
                rcases rr2 with er2 | t2
                · exact absurd hto1 (by simp)
                · simp only [Except.ok.injEq] at hto1
                  subst hto1
                  dsimp only
                  by_cases hg : (!cxx && isFunctionIR (unwrapNullable t2).1) = true
                  · rw [if_pos hg] at ht
                    exact absurd ht (by simp)
                  · rw [if_neg hg] at ht
                    rw [if_neg hg, if_neg hg]
                    dsimp only at ht ⊢
                    refine ⟨ht, ?_⟩
                    rw [delta_app_inserts, delta_app_inserts, hpo2, hto2]
    exact ⟨hT, hA, hSO, hFO, hSP, hFP, hFn⟩

/-- Shape of every alias-map insertion of a clean translation run: the key is
a type-alias name of the type map whose right hand side strips to an object
literal, and the value is the object annotation of a clean translation of
that literal's members. -/
def insertWF (types : TypeDeclMap) (cxx : Bool) (k : String) (v : TypeIR) : Prop :=
  ∃ rhs members props g c,
    lookupFirst types k = some (TypeDecl.typeAlias rhs) ∧
    stripMarkers rhs = TSType.TSTypeLiteral members ∧
    (objPropsFold g members types c cxx).1 = Except.ok props ∧
    (objPropsFold g members types c cxx).2.fuelOk = true ∧
    v = TypeIR.ObjectT props

set_option maxHeartbeats 1000000 in
/-- Every alias-map insertion performed anywhere inside a clean translation
run has the canonical shape recorded by insertWF. -/
theorem insertShapeAll : ∀ f : Nat,
    (∀ node types c cxx, (translateTypeAnnot f node types c cxx).2.fuelOk = true →
      ∀ k v, (k, v) ∈ (translateTypeAnnot f node types c cxx).2.inserts →
      insertWF types cxx k v) ∧
    (∀ types cxx kk el nb,
      (translateArrayTypeAnnot f types cxx kk el nb).2.fuelOk = true →
      ∀ k v, (k, v) ∈ (translateArrayTypeAnnot f types cxx kk el nb).2.inserts →
      insertWF types cxx k v) ∧
    (∀ m types c cxx, (objPropStep f m types c cxx).2.fuelOk = true →
      ∀ k v, (k, v) ∈ (objPropStep f m types c cxx).2.inserts →
      insertWF types cxx k v) ∧
    (∀ ms types c cxx, (objPropsFold f ms types c cxx).2.fuelOk = true →
      ∀ k v, (k, v) ∈ (objPropsFold f ms types c cxx).2.inserts →
      insertWF types cxx k v) ∧
    (∀ pm types c cxx, (paramStep f pm types c cxx).2.fuelOk = true →
      ∀ k v, (k, v) ∈ (paramStep f pm types c cxx).2.inserts →
      insertWF types cxx k v) ∧
    (∀ ps types c cxx, (paramsFold f ps types c cxx).2.fuelOk = true →
      ∀ k v, (k, v) ∈ (paramsFold f ps types c cxx).2.inserts →
      insertWF types cxx k v) ∧
    (∀ ps rt types c cxx,
      (translateFunctionTypeAnnot f ps rt types c cxx).2.fuelOk = true →
      ∀ k v, (k, v) ∈ (translateFunctionTypeAnnot f ps rt types c cxx).2.inserts →
      insertWF types cxx k v) := by
  intro f
  induction f using Nat.strong_induction_on with
  | _ f ih =>
    have hT : ∀ node types c cxx,
        (translateTypeAnnot f node types c cxx).2.fuelOk = true →
        ∀ k v, (k, v) ∈ (translateTypeAnnot f node types c cxx).2.inserts →
        insertWF types cxx k v := by
      cases f with
      | zero =>
        intro node types c cxx h1
        exact absurd h1 (by simp [translateTypeAnnot])
      | succ g =>
        obtain ⟨_, ihA, _, ihFO, _, _, ihFn⟩ := ih g (Nat.lt_succ_self g)
        intro node types c cxx h1 k v hkv
        simp only [translateTypeAnnot] at h1 hkv
        rcases hr : resolveTypeAnnot (Nat.succ g) node types with ⟨nb, ta, st, comp⟩
        rw [hr] at h1 hkv
        dsimp only at h1 hkv
        cases ta with
        | TSArrayType el =>
          dsimp only [combineOk] at h1 hkv
          exact ihA types cxx "Array" el nb
            (Bool.and_eq_true _ _ |>.mp h1).2 k v hkv
        | TSTypeOperator op inner =>
          dsimp only at h1 hkv
          by_cases hop : op = "readonly"
          · rw [if_pos hop] at h1 hkv
            cases inner with
            | TSArrayType el =>
              dsimp only [combineOk] at h1 hkv
              exact ihA types cxx "ReadonlyArray" el nb
                (Bool.and_eq_true _ _ |>.mp h1).2 k v hkv
            | TSTypeOperator o2 i2 => simp [mkResDelta] at hkv
            | TSTypeReference n2 t2 => simp [mkResDelta] at hkv
            | TSTypeLiteral m2 => simp [mkResDelta] at hkv
            | TSBooleanKeyword => simp [mkResDelta] at hkv
            | TSNumberKeyword => simp [mkResDelta] at hkv
            | TSVoidKeyword => simp [mkResDelta] at hkv
            | TSStringKeyword => simp [mkResDelta] at hkv
            | TSFunctionType p2 r2 => simp [mkResDelta] at hkv
            | TSUnionType u2 => simp [mkResDelta] at hkv
            | TSUnknownKeyword => simp [mkResDelta] at hkv
            | nullableMarker i2 => simp [mkResDelta] at hkv
            | otherT k2 => simp [mkResDelta] at hkv
          · rw [if_neg hop] at h1 hkv
            simp [mkResDelta] at hkv
        | TSTypeReference name tps =>
          dsimp only at h1 hkv
          by_cases hn1 : name = "RootTag"
          · rw [if_pos hn1] at hkv
            simp [mkResDelta] at hkv
          · rw [if_neg hn1] at h1 hkv
            by_cases hn2 : name = "Promise"
            · rw [if_pos hn2] at hkv
              rcases hat : assertOneTypeParam tps with _ | e <;> rw [hat] at hkv <;>
                simp [mkResDelta] at hkv
            · rw [if_neg hn2] at h1 hkv
              by_cases hn3 : (name = "Array" || name = "ReadonlyArray") = true
              · rw [if_pos hn3] at h1 hkv
                rcases hat : assertOneTypeParam tps with _ | e
                · rw [hat] at h1 hkv
                  dsimp only [combineOk] at h1 hkv
                  exact ihA types cxx "TSTypeReference" (headTypeParam tps) nb
                    (Bool.and_eq_true _ _ |>.mp h1).2 k v hkv
                · rw [hat] at hkv
                  simp [mkResDelta] at hkv
              · rw [if_neg hn3] at hkv
                by_cases hn4 : name = "Stringish"
                · rw [if_pos hn4] at hkv
                  simp [mkResDelta] at hkv
                · rw [if_neg hn4] at hkv
                  by_cases hn5 : name = "Int32"
                  · rw [if_pos hn5] at hkv
                    simp [mkResDelta] at hkv
                  · rw [if_neg hn5] at hkv
                    by_cases hn6 : name = "Double"
                    · rw [if_pos hn6] at hkv
                      simp [mkResDelta] at hkv
                    · rw [if_neg hn6] at hkv
                      by_cases hn7 : name = "Float"
                      · rw [if_pos hn7] at hkv
                        simp [mkResDelta] at hkv
                      · rw [if_neg hn7] at hkv
                        by_cases hn8 : (name = "UnsafeObject" || name = "Object") = true
                        · rw [if_pos hn8] at hkv
                          simp [mkResDelta] at hkv
                        · rw [if_neg hn8] at hkv
                          rcases hlk : lookupFirst types name with _ | decl
                          · rw [hlk] at hkv
                            simp [mkResDelta] at hkv
                          · rw [hlk] at hkv
                            cases decl with
                            | typeAlias rhs =>
                              simp [mkResDelta] at hkv
                            | enumDecl ems =>
                              dsimp only at hkv
                              by_cases hcx : cxx = true
                              · rw [if_pos hcx] at hkv
                                cases ems with
                                | nil => simp [mkResDelta] at hkv
                                | cons m0 mrest =>
                                  simp [apply_ite, mkResDelta] at hkv
                              · rw [if_neg hcx] at hkv
                                simp [mkResDelta] at hkv
                            | interfaceDecl n2 e2 b2 =>
                              simp [mkResDelta] at hkv
                            | otherDecl k2 =>
                              simp [mkResDelta] at hkv
        | TSTypeLiteral members =>
          dsimp only at h1 hkv
          rcases hf : objPropsFold g members types c cxx with ⟨rf, df⟩
          rw [hf] at h1 hkv
          rcases rf with e | props
          · dsimp only [combineOk] at h1 hkv
            exact ihFO members types c cxx
              (by rw [hf]; exact (Bool.and_eq_true _ _ |>.mp h1).2) k v
              (by rw [hf]; exact hkv)
          · dsimp only [combineOk, Delta.app] at h1 hkv
            have hcomp : comp = true := (Bool.and_eq_true _ _ |>.mp h1).1
            have hdf : df.fuelOk = true := by
              have h' := (Bool.and_eq_true _ _ |>.mp h1).2
              exact (Bool.and_eq_true _ _ |>.mp h').1
            rcases List.mem_append.mp hkv with hmem | hmem
            · exact ihFO members types c cxx (by rw [hf]; exact hdf) k v
                (by rw [hf]; exact hmem)
            · cases st with
              | failed => simp [typeAliasResolution] at hmem
              | successful a =>
                simp only [typeAliasResolution, List.mem_singleton] at hmem
                have hk : k = a := congrArg Prod.fst hmem
                have hv : v = TypeIR.ObjectT props := congrArg Prod.snd hmem
                have hcomp' : (resolveTypeAnnotAux (Nat.succ g) node types false
                    AliasStatus.failed).complete = true := by
                  have : resolveTypeAnnotAux (Nat.succ g) node types false
                      AliasStatus.failed = ⟨nb, TSType.TSTypeLiteral members,
                        AliasStatus.successful a, comp⟩ := hr
                  rw [this]
                  exact hcomp
                rcases resolveAux_shape (Nat.succ g) node types false
                    AliasStatus.failed hcomp' with ⟨_, hst⟩ | ⟨k2, rhs, hst, hlk, hta⟩
                · rw [show resolveTypeAnnotAux (Nat.succ g) node types false
                      AliasStatus.failed = ⟨nb, TSType.TSTypeLiteral members,
                        AliasStatus.successful a, comp⟩ from hr] at hst
                  exact absurd hst (by simp)
                · rw [show resolveTypeAnnotAux (Nat.succ g) node types false
                      AliasStatus.failed = ⟨nb, TSType.TSTypeLiteral members,
                        AliasStatus.successful a, comp⟩ from hr] at hst hta
                  dsimp only at hst hta
                  have hka : k2 = a := by
                    injection hst with h'
                    exact h'.symm
                  subst hka
                  subst hk
                  exact ⟨rhs, members, props, g, c, hlk, hta.symm,
                    by rw [hf], by rw [hf]; exact hdf, hv⟩
        | TSBooleanKeyword => simp [mkResDelta] at hkv
        | TSNumberKeyword => simp [mkResDelta] at hkv
        | TSVoidKeyword => simp [mkResDelta] at hkv
        | TSStringKeyword => simp [mkResDelta] at hkv
        | TSFunctionType ps rt =>
          dsimp only at h1 hkv
          rcases hfn : translateFunctionTypeAnnot g ps rt types c cxx with ⟨rf, df⟩
          rw [hfn] at h1 hkv
          dsimp only [combineOk] at h1 hkv
          have hdf : df.fuelOk = true := by
            rcases rf with e | t <;> dsimp only at h1 <;>
              exact (Bool.and_eq_true _ _ |>.mp h1).2
          have hkv' : (k, v) ∈ df.inserts := by
            rcases rf with e | t <;> dsimp only at hkv <;> exact hkv
          exact ihFn ps rt types c cxx (by rw [hfn]; exact hdf) k v
            (by rw [hfn]; exact hkv')
        | TSUnionType ms =>
          dsimp only at hkv
          simp [apply_ite, mkResDelta] at hkv
        | TSUnknownKeyword =>
          dsimp only at hkv
          simp [apply_ite, mkResDelta] at hkv
        | nullableMarker inner => simp at h1
        | otherT kind => simp [mkResDelta] at hkv
    have hA : ∀ types cxx kk el nb,
        (translateArrayTypeAnnot f types cxx kk el nb).2.fuelOk = true →
        ∀ k v, (k, v) ∈ (translateArrayTypeAnnot f types cxx kk el nb).2.inserts →
        insertWF types cxx k v := by
      intro types cxx kk el nb h1 k v hkv
      rw [arrayDelta] at h1 hkv
      exact hT el types false cxx h1 k v hkv
    have hSO : ∀ m types c cxx, (objPropStep f m types c cxx).2.fuelOk = true →
        ∀ k v, (k, v) ∈ (objPropStep f m types c cxx).2.inserts →
        insertWF types cxx k v := by
      intro m types c cxx h1 k v hkv
      cases m with
      | otherMember kind =>
        simp only [objPropStep] at hkv
        simp [Delta.empty] at hkv
      | TSPropertySignature name opt tyA =>
        rw [propStepDelta] at h1 hkv
        exact hT tyA types c cxx h1 k v hkv
    have hSP : ∀ pm types c cxx, (paramStep f pm types c cxx).2.fuelOk = true →
        ∀ k v, (k, v) ∈ (paramStep f pm types c cxx).2.inserts →
        insertWF types cxx k v := by
      intro pm types c cxx h1 k v hkv
      rcases pm with ⟨name, opt, tyOpt⟩
      rcases tyOpt with _ | ta
      · simp only [paramStep] at hkv
        simp [Delta.empty] at hkv
      · rw [paramStepDelta] at h1 hkv
        exact hT ta types c cxx h1 k v hkv
    have hFO : ∀ ms types c cxx, (objPropsFold f ms types c cxx).2.fuelOk = true →
        ∀ k v, (k, v) ∈ (objPropsFold f ms types c cxx).2.inserts →
        insertWF types cxx k v := by
      intro ms types c cxx
      induction ms with
      | nil =>
        intro h1 k v hkv
        simp only [objPropsFold] at hkv
        simp [Delta.empty] at hkv
      | cons m rest ihrest =>
        intro h1 k v hkv
        obtain ⟨hsf, hrf⟩ := foldCons_fuelOk f m rest types c cxx h1
        simp only [objPropsFold] at hkv
        have hcap := (runCapture_delta c (objPropStep f m types c cxx)).2
        rcases hs : runCapture c (objPropStep f m types c cxx) with ⟨r, d⟩
        rw [hs] at hkv hcap
        dsimp only at hcap
        rcases r with e | mp
        · dsimp only at hkv
          rw [hcap] at hkv
          exact hSO m types c cxx hsf k v hkv
        · rcases hrst : objPropsFold f rest types c cxx with ⟨rr, dr⟩
          rw [hrst] at hkv
          have hkv' : (k, v) ∈ d.inserts ++ dr.inserts := by
            rcases rr with e2 | props2 <;> dsimp only [Delta.app] at hkv <;> exact hkv
          rcases List.mem_append.mp hkv' with h' | h'
          · rw [hcap] at h'
            exact hSO m types c cxx hsf k v h'
          · exact ihrest (hrf mp (by rw [hs])) k v (by rw [hrst]; exact h')
    have hFP : ∀ ps types c cxx, (paramsFold f ps types c cxx).2.fuelOk = true →
        ∀ k v, (k, v) ∈ (paramsFold f ps types c cxx).2.inserts →
        insertWF types cxx k v := by
      intro ps types c cxx
      induction ps with
      | nil =>
        intro h1 k v hkv
        simp only [paramsFold] at hkv
        simp [Delta.empty] at hkv
      | cons p rest ihrest =>
        intro h1 k v hkv
        obtain ⟨hsf, hrf⟩ := pfoldCons_fuelOk f p rest types c cxx h1
        simp only [paramsFold] at hkv
        have hcap := (runCapture_delta c (paramStep f p types c cxx)).2
        rcases hs : runCapture c (paramStep f p types c cxx) with ⟨r, d⟩
        rw [hs] at hkv hcap
        dsimp only at hcap
        rcases r with e | mp
        · dsimp only at hkv
          rw [hcap] at hkv
          exact hSP p types c cxx hsf k v hkv
        · rcases hrst : paramsFold f rest types c cxx with ⟨rr, dr⟩
          rw [hrst] at hkv
          have hkv' : (k, v) ∈ d.inserts ++ dr.inserts := by
            rcases rr with e2 | ps2 <;> dsimp only [Delta.app] at hkv <;> exact hkv
          rcases List.mem_append.mp hkv' with h' | h'
          · rw [hcap] at h'
            exact hSP p types c cxx hsf k v h'
          · exact ihrest (hrf mp (by rw [hs])) k v (by rw [hrst]; exact h')
    have hFn : ∀ ps rt types c cxx,
        (translateFunctionTypeAnnot f ps rt types c cxx).2.fuelOk = true →
        ∀ k v, (k, v) ∈ (translateFunctionTypeAnnot f ps rt types c cxx).2.inserts →
        insertWF types cxx k v := by
      intro ps rt types c cxx h1 k v hkv
      obtain ⟨hpf, hrt⟩ := fnDelta_fuelOk f ps rt types c cxx h1
      simp only [translateFunctionTypeAnnot] at hkv
      rcases hp : paramsFold f ps types c cxx with ⟨rp, dp⟩
      rw [hp] at hkv
      rcases rp with e | params
      · dsimp only at hkv
        exact hFP ps types c cxx hpf k v (by rw [hp]; exact hkv)
      · dsimp only at hkv
        cases rt with
        | none =>
          dsimp only at hkv
          exact hFP ps types c cxx hpf k v (by rw [hp]; exact hkv)
        | some retNode =>
          dsimp only at hkv
          rcases hrr : translateTypeAnnot f retNode types c cxx with ⟨rr, dr⟩
          rw [hrr] at hkv
          have hrOK : dr.fuelOk = true := by
            have h' := hrt params retNode (by rw [hp]) rfl
            rw [hrr] at h'
            exact h'
          have hkv' : (k, v) ∈ dp.inserts ++ dr.inserts := by
            rcases rr with e | t
            · dsimp only [Delta.app] at hkv
              exact hkv
            · dsimp only at hkv
              by_cases hg : (!cxx && isFunctionIR (unwrapNullable t).1) = true
              · rw [if_pos hg] at hkv
                dsimp only [Delta.app] at hkv
                exact hkv
              · rw [if_neg hg] at hkv
                dsimp only [Delta.app] at hkv
                exact hkv
          rcases List.mem_append.mp hkv' with h' | h'
          · exact hFP ps types c cxx hpf k v (by rw [hp]; exact h')
          · exact hT retNode types c cxx (by rw [hrr]; exact hrOK) k v
              (by rw [hrr]; exact h')
    exact ⟨hT, hA, hSO, hFO, hSP, hFP, hFn⟩

/-- Two insertions of the same alias key in clean runs carry the same value:
the key determines the alias right hand side through the type map, and the
translator is deterministic on clean runs. -/
theorem insertWF_unique (types : TypeDeclMap) (cxx : Bool) (k : String)
    (v1 v2 : TypeIR) (h1 : insertWF types cxx k v1) (h2 : insertWF types cxx k v2) :
    v1 = v2 := by
  obtain ⟨rhs1, ms1, props1, g1, c1, hl1, hs1, ho1, hf1, hv1⟩ := h1
  obtain ⟨rhs2, ms2, props2, g2, c2, hl2, hs2, ho2, hf2, hv2⟩ := h2
  rw [hl1] at hl2
  injection hl2 with hd
  injection hd with hrhs
  subst hrhs
  rw [hs1] at hs2
  injection hs2 with hms
  subst hms
  have hprops : props1 = props2 := by
    cases c1 with
    | false =>
      obtain ⟨_, _, _, hFO, _, _, _⟩ := translateDetAll g1
      have h' := (hFO g2 ms1 types cxx false c2 hf1 hf2).2 props1 ho1 (by simp)
      rw [ho2] at h'
      injection h'.1 with h''
      exact h''.symm
    | true =>
      cases c2 with
      | true =>
        obtain ⟨_, _, _, hFO, _, _, _⟩ := translateDetAll g1
        have h' := (hFO g2 ms1 types cxx true true hf1 hf2).2 props1 ho1 (fun _ => rfl)
        rw [ho2] at h'
        injection h'.1 with h''
        exact h''.symm
      | false =>
        obtain ⟨_, _, _, hFO, _, _, _⟩ := translateDetAll g2
        have h' := (hFO g1 ms1 types cxx false true hf2 hf1).2 props2 ho2 (by simp)
        rw [ho1] at h'
        exact Except.ok.inj h'.1
  rw [hv1, hv2, hprops]

/-- The aliases field of the reduced schema is the fold of the pairs' alias
maps under object spread, starting from the initial accumulator's aliases. -/
theorem reduceSchema_aliases :
    ∀ (pairs : List PropPair) (init : NativeModuleSchema),
    (reduceSchema init pairs).aliases =
      (pairs.map PropPair.aliasMap).foldl objSpread init.aliases := by
  intro pairs
  induction pairs with
  | nil => intro init; rfl
  | cons pr rest ihp =>
    intro init
    have h1 : reduceSchema init (pr :: rest) =
        reduceSchema ⟨objSpread init.aliases pr.aliasMap,
          init.properties ++ [pr.propertyShape], init.moduleNames,
          init.excludedPlatforms⟩ rest := rfl
    rw [h1, ihp]
    rfl

theorem lookup_ne_none_of_mem {β : Type} :
    ∀ (l : List (String × β)) (k : String) (v : β), (k, v) ∈ l →
    lookupFirst l k ≠ none := by
  intro l k v
  induction l with
  | nil => intro hm; simp at hm
  | cons kv rest ihl =>
    intro hm
    rcases kv with ⟨k0, v0⟩
    simp only [lookupFirst]
    by_cases hk : k0 = k
    · rw [if_pos hk]
      simp
    · rw [if_neg hk]
      rcases List.mem_cons.mp hm with he | hm2
      · exact absurd (congrArg Prod.fst he).symm hk
      · exact ihl hm2

theorem spread_lookup_of_mem {β : Type} (a b : List (String × β)) (k : String) (V : β)
    (hall : ∀ v, (k, v) ∈ b → v = V) (hex : (k, V) ∈ b) :
    lookupFirst (objSpread a b) k = some V := by
  rw [objSpread_lookup]
  rcases hb : lookupFirst b.reverse k with _ | v
  · exact absurd hb (lookup_ne_none_of_mem b.reverse k V (List.mem_reverse.mpr hex))
  · dsimp only
    rw [hall v (List.mem_reverse.mp (lookupFirst_mem b.reverse k v hb))]

theorem spread_lookup_of_not_mem {β : Type} (a b : List (String × β)) (k : String)
    (h : ∀ v, (k, v) ∉ b) :
    lookupFirst (objSpread a b) k = lookupFirst a k := by
  rw [objSpread_lookup]
  rcases hb : lookupFirst b.reverse k with _ | v
  · rfl
  · exact absurd (List.mem_reverse.mp (lookupFirst_mem b.reverse k v hb)) (h v)

/-- Looking a key up in a left fold of object spreads: when every map agrees
on the key's value and some map (or the accumulator) carries it, the fold's
result carries that value. -/
theorem foldSpread_lookup {β : Type} (k : String) (V : β) :
    ∀ (maps : List (List (String × β))) (a : List (String × β)),
    (∀ mp ∈ maps, ∀ v, (k, v) ∈ mp → v = V) →
    ((∃ mp ∈ maps, (k, V) ∈ mp) ∨ lookupFirst a k = some V) →
    lookupFirst (maps.foldl objSpread a) k = some V := by
  intro maps
  induction maps with
  | nil =>
    intro a hall hex
    rcases hex with ⟨mp, hmp, _⟩ | hla
    · simp at hmp
    · exact hla
  | cons mp maps ihm =>
    intro a hall hex
    simp only [List.foldl_cons]
    by_cases hmem : ∃ v, (k, v) ∈ mp
    · obtain ⟨v0, hv0⟩ := hmem
      have hv0V : v0 = V := hall mp (List.mem_cons_self mp maps) v0 hv0
      subst hv0V
      refine ihm (objSpread a mp) (fun m hm => hall m (List.mem_cons_of_mem mp hm)) ?_
      right
      exact spread_lookup_of_mem a mp k v0 (hall mp (List.mem_cons_self mp maps)) hv0
    · push_neg at hmem
      refine ihm (objSpread a mp) (fun m hm => hall m (List.mem_cons_of_mem mp hm)) ?_
      rcases hex with ⟨mp2, hmp2, hin⟩ | hla
      · rcases List.mem_cons.mp hmp2 with he | hm2
        · subst he
          exact absurd hin (hmem _)
        · exact Or.inl ⟨mp2, hm2, hin⟩
      · right
        rw [spread_lookup_of_not_mem a mp k hmem]
        exact hla

theorem objInsertG_mem_sub {β : Type} (m : List (String × β)) (k0 : String) (v0 : β)
    (k : String) (v : β) (h : (k, v) ∈ objInsertG m k0 v0) :
    (k, v) ∈ m ∨ (k, v) = (k0, v0) := by
  simp only [objInsertG] at h
  by_cases ha : m.any (fun q => q.1 = k0) = true
  · rw [if_pos ha] at h
    rcases List.mem_map.mp h with ⟨q, hq, he⟩
    by_cases hqk : q.1 = k0
    · rw [if_pos hqk] at he
      exact Or.inr he.symm
    · rw [if_neg hqk] at he
      exact Or.inl (he ▸ hq)
  · rw [if_neg ha] at h
    rcases List.mem_append.mp h with h' | h'
    · exact Or.inl h'
    · exact Or.inr (List.mem_singleton.mp h')

theorem objFold_mem_sub {β : Type} :
    ∀ (l acc : List (String × β)) (k : String) (v : β),
    (k, v) ∈ l.foldl (fun acc kv => objInsertG acc kv.1 kv.2) acc →
    (k, v) ∈ acc ∨ (k, v) ∈ l := by
  intro l
  induction l with
  | nil =>
    intro acc k v h
    exact Or.inl h
  | cons kv rest ihl =>
    intro acc k v h
    simp only [List.foldl_cons] at h
    rcases ihl (objInsertG acc kv.1 kv.2) k v h with h' | h'
    · rcases objInsertG_mem_sub acc kv.1 kv.2 k v h' with h2 | h2
      · exact Or.inl h2
      · refine Or.inr (List.mem_cons.mpr (Or.inl ?_))
        rw [h2]
    · exact Or.inr (List.mem_cons_of_mem kv h')

theorem objFromList_mem_sub {β : Type} (l : List (String × β)) (k : String) (v : β)
    (h : (k, v) ∈ objFromList l) : (k, v) ∈ l := by
  rcases objFold_mem_sub l [] k v h with h' | h'
  · simp at h'
  · exact h'

/-- Every insertion a clean buildPropertySchema run performs has the
canonical alias shape. -/
theorem buildPropertySchema_insertWF (f : Nat) (m : SpecMember) (types : TypeDeclMap)
    (cxx : Bool) (h1 : (buildPropertySchema f m types cxx).2.fuelOk = true)
    (k : String) (v : TypeIR)
    (hkv : (k, v) ∈ (buildPropertySchema f m types cxx).2.inserts) :
    insertWF types cxx k v := by
  simp only [buildPropertySchema] at h1 hkv
  cases hta : (resolveTypeAnnot f m.value types).typeAnnot with
  | TSFunctionType ps rt =>
    rw [hta] at h1 hkv
    dsimp only at h1 hkv
    rcases hfn : translateFunctionTypeAnnot f ps rt types true cxx with ⟨rf, df⟩
    rw [hfn] at h1 hkv
    have hdf : df.fuelOk = true := by
      rcases rf with e | t <;> dsimp only [combineOk] at h1 <;>
        exact (Bool.and_eq_true _ _ |>.mp h1).2
    have hkv' : (k, v) ∈ df.inserts := by
      rcases rf with e | t <;> dsimp only [combineOk] at hkv <;> exact hkv
    obtain ⟨_, _, _, _, _, _, hFn⟩ := insertShapeAll f
    exact hFn ps rt types true cxx (by rw [hfn]; exact hdf) k v
      (by rw [hfn]; exact hkv')
  | TSArrayType el =>
    rw [hta] at hkv
    simp [mkResDelta] at hkv
  | TSTypeOperator op inner =>
    rw [hta] at hkv
    simp [mkResDelta] at hkv
  | TSTypeReference name tps =>
    rw [hta] at hkv
    simp [mkResDelta] at hkv
  | TSTypeLiteral mems =>
    rw [hta] at hkv
    simp [mkResDelta] at hkv
  | TSBooleanKeyword =>
    rw [hta] at hkv
    simp [mkResDelta] at hkv
  | TSNumberKeyword =>
    rw [hta] at hkv
    simp [mkResDelta] at hkv
  | TSVoidKeyword =>
    rw [hta] at hkv
    simp [mkResDelta] at hkv
  | TSStringKeyword =>
    rw [hta] at hkv
    simp [mkResDelta] at hkv
  | TSUnionType ums =>
    rw [hta] at hkv
    simp [mkResDelta] at hkv
  | TSUnknownKeyword =>
    rw [hta] at hkv
    simp [mkResDelta] at hkv
  | nullableMarker inner =>
    rw [hta] at hkv
    simp [mkResDelta] at hkv
  | otherT kind =>
    rw [hta] at hkv
    simp [mkResDelta] at hkv

/-- Every entry of the local alias map of any pair a clean propsMap run
produces has the canonical alias shape. -/
theorem propsMap_mem_insertWF (f : Nat) :
    ∀ (members : List SpecMember) (types : TypeDeclMap) (cxx : Bool)
      (pairs : List PropPair) (errs : List ParserError),
    propsMap f members types cxx = (Except.ok pairs, errs, true) →
    ∀ pr ∈ pairs, ∀ k v, (k, v) ∈ pr.aliasMap → insertWF types cxx k v := by
  intro members
  induction members with
  | nil =>
    intro types cxx pairs errs h pr hpr
    simp only [propsMap, Prod.mk.injEq] at h
    obtain ⟨h1, _, _⟩ := h
    rw [← Except.ok.inj h1] at hpr
    simp at hpr
  | cons m rest ihm =>
    intro types cxx pairs errs h pr hpr k v hkv
    simp only [propsMap] at h
    rcases hps : propStep f m types cxx with ⟨r1, errs1, ok1⟩
    rw [hps] at h
    rcases r1 with e | maybePair
    · exact absurd h (by simp)
    · dsimp only at h
      rcases hpm : propsMap f rest types cxx with ⟨r2, errs2, ok2⟩
      rw [hpm] at h
      rcases r2 with e2 | pairs2
      · exact absurd h (by simp)
      · dsimp only at h
        simp only [Prod.mk.injEq] at h
        obtain ⟨h1, _, h3⟩ := h
        have hok1 : ok1 = true := (Bool.and_eq_true _ _ |>.mp h3).1
        have hok2 : ok2 = true := (Bool.and_eq_true _ _ |>.mp h3).2
        have hpairs : consOpt maybePair pairs2 = pairs := Except.ok.inj h1
        subst hpairs
        cases maybePair with
        | none =>
          exact ihm types cxx pairs2 errs2 (by rw [hpm, hok2]) pr hpr k v hkv
        | some pair0 =>
          rcases List.mem_cons.mp hpr with he | hm2
          · subst he
            simp only [propStep] at hps
            rcases hbp : runCapture true (buildPropertySchema f m types cxx) with ⟨rb, db⟩
            rw [hbp] at hps
            rcases rb with e | shpOpt
            · exact absurd hps (by simp)
            · rcases shpOpt with _ | shp
              · dsimp only at hps
                exact absurd hps (by simp)
              · dsimp only at hps
                simp only [Prod.mk.injEq] at hps
                obtain ⟨hp1, _, hp3⟩ := hps
                have hpair0 : (⟨objFromList db.inserts, shp⟩ : PropPair) = pr :=
                  Option.some.inj (Except.ok.inj hp1)
                have hdb : db.fuelOk = true := by rw [hp3, hok1]
                rw [← hpair0] at hkv
                dsimp only at hkv
                have hmemIns : (k, v) ∈ db.inserts :=
                  objFromList_mem_sub db.inserts k v hkv
                have hcap := runCapture_delta true (buildPropertySchema f m types cxx)
                rw [hbp] at hcap
                dsimp only at hcap
                exact buildPropertySchema_insertWF f m types cxx
                  (by rw [← hcap.1]; exact hdb) k v (by rw [← hcap.2]; exact hmemIns)
          · exact ihm types cxx pairs2 errs2 (by rw [hpm, hok2]) pr hm2 k v hkv

/-- A successful clean build determines a clean successful property fold over
the observers' members, types and cxxOnly flag, and the schema's aliases
field is the spread-fold of the pairs' alias maps. -/
theorem build_success_propsMap (f : Nat) (hm : String) (p : Program)
    (s : NativeModuleSchema) (errs : List ParserError)
    (h : buildModuleSchema f hm p = (Except.ok s, errs, true)) :
    ∃ pairs perrs, propsMap f (membersOf p) (getTypes p) (cxxOnlyOf hm p) =
        (Except.ok pairs, perrs, true) ∧
      s.aliases = (pairs.map PropPair.aliasMap).foldl objSpread [] := by
  rcases hspec : moduleSpecsOf p with _ | ⟨d0, rest⟩
  · have hb : buildModuleSchema f hm p =
        (Except.error ParserError.ModuleInterfaceNotFound, [], true) := by
      simp only [buildModuleSchema]
      rw [show (typesValues (getTypes p)).filter isModuleInterface = [] from hspec]
    rw [hb] at h
    exact absurd h (by simp)
  · rcases rest with _ | ⟨d1, rest2⟩
    · cases d0 with
      | interfaceDecl iname ext body =>
        by_cases hin : iname = "Spec"
        · subst hin
          rcases hpn : parseModuleNameCall p.calls with e | n
          · rcases hpm : propsMap f
                (body.filter (fun m => m.memberKind = "TSMethodSignature" ||
                  m.memberKind = "TSPropertySignature"))
                (getTypes p) (derivePlatforms ([] ++ [hm])).1 with ⟨r, perrs, ok⟩
            cases r with
            | error e2 =>
              have hb : buildModuleSchema f hm p = (Except.error e2, [e] ++ perrs, ok) := by
                simp only [buildModuleSchema]
                rw [show (typesValues (getTypes p)).filter isModuleInterface =
                  [TypeDecl.interfaceDecl "Spec" ext body] from hspec]
                simp only [hpn, hpm, if_true]
              rw [hb] at h
              exact absurd h (by simp)
            | ok pairs =>
              have hb : buildModuleSchema f hm p =
                  (Except.ok (reduceSchema
                    ⟨[], [], [],
                      if (derivePlatforms ([] ++ [hm])).2.length ≠ 0
                      then some (derivePlatforms ([] ++ [hm])).2 else none⟩ pairs),
                   [e] ++ perrs, ok) := by
                simp only [buildModuleSchema]
                rw [show (typesValues (getTypes p)).filter isModuleInterface =
                  [TypeDecl.interfaceDecl "Spec" ext body] from hspec]
                simp only [hpn, hpm, if_true]
              rw [hb] at h
              simp only [Prod.mk.injEq] at h
              obtain ⟨h1, _, h3⟩ := h
              refine ⟨pairs, perrs, ?_, ?_⟩
              · have hmem : membersOf p =
                    body.filter (fun m => m.memberKind = "TSMethodSignature" ||
                      m.memberKind = "TSPropertySignature") := by
                  simp [membersOf, hspec]
                have hcxx : cxxOnlyOf hm p = (derivePlatforms ([] ++ [hm])).1 := by
                  simp [cxxOnlyOf, moduleNamesOf, hpn]
                rw [hmem, hcxx, hpm, h3]
              · rw [← Except.ok.inj h1, reduceSchema_aliases]
          · rcases hpm : propsMap f
                (body.filter (fun m => m.memberKind = "TSMethodSignature" ||
                  m.memberKind = "TSPropertySignature"))
                (getTypes p) (derivePlatforms ([n] ++ [hm])).1 with ⟨r, perrs, ok⟩
            cases r with
            | error e2 =>
              have hb : buildModuleSchema f hm p = (Except.error e2, [] ++ perrs, ok) := by
                simp only [buildModuleSchema]
                rw [show (typesValues (getTypes p)).filter isModuleInterface =
                  [TypeDecl.interfaceDecl "Spec" ext body] from hspec]
                simp only [hpn, hpm, if_true]
              rw [hb] at h
              exact absurd h (by simp)
            | ok pairs =>
              have hb : buildModuleSchema f hm p =
                  (Except.ok (reduceSchema
                    ⟨[], [], [n],
                      if (derivePlatforms ([n] ++ [hm])).2.length ≠ 0
                      then some (derivePlatforms ([n] ++ [hm])).2 else none⟩ pairs),
                   [] ++ perrs, ok) := by
                simp only [buildModuleSchema]
                rw [show (typesValues (getTypes p)).filter isModuleInterface =
                  [TypeDecl.interfaceDecl "Spec" ext body] from hspec]
                simp only [hpn, hpm, if_true]
              rw [hb] at h
              simp only [Prod.mk.injEq] at h
              obtain ⟨h1, _, h3⟩ := h
              refine ⟨pairs, perrs, ?_, ?_⟩
              · have hmem : membersOf p =
                    body.filter (fun m => m.memberKind = "TSMethodSignature" ||
                      m.memberKind = "TSPropertySignature") := by
                  simp [membersOf, hspec]
                have hcxx : cxxOnlyOf hm p = (derivePlatforms ([n] ++ [hm])).1 := by
                  simp [cxxOnlyOf, moduleNamesOf, hpn]
                rw [hmem, hcxx, hpm, h3]
              · rw [← Except.ok.inj h1, reduceSchema_aliases]
        · have hb : buildModuleSchema f hm p =
              (Except.error ParserError.MisnamedModuleInterface, [], true) := by
            simp only [buildModuleSchema]
            rw [show (typesValues (getTypes p)).filter isModuleInterface =
              [TypeDecl.interfaceDecl iname ext body] from hspec]
            dsimp only
            rw [if_neg hin]
          rw [hb] at h
          exact absurd h (by simp)
      | typeAlias rhs =>
        have hb : buildModuleSchema f hm p =
            (Except.error ParserError.ModuleInterfaceNotFound, [], true) := by
          simp only [buildModuleSchema]
          rw [show (typesValues (getTypes p)).filter isModuleInterface =
            [TypeDecl.typeAlias rhs] from hspec]
        rw [hb] at h
        exact absurd h (by simp)
      | enumDecl ems =>
        have hb : buildModuleSchema f hm p =
            (Except.error ParserError.ModuleInterfaceNotFound, [], true) := by
          simp only [buildModuleSchema]
          rw [show (typesValues (getTypes p)).filter isModuleInterface =
            [TypeDecl.enumDecl ems] from hspec]
        rw [hb] at h
        exact absurd h (by simp)
      | otherDecl kk =>
        have hb : buildModuleSchema f hm p =
            (Except.error ParserError.ModuleInterfaceNotFound, [], true) := by
          simp only [buildModuleSchema]
          rw [show (typesValues (getTypes p)).filter isModuleInterface =
            [TypeDecl.otherDecl kk] from hspec]
        rw [hb] at h
        exact absurd h (by simp)
    · have hb : buildModuleSchema f hm p =
          (Except.error ParserError.MoreThanOneModuleInterface, [], true) := by
        simp only [buildModuleSchema]
        rw [show (typesValues (getTypes p)).filter isModuleInterface =
          d0 :: d1 :: rest2 from hspec]
        cases d0 <;> rfl
      rw [hb] at h
      exact absurd h (by simp)

/-- C1: in a clean successful build, when the local alias maps of two
successfully translated properties register the same alias name, the
registered annotations coincide, so the final schema's aliases field carries
exactly the annotation the earlier property registered: the later entry never
changes the value observed under a shared name. -/
theorem c1_alias_first_registration_wins
    (f : Nat) (hm : String) (p : Program) (s : NativeModuleSchema)
    (errs perrs : List ParserError) (pairs : List PropPair)
    (hbuild : buildModuleSchema f hm p = (Except.ok s, errs, true))
    (hpairs : propsMap f (membersOf p) (getTypes p) (cxxOnlyOf hm p) =
      (Except.ok pairs, perrs, true))
    (i j : Nat) (hi : i < pairs.length) (hj : j < pairs.length)
    (k : String) (vi vj : TypeIR)
    (hvi : lookupFirst (pairs.get ⟨i, hi⟩).aliasMap k = some vi)
    (hvj : lookupFirst (pairs.get ⟨j, hj⟩).aliasMap k = some vj) :
    vj = vi ∧ lookupFirst s.aliases k = some vi := by
  obtain ⟨pairs2, perrs2, hpm2, hal⟩ := build_success_propsMap f hm p s errs hbuild
  rw [hpairs] at hpm2
  simp only [Prod.mk.injEq] at hpm2
  obtain ⟨hpe, _, _⟩ := hpm2
  have hpp : pairs = pairs2 := Except.ok.inj hpe
  subst hpp
  have hWF := propsMap_mem_insertWF f (membersOf p) (getTypes p) (cxxOnlyOf hm p)
    pairs perrs hpairs
  have hWFi : insertWF (getTypes p) (cxxOnlyOf hm p) k vi :=
    hWF _ (pairs.get_mem i hi) k vi (lookupFirst_mem _ k vi hvi)
  have hWFj : insertWF (getTypes p) (cxxOnlyOf hm p) k vj :=
    hWF _ (pairs.get_mem j hj) k vj (lookupFirst_mem _ k vj hvj)
  refine ⟨insertWF_unique _ _ _ _ _ hWFj hWFi, ?_⟩
  rw [hal]
  refine foldSpread_lookup k vi (pairs.map PropPair.aliasMap) [] ?_ ?_
  · intro mp hmp v hv
    rcases List.mem_map.mp hmp with ⟨pr, hpr, hpe2⟩
    subst hpe2
    exact insertWF_unique _ _ _ _ _ (hWF pr hpr k v hv) hWFi
  · left
    exact ⟨(pairs.get ⟨i, hi⟩).aliasMap,
      List.mem_map.mpr ⟨pairs.get ⟨i, hi⟩, pairs.get_mem i hi, rfl⟩,
      lookupFirst_mem _ k vi hvi⟩

/-- C1 witness: the concrete module with two methods whose parameters both
use the Foo alias, at explicit fuel. -/
theorem c1_alias_first_registration_wins_witness :
    TypeIR.ObjectT [("a", false, TypeIR.BooleanT)] =
      TypeIR.ObjectT [("a", false, TypeIR.BooleanT)] ∧
    lookupFirst
      (⟨[("Foo", TypeIR.ObjectT [("a", false, TypeIR.BooleanT)])],
        [⟨"m1", false, TypeIR.FunctionT [("x", false, TypeIR.TypeAliasT "Foo")] TypeIR.VoidT⟩,
         ⟨"m2", false, TypeIR.FunctionT [("y", false, TypeIR.TypeAliasT "Foo")] TypeIR.VoidT⟩],
        ["AliasMod"], none⟩ : NativeModuleSchema).aliases "Foo" =
      some (TypeIR.ObjectT [("a", false, TypeIR.BooleanT)]) := by
  have hbuild : buildModuleSchema 6 "MyAliasModule" pAlias =
      (Except.ok ⟨[("Foo", TypeIR.ObjectT [("a", false, TypeIR.BooleanT)])],
        [⟨"m1", false, TypeIR.FunctionT [("x", false, TypeIR.TypeAliasT "Foo")] TypeIR.VoidT⟩,
         ⟨"m2", false, TypeIR.FunctionT [("y", false, TypeIR.TypeAliasT "Foo")] TypeIR.VoidT⟩],
        ["AliasMod"], none⟩, [], true) := by
    simp [buildModuleSchema, getTypes, typesValues, objFromList, objInsertG, isModuleInterface,
      parseModuleNameCall, derivePlatforms, derivePlatformsStep, jsEndsWith, listStartsWith,
      propsMap, propStep, runCapture, buildPropertySchema, resolveTypeAnnot,
      resolveTypeAnnotAux, isResolvableStep, lookupFirst, translateFunctionTypeAnnot,
      paramsFold, paramStep, translateTypeAnnot, objPropsFold, objPropStep,
      translateArrayTypeAnnot, unwrapNullable, wrapNullable, isFunctionIR, isParserErrorKind,
      Delta.app, Delta.empty, mkResDelta, combineOk, reduceSchema, objSpread, consOpt,
      turboExt, pAlias, fooLiteral, goodCall, tsKindOf, typeAliasResolution]
  have hpairs : propsMap 6 (membersOf pAlias) (getTypes pAlias)
      (cxxOnlyOf "MyAliasModule" pAlias) =
      (Except.ok
        [⟨[("Foo", TypeIR.ObjectT [("a", false, TypeIR.BooleanT)])],
          ⟨"m1", false, TypeIR.FunctionT [("x", false, TypeIR.TypeAliasT "Foo")] TypeIR.VoidT⟩⟩,
         ⟨[("Foo", TypeIR.ObjectT [("a", false, TypeIR.BooleanT)])],
          ⟨"m2", false, TypeIR.FunctionT [("y", false, TypeIR.TypeAliasT "Foo")] TypeIR.VoidT⟩⟩],
       [], true) := by
    simp [membersOf, moduleSpecsOf, cxxOnlyOf, moduleNamesOf, getTypes, typesValues, objFromList,
      objInsertG, isModuleInterface, parseModuleNameCall, derivePlatforms, derivePlatformsStep,
      jsEndsWith, listStartsWith, propsMap, propStep, runCapture, buildPropertySchema,
      resolveTypeAnnot, resolveTypeAnnotAux, isResolvableStep, lookupFirst,
      translateFunctionTypeAnnot, paramsFold, paramStep, translateTypeAnnot, objPropsFold,
      objPropStep, translateArrayTypeAnnot, unwrapNullable, wrapNullable, isFunctionIR,
      isParserErrorKind, Delta.app, Delta.empty, mkResDelta, combineOk, consOpt,
      turboExt, pAlias, fooLiteral, goodCall, tsKindOf, typeAliasResolution]
  exact c1_alias_first_registration_wins 6 "MyAliasModule" pAlias
    ⟨[("Foo", TypeIR.ObjectT [("a", false, TypeIR.BooleanT)])],
      [⟨"m1", false, TypeIR.FunctionT [("x", false, TypeIR.TypeAliasT "Foo")] TypeIR.VoidT⟩,
       ⟨"m2", false, TypeIR.FunctionT [("y", false, TypeIR.TypeAliasT "Foo")] TypeIR.VoidT⟩],
      ["AliasMod"], none⟩ [] []
    [⟨[("Foo", TypeIR.ObjectT [("a", false, TypeIR.BooleanT)])],
      ⟨"m1", false, TypeIR.FunctionT [("x", false, TypeIR.TypeAliasT "Foo")] TypeIR.VoidT⟩⟩,
     ⟨[("Foo", TypeIR.ObjectT [("a", false, TypeIR.BooleanT)])],
      ⟨"m2", false, TypeIR.FunctionT [("y", false, TypeIR.TypeAliasT "Foo")] TypeIR.VoidT⟩⟩]
    hbuild hpairs 0 1 (by decide) (by decide) "Foo"
    (TypeIR.ObjectT [("a", false, TypeIR.BooleanT)])
    (TypeIR.ObjectT [("a", false, TypeIR.BooleanT)])
    (by simp [lookupFirst]) (by simp [lookupFirst])

end CodegenModules
